import Mathlib

/-!
Metaverse P2P core: seed session, block-sync session, version protocol and seed protocol.

A shallow embedding of `session_seed.cpp`, `session_block_sync.cpp`,
`protocol_version.cpp` and `protocol_seed.cpp`.

The sessions and protocols are callback driven.  Every C++ method becomes a function from
the state of the object to the state of the object.  The state carries

* the members the methods read and write,
* `trace`: the calls made to collaborators and the handler invocations, oldest first,
* `pending`: the callbacks the object has bound and handed to a collaborator
  (base session, connector, host pool, channel, protocol) and that were not called back
  yet.

A handler is a first-order description of the C++ closure, so that invoking it can be
executed.  Log statements are not modelled.  A run is an entry call followed by a list of
events, each event being one collaborator calling one pending callback back.
-/

set_option autoImplicit false

namespace libbitcoin

/-- Modelled from the spec: the error kinds listed in section 7 (error.hpp is not among
the sources). -/
inductive error where
  | success
  | channel_stopped
  | channel_timeout
  | accept_failed
  | address_blocked
  | bad_stream
  | operation_failed
  | not_found
  | not_satisfied
  | operation_canceled
  | file_system
  | service_stopped
deriving DecidableEq, Repr

/-- The type `code` of the sources: an error kind. -/
abbrev code := error

/-- The conversion `if (ec)`: true exactly when the code is not `success`. -/
def code.bool (ec : code) : Bool := decide (ec ≠ error.success)

/-- Modelled from the spec: the synchronizer (utility/synchronizer.hpp is not among the
sources).  A counter that fires its wrapped handler when the count reaches
`clearance_count`, or on the first error unless errors are suppressed, and that is
idempotent past the firing threshold.  The fourth argument of `synchronize` is
`suppress_errors`; protocol_seed.cpp passes `false` under the comment "Require three
callbacks (or any error) before calling complete". -/
structure synchronizer where
  clearance_count : Nat
  suppress_errors : Bool
  counter : Nat
deriving DecidableEq, Repr

/-- One call of the synchronized handler with `ec`: the new synchronizer and, when the
wrapped handler fires, the code it fires with (the code of the call that cleared it). -/
def synchronizer.call (y : synchronizer) (ec : code) : synchronizer × Option code :=
  if y.counter = y.clearance_count then (y, none)
  else
    let count :=
      if code.bool ec && !y.suppress_errors then y.clearance_count else y.counter + 1
    ({ y with counter := count }, if count = y.clearance_count then some ec else none)

namespace network

/-- A seed endpoint `config::endpoint` (host, port). -/
structure endpoint where
  host : String
  port : Nat
deriving DecidableEq, Repr

/-- A peer authority `config::authority` (ip, port). -/
structure authority where
  ip : Nat
  port : Nat
deriving DecidableEq, Repr

/-- A channel, identified by its nonce, with the authority of its peer. -/
structure channel where
  nonce : Nat
  authority : authority
deriving DecidableEq, Repr

/-- The fields of `network::settings` that the seed session reads. -/
structure settings where
  host_pool_capacity : Nat
  seeds : List endpoint
deriving DecidableEq, Repr

/-- A connector created by `create_connector`, identified by its creation index. -/
abbrev SharedConnector := Nat

namespace session_seed

/-- The handlers of type `result_handler` that occur in session_seed.cpp. -/
inductive result_handler where
  /-- The handler the user of the session passes to `start` or `restart`. -/
  | caller : result_handler
  /-- The handler `each` of `start_seeding`: `synchronize(all, seeds.size(), NAME, true)`
  where `all` captures `start_size` and `handler`; `id` names its counter. -/
  | each (id : Nat) (start_size : Nat) (handler : result_handler) : result_handler
deriving DecidableEq, Repr

/-- The callbacks the seed session binds and hands to a collaborator. -/
inductive callback where
  /-- Bound in `start`, given to `session::start`. -/
  | handle_started (handler : result_handler)
  /-- Bound in `handle_started`, given to `address_count`. -/
  | handle_count (handler : result_handler)
  /-- Bound in `handle_complete`, given to `address_count`. -/
  | handle_final_count (start_size : Nat) (handler : result_handler)
  /-- Bound in `start_seed`, given to `connect->connect`. -/
  | handle_connect (seed : endpoint) (handler : result_handler)
  /-- Bound in `handle_connect`, given to `register_channel` as `handle_started`. -/
  | handle_channel_start (ch : channel) (handler : result_handler)
  /-- Bound in `handle_connect`, given to `register_channel` as `handle_stopped`. -/
  | handle_channel_stop
  /-- The handler given to `protocol_seed::start` in `attach_protocols`. -/
  | seeding (ch : channel) (handler : result_handler)
deriving DecidableEq, Repr

/-- The entries of the trace of a seed session. -/
inductive action where
  /-- A handler is invoked with a code. -/
  | invoked (handler : result_handler) (ec : code)
  /-- The call `session::start(...)` of the base session. -/
  | session_start
  /-- The call `address_count(...)`: the host count is sampled. -/
  | address_count
  /-- The host pool reports the count `n` to the callback given to `address_count`. -/
  | counted (n : Nat)
  /-- The call `create_connector()`. -/
  | create_connector (connect : SharedConnector)
  /-- The call `connect->connect(seed, ...)`. -/
  | connect (connect : SharedConnector) (seed : endpoint)
  /-- The call `network_.store(...)` made by the third argument of `connect->connect`. -/
  | store (resolved : endpoint)
  /-- The call `register_channel(channel, ...)`. -/
  | register_channel (ch : channel)
  /-- The call `attach<protocol_ping>(channel)->start()`. -/
  | attach_ping (ch : channel)
  /-- The call `attach<protocol_seed>(channel)->start(handler)`. -/
  | attach_seed (ch : channel)
deriving DecidableEq, Repr

/-- The state of a seed session. -/
structure state where
  /-- The value of `stopped()`. -/
  stopped : Bool
  /-- The authorities for which `blacklisted` holds. -/
  blacklist : List authority
  /-- The number of connectors created so far. -/
  connectors : Nat
  /-- The number of `connect->connect` calls, each of which installs a store handler. -/
  store_handlers : Nat
  /-- The synchronizers created so far, by index. -/
  synchronizers : List synchronizer
  pending : List callback
  trace : List action
deriving DecidableEq, Repr

/-- A session on which nothing has happened yet. -/
def state.fresh (stopped : Bool) (blacklist : List authority) : state :=
  { stopped := stopped, blacklist := blacklist, connectors := 0, store_handlers := 0,
    synchronizers := [], pending := [], trace := [] }

/-- Append an entry to the trace. -/
def state.emit (s : state) (a : action) : state :=
  { s with trace := s.trace ++ [a] }

/-- Record a callback as handed to a collaborator. -/
def state.pend (s : state) (cb : callback) : state :=
  { s with pending := s.pending ++ [cb] }

/-- Modelled from the spec: `session::blacklisted` (session.cpp is not among the
sources): the authority is on the blacklist. -/
def blacklisted (a : authority) (s : state) : Bool := decide (a ∈ s.blacklist)

/-- The call `address_count(handler)`: the sample is requested, the reply comes later. -/
def address_count (handler : callback) (s : state) : state :=
  (s.emit action.address_count).pend handler

/-- The call `create_connector()`. -/
def create_connector (s : state) : SharedConnector × state :=
  (s.connectors,
    { s.emit (action.create_connector s.connectors) with connectors := s.connectors + 1 })

/-- The method `session_seed::handle_complete`. -/
def handle_complete (start_size : Nat) (handler : result_handler) (s : state) : state :=
  address_count (callback.handle_final_count start_size handler) s

/-- Invocation `handler(ec)`.  The caller's handler is outside the session: the invocation
is recorded.  The handler `each` steps its synchronizer and, when that clears, runs `all`,
which drops the code and calls `handle_complete(start_size, handler)`. -/
def invoke (handler : result_handler) (ec : code) (s : state) : state :=
  let s1 := s.emit (action.invoked handler ec)
  match handler with
  | result_handler.caller => s1
  | result_handler.each id start_size h =>
    match s1.synchronizers[id]? with
    | none => s1
    | some y =>
      let s2 := { s1 with synchronizers := s1.synchronizers.set id (y.call ec).1 }
      match (y.call ec).2 with
      | some _ => handle_complete start_size h s2
      | none => s2

/-- The method `session_seed::handle_final_count`. -/
def handle_final_count (current_size start_size : Nat) (handler : result_handler)
    (s : state) : state :=
  let result := if current_size > start_size then error.success else error.operation_failed
  invoke handler result s

/-- The method `session_seed::start_seed`. -/
def start_seed (seed : endpoint) (connect : SharedConnector) (handler : result_handler)
    (s : state) : state :=
  if s.stopped then invoke handler error.channel_stopped s
  else
    { (s.emit (action.connect connect seed)).pend (callback.handle_connect seed handler) with
      store_handlers := s.store_handlers + 1 }

/-- The method `session_seed::start_seeding`. -/
def start_seeding (settings_ : settings) (start_size : Nat) (connect : SharedConnector)
    (handler : result_handler) (s : state) : state :=
  let each := result_handler.each s.synchronizers.length start_size handler
  let s1 := { s with synchronizers := s.synchronizers ++ [⟨settings_.seeds.length, true, 0⟩] }
  settings_.seeds.foldl (fun st seed => start_seed seed connect each st) s1

/-- The method `session_seed::handle_count`. -/
def handle_count (settings_ : settings) (start_size : Nat) (handler : result_handler)
    (s : state) : state :=
  if start_size ≠ 0 then invoke handler error.success s
  else if settings_.seeds.isEmpty then invoke handler error.operation_failed s
  else
    let c := create_connector s
    start_seeding settings_ start_size c.1 handler c.2

/-- The method `session_seed::handle_started`. -/
def handle_started (ec : code) (handler : result_handler) (s : state) : state :=
  if code.bool ec then invoke handler ec s
  else address_count (callback.handle_count handler) s

/-- The method `session_seed::start`. -/
def start (settings_ : settings) (handler : result_handler) (s : state) : state :=
  if settings_.host_pool_capacity = 0 then invoke handler error.success s
  else (s.emit action.session_start).pend (callback.handle_started handler)

/-- The method `session_seed::restart`. -/
def restart (handler : result_handler) (s : state) : state :=
  handle_started error.success handler s

/-- The method `session_seed::handle_connect`. -/
def handle_connect (ec : code) (ch : channel) (_seed : endpoint) (handler : result_handler)
    (s : state) : state :=
  if code.bool ec then invoke handler ec s
  else if blacklisted ch.authority s then invoke handler error.address_blocked s
  else
    (((s.emit (action.register_channel ch)).pend
      (callback.handle_channel_start ch handler)).pend callback.handle_channel_stop)

/-- The method `session_seed::attach_protocols`. -/
def attach_protocols (ch : channel) (handler : result_handler) (s : state) : state :=
  (((s.emit (action.attach_ping ch)).emit (action.attach_seed ch)).pend
    (callback.seeding ch handler))

/-- The method `session_seed::handle_channel_start`. -/
def handle_channel_start (ec : code) (ch : channel) (handler : result_handler)
    (s : state) : state :=
  if code.bool ec then invoke handler ec s
  else attach_protocols ch handler s

/-- The method `session_seed::handle_channel_stop`: it only logs. -/
def handle_channel_stop (_ec : code) (s : state) : state := s

/-- One step of the environment of a seed session. -/
inductive event where
  /-- The session is stopped: `stopped()` holds from now on. -/
  | stop
  /-- The base session reports `ec` to the callback given to `session::start`. -/
  | started (handler : result_handler) (ec : code)
  /-- The host pool reports `n` to `handle_count`. -/
  | count (handler : result_handler) (n : Nat)
  /-- The host pool reports `n` to `handle_final_count`. -/
  | final_count (start_size : Nat) (handler : result_handler) (n : Nat)
  /-- The connector reports the result of the connect to `seed`. -/
  | connected (seed : endpoint) (handler : result_handler) (ec : code) (ch : channel)
  /-- The connector reports a resolved endpoint to the store handler. -/
  | resolved (resolved : endpoint)
  /-- The registration of the channel reports `ec` to `handle_channel_start`. -/
  | channel_started (ch : channel) (handler : result_handler) (ec : code)
  /-- The channel reports its stop to `handle_channel_stop`. -/
  | channel_stopped (ec : code)
  /-- The seed protocol reports `ec` to the handler it was started with. -/
  | seeded (ch : channel) (handler : result_handler) (ec : code)
deriving DecidableEq, Repr

/-- Take a pending callback, which is called back once. -/
def state.take (s : state) (cb : callback) : state :=
  { s with pending := s.pending.erase cb }

/-- The session reacts to one event.  A completion callback runs only while it is pending
and is consumed by the call. -/
def deliver (settings_ : settings) (e : event) (s : state) : state :=
  match e with
  | event.stop => { s with stopped := true }
  | event.started handler ec =>
    if callback.handle_started handler ∈ s.pending then
      handle_started ec handler (s.take (callback.handle_started handler))
    else s
  | event.count handler n =>
    if callback.handle_count handler ∈ s.pending then
      handle_count settings_ n handler
        ((s.take (callback.handle_count handler)).emit (action.counted n))
    else s
  | event.final_count start_size handler n =>
    if callback.handle_final_count start_size handler ∈ s.pending then
      handle_final_count n start_size handler
        ((s.take (callback.handle_final_count start_size handler)).emit (action.counted n))
    else s
  | event.connected seed handler ec ch =>
    if callback.handle_connect seed handler ∈ s.pending then
      handle_connect ec ch seed handler (s.take (callback.handle_connect seed handler))
    else s
  | event.resolved r =>
    if 0 < s.store_handlers then s.emit (action.store r) else s
  | event.channel_started ch handler ec =>
    if callback.handle_channel_start ch handler ∈ s.pending then
      handle_channel_start ec ch handler (s.take (callback.handle_channel_start ch handler))
    else s
  | event.channel_stopped ec =>
    if callback.handle_channel_stop ∈ s.pending then
      handle_channel_stop ec (s.take callback.handle_channel_stop)
    else s
  | event.seeded ch handler ec =>
    if callback.seeding ch handler ∈ s.pending then
      invoke handler ec (s.take (callback.seeding ch handler))
    else s

/-- A run: the events are delivered in order. -/
def run (settings_ : settings) (s : state) (events : List event) : state :=
  events.foldl (fun st e => deliver settings_ e st) s

/-- The codes the caller's handler received, oldest first. -/
def caller_codes : List action → List code
  | [] => []
  | action.invoked result_handler.caller ec :: t => ec :: caller_codes t
  | _ :: t => caller_codes t

/-- The host counts reported to the session, oldest first. -/
def counts : List action → List Nat
  | [] => []
  | action.counted n :: t => n :: counts t
  | _ :: t => counts t

/-- The entry is neither an invocation of the caller's handler nor a reported count. -/
def action.quiet : action → Bool
  | action.invoked result_handler.caller _ => false
  | action.counted _ => false
  | _ => true

/-- The host count reported last in a trace, if any. -/
def last_count : List action → Option Nat
  | [] => none
  | action.counted n :: t => (last_count t).orElse (fun _ => some n)
  | _ :: t => last_count t

/-- The events in which the connects to the seeds, in order, report the paired codes. -/
def connect_results (handler : result_handler) (ch : channel) :
    List endpoint → List code → List event
  | seed :: seeds, ec :: codes =>
    event.connected seed handler ec ch :: connect_results handler ch seeds codes
  | _, _ => []

/-- A callback that a seeding started with `start_size` for the caller's handler can leave
pending. -/
def good (start_size : Nat) : callback → Prop
  | callback.handle_started _ => False
  | callback.handle_count _ => False
  | callback.handle_final_count n h => n = start_size ∧ h = result_handler.caller
  | callback.handle_connect _ h =>
    ∃ id, h = result_handler.each id start_size result_handler.caller
  | callback.handle_channel_start _ h =>
    ∃ id, h = result_handler.each id start_size result_handler.caller
  | callback.handle_channel_stop => True
  | callback.seeding _ h =>
    ∃ id, h = result_handler.each id start_size result_handler.caller

/-- The trace of the second state extends that of the first by quiet entries. -/
def extends_quietly (s t : state) : Prop :=
  ∃ added : List action, t.trace = s.trace ++ added ∧ ∀ a ∈ added, a.quiet = true

/-- The pending callbacks of the state all belong to a seeding started with `start_size`. -/
def good_pending (start_size : Nat) (s : state) : Prop :=
  ∀ cb ∈ s.pending, good start_size cb

/-- Every operation_failed the caller's handler received comes after a trace in which the
count reported last is `n0`. -/
def failures_follow (n0 : Nat) (t : List action) : Prop :=
  ∀ pre post : List action,
    t = pre ++ action.invoked result_handler.caller error.operation_failed :: post →
    last_count pre = some n0

end session_seed
end network

namespace node

open network

/-- A slot of the reservation table (`reservation::ptr`), identified by its slot id. -/
structure reservation where
  slot : Nat
deriving DecidableEq, Repr

/-- Modelled from the spec: `reservations::remove` (reservations.hpp is not among the
sources): `remove(slot)` removes the slot from the table. -/
def reservations_remove (table : List reservation) (row : reservation) : List reservation :=
  table.erase row

/-- The operation `--n` on an unsigned counter of `w` bits (the type `size_t`). -/
def decrement (w n : Nat) : Nat := (n + (2 ^ w - 1)) % 2 ^ w

namespace session_block_sync

/-- The handlers of type `result_handler` that occur in session_block_sync.cpp. -/
inductive result_handler where
  /-- The handler the user of the session passes to `start`. -/
  | caller : result_handler
  /-- The handler given to `new_connection` in `handle_started`: it forwards to `func`,
  which is `synchronize(handler, table.size(), NAME)`; `id` names its counter. -/
  | func (id : Nat) (handler : result_handler) : result_handler
deriving DecidableEq, Repr

/-- The callbacks the block-sync session binds and hands to a collaborator. -/
inductive callback where
  /-- Bound in `start`, given to `session::start`. -/
  | handle_started (handler : result_handler)
  /-- Bound in `new_connection` (`connectFunc`), given to `connect`. -/
  | handle_connect (connect : SharedConnector) (row : reservation) (handler : result_handler)
  /-- Bound in `handle_connect`, given to `register_channel` as `handle_started`. -/
  | handle_channel_start (ch : channel) (connect : SharedConnector) (row : reservation)
      (handler : result_handler)
  /-- Bound in `handle_connect`, given to `register_channel` as `handle_stopped`. -/
  | handle_channel_stop (connect : SharedConnector) (row : reservation)
      (handler : result_handler)
  /-- Bound in `attach_protocols`, given to `protocol_block_sync::start`. -/
  | handle_complete (ch : channel) (connect : SharedConnector) (row : reservation)
      (handler : result_handler)
  /-- Bound in `reset_timer`, given to `timer_->start`. -/
  | handle_timer (connect : SharedConnector)
deriving DecidableEq, Repr

/-- The entries of the trace of a block-sync session. -/
inductive action where
  /-- A handler is invoked with a code. -/
  | invoked (handler : result_handler) (ec : code)
  /-- The timer is created in `start`. -/
  | timer_create
  /-- The call `session::start(...)` of the base session. -/
  | session_start
  /-- The call `create_connector()`. -/
  | create_connector (connect : SharedConnector)
  /-- The call `this->connect(connect, connectFunc)`: a peer is dialled. -/
  | connect (connect : SharedConnector) (connectFunc : callback)
  /-- The call `register_channel(channel, ...)`. -/
  | register_channel (ch : channel)
  /-- The call `attach<protocol_version_quiet>(channel)->start(handle_started)`. -/
  | attach_version_quiet (ch : channel)
  /-- The call `attach<protocol_ping>(channel)->start()`. -/
  | attach_ping (ch : channel)
  /-- The call `attach<protocol_address>(channel)->start()`. -/
  | attach_address (ch : channel)
  /-- The call `attach<protocol_block_sync>(channel, row)->start(handle_complete)`. -/
  | attach_block_sync (ch : channel) (row : reservation)
  /-- The call `timer_->stop()`. -/
  | timer_stop
  /-- The call `timer_->start(handle_timer)`. -/
  | timer_start
deriving DecidableEq, Repr

/-- The state of a block-sync session whose timer has been allocated by `start`. -/
structure state where
  /-- The value of `stopped()`. -/
  stopped : Bool
  reservations_count_ : Nat
  /-- The table of `reservations_`. -/
  reservations_ : List reservation
  /-- The number of connectors created so far. -/
  connectors : Nat
  /-- The synchronizers created so far, by index. -/
  synchronizers : List synchronizer
  pending : List callback
  trace : List action
deriving DecidableEq, Repr

/-- A session as the constructor leaves it, over the given reservation table. -/
def state.fresh (stopped : Bool) (table : List reservation) : state :=
  { stopped := stopped, reservations_count_ := 0, reservations_ := table, connectors := 0,
    synchronizers := [], pending := [], trace := [] }

/-- Append an entry to the trace. -/
def state.emit (s : state) (a : action) : state :=
  { s with trace := s.trace ++ [a] }

/-- Record a callback as handed to a collaborator. -/
def state.pend (s : state) (cb : callback) : state :=
  { s with pending := s.pending ++ [cb] }

/-- The call `create_connector()`. -/
def create_connector (s : state) : SharedConnector × state :=
  (s.connectors,
    { s.emit (action.create_connector s.connectors) with connectors := s.connectors + 1 })

/-- Invocation `handler(ec)`.  The caller's handler is outside the session: the invocation
is recorded.  The handler `func` steps its synchronizer and, when that clears, invokes the
wrapped handler with the code the synchronizer fires with. -/
def invoke : result_handler → code → state → state
  | result_handler.caller, ec, s => s.emit (action.invoked result_handler.caller ec)
  | result_handler.func id h, ec, s =>
    let s1 := s.emit (action.invoked (result_handler.func id h) ec)
    match s1.synchronizers[id]? with
    | none => s1
    | some y =>
      let s2 := { s1 with synchronizers := s1.synchronizers.set id (y.call ec).1 }
      match (y.call ec).2 with
      | some r => invoke h r s2
      | none => s2

/-- The method `session_block_sync::start`. -/
def start (handler : result_handler) (s : state) : state :=
  ((s.emit action.timer_create).emit action.session_start).pend
    (callback.handle_started handler)

/-- The method `session_block_sync::new_connection`. -/
def new_connection (connect : SharedConnector) (row : reservation) (handler : result_handler)
    (s : state) : state :=
  if s.stopped then s
  else
    (s.emit (action.connect connect (callback.handle_connect connect row handler))).pend
      (callback.handle_connect connect row handler)

/-- The method `session_block_sync::handle_started`. -/
def handle_started (ec : code) (handler : result_handler) (s : state) : state :=
  if code.bool ec then invoke handler ec s
  else
    let table := s.reservations_
    if table.isEmpty then invoke handler error.success s
    else
      let c := create_connector s
      let s1 := { c.2 with reservations_count_ := table.length }
      let func := result_handler.func s1.synchronizers.length handler
      let s2 := { s1 with synchronizers := s1.synchronizers ++ [⟨table.length, false, 0⟩] }
      table.foldl (fun st row => new_connection c.1 row func st) s2

/-- The method `session_block_sync::handle_complete`; `w` is the width of the counter. -/
def handle_complete (w : Nat) (ec : code) (_ch : channel) (connect : SharedConnector)
    (row : reservation) (handler : result_handler) (s : state) : state :=
  if !code.bool ec then
    let s1 := s.emit action.timer_stop
    let s2 := { s1 with
      reservations_count_ := decrement w s1.reservations_count_,
      reservations_ := reservations_remove s1.reservations_ row }
    invoke handler ec s2
  else if ec = error.not_satisfied then
    if s.reservations_count_ ≠ 1 then
      invoke handler error.success
        { s with reservations_count_ := decrement w s.reservations_count_ }
    else new_connection connect row handler s
  else new_connection connect row handler s

/-- The method `session_block_sync::handle_connect`. -/
def handle_connect (w : Nat) (ec : code) (ch : channel) (connect : SharedConnector)
    (row : reservation) (handler : result_handler) (s : state) : state :=
  if code.bool ec then
    if ec = error.not_satisfied then handle_complete w ec ch connect row handler s
    else new_connection connect row handler s
  else
    ((s.emit (action.register_channel ch)).pend
      (callback.handle_channel_start ch connect row handler)).pend
      (callback.handle_channel_stop connect row handler)

/-- The method `session_block_sync::attach_handshake_protocols`; the handler it passes on
belongs to the base session. -/
def attach_handshake_protocols (ch : channel) (s : state) : state :=
  s.emit (action.attach_version_quiet ch)

/-- The method `session_block_sync::attach_protocols`. -/
def attach_protocols (ch : channel) (connect : SharedConnector) (row : reservation)
    (handler : result_handler) (s : state) : state :=
  ((((s.emit (action.attach_ping ch)).emit (action.attach_address ch)).emit
    (action.attach_block_sync ch row)).pend (callback.handle_complete ch connect row handler))

/-- The method `session_block_sync::handle_channel_start`. -/
def handle_channel_start (w : Nat) (ec : code) (ch : channel) (connect : SharedConnector)
    (row : reservation) (handler : result_handler) (s : state) : state :=
  if code.bool ec then handle_complete w ec ch connect row handler s
  else attach_protocols ch connect row handler s

/-- The method `session_block_sync::handle_channel_stop`: it only logs. -/
def handle_channel_stop (_ec : code) (_connect : SharedConnector) (_row : reservation)
    (_handler : result_handler) (s : state) : state := s

/-- The method `session_block_sync::reset_timer`. -/
def reset_timer (connect : SharedConnector) (s : state) : state :=
  if s.stopped then s
  else (s.emit action.timer_start).pend (callback.handle_timer connect)

/-- The method `session_block_sync::handle_timer`. -/
def handle_timer (_ec : code) (connect : SharedConnector) (s : state) : state :=
  if s.stopped then s
  else reset_timer connect s

/-- The number of times `handler` is invoked in a trace. -/
def invocations (handler : result_handler) : List action → Nat
  | [] => 0
  | action.invoked h _ :: t =>
    (if h = handler then 1 else 0) + invocations handler t
  | _ :: t => invocations handler t

/-- The number of peers dialled in a trace. -/
def connects : List action → Nat
  | [] => 0
  | action.connect _ _ :: t => connects t + 1
  | _ :: t => connects t

/-- The nesting depth of a handler. -/
def depth : result_handler → Nat
  | result_handler.caller => 0
  | result_handler.func _ h => depth h + 1

/-- The entry is the invocation of a handler nested strictly inside `h`. -/
def inner (h : result_handler) (a : action) : Prop :=
  ∃ h1 ec1, a = action.invoked h1 ec1 ∧ depth h1 < depth h

/-- A state in which one slot is outstanding: the session runs, the table holds slot 0. -/
def last_slot_state : state :=
  { stopped := false, reservations_count_ := 1, reservations_ := [⟨0⟩], connectors := 1,
    synchronizers := [], pending := [], trace := [] }

/-- The number of handler invocations that carry a code other than success in a trace. -/
def failures : List action → Nat
  | [] => 0
  | action.invoked _ ec :: t => (if ec = error.success then 0 else 1) + failures t
  | _ :: t => failures t

end session_block_sync
end node
end libbitcoin

namespace libbitcoin

/-- The constant `max_uint32` of constants.hpp: the largest `uint32_t`. -/
def max_uint32 : Nat := 4294967295

/-- The service bit `services::node_network` of constants.hpp: `1 << 0`. -/
def node_network : Nat := 1

/-- The macro `BC_USER_AGENT` of constants.hpp; the macro `MVS_VERSION` it splices in is
defined outside the sources and is a parameter. -/
def BC_USER_AGENT (MVS_VERSION : String) : String := "/metaverse:" ++ MVS_VERSION ++ "/"

namespace message

/-- Modelled from the spec: the network address of section 3 (network_address.hpp is not
among the sources): timestamp, service bitmask, the bytes of the IP, port. -/
structure network_address where
  timestamp : Nat
  services : Nat
  ip : List Nat
  port : Nat
deriving DecidableEq, Repr

/-- Modelled from the spec: the version message with its fields in the order of section 6
(version.hpp is not among the sources). -/
structure version where
  value : Nat
  services : Nat
  timestamp : Nat
  addr_recv : network_address
  addr_from : network_address
  nonce : Nat
  user_agent : String
  start_height : Nat
  relay : Bool
deriving DecidableEq, Repr

end message

namespace network

/-- The type `event_handler` of protocol.hpp: a handler outside the protocol, by name. -/
abbrev event_handler := Nat

namespace protocol_version

open message

/-- The fields of `network::settings` that the version protocol reads. -/
structure settings where
  protocol : Nat
  self : authority
  relay_transactions : Bool
deriving DecidableEq, Repr

/-- The callbacks the version protocol binds and hands to the channel. -/
inductive callback where
  /-- Given to `subscribe<version>` in `start`. -/
  | handle_receive_version
  /-- Given to `subscribe<verack>` in `start`. -/
  | handle_receive_verack
  /-- Given to `send` in `send_version`. -/
  | handle_version_sent
  /-- Given to `send` in `handle_receive_version`. -/
  | handle_verack_sent
deriving DecidableEq, Repr

/-- The entries of the trace of a version protocol. -/
inductive action where
  /-- The call `complete_handler_(ec)`. -/
  | invoked (handler : event_handler) (ec : code)
  /-- The call `protocol_timer::start(settings.channel_handshake(), ...)`. -/
  | timer_start
  /-- The call `subscribe<version>(...)`. -/
  | subscribe_version
  /-- The call `subscribe<verack>(...)`. -/
  | subscribe_verack
  /-- The call `send(self, ...)` of `send_version`. -/
  | send_version (self : version)
  /-- The call `send(verack(), ...)`. -/
  | send_verack
  /-- The call `set_peer_version(message)`. -/
  | set_peer_version (message : version)
  /-- The call `set_event(ec)`: an event is recorded. -/
  | event (ec : code)
deriving DecidableEq, Repr

/-- The state of a version protocol with its channel. -/
structure state where
  /-- The value of `stopped()`. -/
  stopped : Bool
  /-- The value of `nonce()`: the nonce of the channel. -/
  nonce : Nat
  /-- The value of `authority()`: the authority of the peer. -/
  authority : authority
  complete_handler_ : Option event_handler
  /-- The synchronizer given to `protocol_timer::start`, once the protocol has started. -/
  events : Option synchronizer
  /-- The peer version of the channel. -/
  peer_version : Option version
  pending : List callback
  trace : List action
deriving DecidableEq, Repr

/-- A protocol as constructed on a channel that is not stopped. -/
def state.fresh (nonce : Nat) (authority : network.authority) : state :=
  { stopped := false, nonce := nonce, authority := authority, complete_handler_ := none,
    events := none, peer_version := none, pending := [], trace := [] }

/-- Append an entry to the trace. -/
def state.emit (s : state) (a : action) : state :=
  { s with trace := s.trace ++ [a] }

/-- Record a callback as handed to the channel. -/
def state.pend (s : state) (cb : callback) : state :=
  { s with pending := s.pending ++ [cb] }

/-- The function `protocol_version::version_factory`.  The conversion
`to_network_address` of `config::authority`, the wall-clock reading `time_stamp()` and
`MVS_VERSION` are parameters; a failed assertion gives `none`. -/
def version_factory (to_network_address : authority → network_address) (time_stamp : Nat)
    (MVS_VERSION : String) (authority : authority) (settings : settings) (nonce : Nat)
    (height : Nat) : Option version :=
  if height < max_uint32 then
    let height32 := height % 2 ^ 32
    let self : network_address :=
      { to_network_address authority with services := node_network }
    some
      { value := settings.protocol,
        services := self.services,
        timestamp := time_stamp,
        addr_recv := self,
        addr_from := to_network_address settings.self,
        nonce := nonce,
        user_agent := BC_USER_AGENT MVS_VERSION,
        start_height := height32,
        relay := settings.relay_transactions }
  else none

/-- The method `protocol_version::handle_complete`. -/
def handle_complete (ec : code) (s : state) : state :=
  match s.complete_handler_ with
  | none => s
  | some handler => { s.emit (action.invoked handler ec) with complete_handler_ := none }

/-- Modelled from the spec: `set_event` (protocol_events.hpp is not among the sources)
signals one step of the completion: it calls the synchronized handler given to
`protocol_timer::start`, which wraps `handler1`, that is `handle_complete`. -/
def set_event (ec : code) (s : state) : state :=
  let s1 := s.emit (action.event ec)
  match s1.events with
  | none => s1
  | some y =>
    let s2 := { s1 with events := some (y.call ec).1 }
    match (y.call ec).2 with
    | some r => handle_complete r s2
    | none => s2

/-- The method `protocol_version::send_version`. -/
def send_version (self : version) (s : state) : state :=
  (s.emit (action.send_version self)).pend callback.handle_version_sent

/-- The method `protocol_version::start`; `height` is the value of `network_.height()`.
A failed assertion of `version_factory` gives `none`. -/
def start (to_network_address : authority → network_address) (time_stamp : Nat)
    (MVS_VERSION : String) (height : Nat) (settings : settings) (handler : event_handler)
    (s : state) : Option state :=
  let s1 := { s with complete_handler_ := some handler }
  let s2 := { s1.emit action.timer_start with events := some ⟨2, false, 0⟩ }
  let s3 := (s2.emit action.subscribe_version).pend callback.handle_receive_version
  let s4 := (s3.emit action.subscribe_verack).pend callback.handle_receive_verack
  match version_factory to_network_address time_stamp MVS_VERSION s.authority settings
      s.nonce height with
  | none => none
  | some self => some (send_version self s4)

/-- The method `protocol_version::handle_receive_version`, with its return value. -/
def handle_receive_version (ec : code) (message : version) (s : state) : Bool × state :=
  if s.stopped then (false, s)
  else if code.bool ec then (false, set_event ec s)
  else
    let s1 := { s.emit (action.set_peer_version message) with peer_version := some message }
    let s2 := (s1.emit action.send_verack).pend callback.handle_verack_sent
    (false, set_event error.success s2)

/-- The method `protocol_version::handle_receive_verack`, with its return value. -/
def handle_receive_verack (ec : code) (s : state) : Bool × state :=
  if s.stopped then (false, s)
  else if code.bool ec then (false, set_event ec s)
  else (false, set_event error.success s)

/-- The method `protocol_version::handle_version_sent`. -/
def handle_version_sent (ec : code) (s : state) : state :=
  if s.stopped then s
  else if code.bool ec then set_event ec s
  else s

/-- The method `protocol_version::handle_verack_sent`. -/
def handle_verack_sent (ec : code) (s : state) : state :=
  if s.stopped then s
  else if code.bool ec then set_event ec s
  else s

/-- One callback invocation by the channel. -/
inductive event where
  /-- An inbound version, or the failure to receive one, reaches `handle_receive_version`. -/
  | receive_version (ec : code) (message : version)
  /-- An inbound verack, or the failure to receive one, reaches `handle_receive_verack`. -/
  | receive_verack (ec : code)
  /-- The send of the version completes. -/
  | version_sent (ec : code)
  /-- The send of the verack completes. -/
  | verack_sent (ec : code)
deriving DecidableEq, Repr

/-- The callback an event invokes. -/
def event.callback : event → callback
  | event.receive_version _ _ => callback.handle_receive_version
  | event.receive_verack _ => callback.handle_receive_verack
  | event.version_sent _ => callback.handle_version_sent
  | event.verack_sent _ => callback.handle_verack_sent

/-- The code an event carries. -/
def event.code : event → code
  | event.receive_version ec _ => ec
  | event.receive_verack ec => ec
  | event.version_sent ec => ec
  | event.verack_sent ec => ec

/-- Take a pending callback for its invocation. -/
def state.take (s : state) (cb : callback) : state :=
  { s with pending := s.pending.erase cb }

/-- Modelled from the spec: a subscription handler stays subscribed when it returns true and
is detached when it returns false (channel.hpp is not among the sources). -/
def resubscribe (cb : callback) (r : Bool × state) : state :=
  if r.1 then r.2.pend cb else r.2

/-- The protocol reacts to one event.  A callback runs only while it is pending; a send
completion is called once. -/
def deliver (e : event) (s : state) : state :=
  if e.callback ∈ s.pending then
    match e with
    | event.receive_version ec message =>
      resubscribe callback.handle_receive_version
        (handle_receive_version ec message (s.take callback.handle_receive_version))
    | event.receive_verack ec =>
      resubscribe callback.handle_receive_verack
        (handle_receive_verack ec (s.take callback.handle_receive_verack))
    | event.version_sent ec => handle_version_sent ec (s.take callback.handle_version_sent)
    | event.verack_sent ec => handle_verack_sent ec (s.take callback.handle_verack_sent)
  else s

/-- A run: the events are delivered in order. -/
def run (s : state) (events : List event) : state :=
  events.foldl (fun st e => deliver e st) s

/-- Every event of the sequence invokes a callback that is pending when it occurs. -/
def valid (s : state) : List event → Bool
  | [] => true
  | e :: es => decide (e.callback ∈ s.pending) && valid (deliver e s) es

/-- The codes the start handler received, oldest first. -/
def handler_codes : List action → List code
  | [] => []
  | action.invoked _ ec :: t => ec :: handler_codes t
  | _ :: t => handler_codes t

/-- The codes of the recorded events, oldest first. -/
def recorded : List action → List code
  | [] => []
  | action.event ec :: t => ec :: recorded t
  | _ :: t => recorded t

/-- The number of veracks sent in a trace. -/
def veracks : List action → Nat
  | [] => 0
  | action.send_verack :: t => veracks t + 1
  | _ :: t => veracks t

/-- The handshake is under way for the handler `h`: the channel is not stopped, the handler
is stored, the synchronizer has counted the inbound messages received so far (`gv` for the
version, `ga` for the verack), and a received message has used up its subscription. -/
def waiting (h : event_handler) (gv ga : Bool) (s : state) : Prop :=
  s.stopped = false
  ∧ s.complete_handler_ = some h
  ∧ s.events = some ⟨2, false, (if gv then 1 else 0) + (if ga then 1 else 0)⟩
  ∧ (gv = false ∨ ga = false)
  ∧ s.pending.count callback.handle_receive_version + (if gv then 1 else 0) ≤ 1
  ∧ s.pending.count callback.handle_receive_verack + (if ga then 1 else 0) ≤ 1

/-- A protocol as `start` leaves it, before any inbound message, with the trace of `start`
left out: the channel nonce is 43690 and the start handler is handler 1. -/
def handshaking : state :=
  { stopped := false, nonce := 43690, authority := ⟨5, 5251⟩, complete_handler_ := some 1,
    events := some ⟨2, false, 0⟩, peer_version := none,
    pending := [callback.handle_receive_version, callback.handle_receive_verack,
      callback.handle_version_sent],
    trace := [] }

/-- An inbound version message whose nonce is 43690. -/
def echoed_version : version :=
  { value := 70012, services := 1, timestamp := 1500000000,
    addr_recv := ⟨0, 1, [9], 5252⟩, addr_from := ⟨0, 0, [5], 5251⟩, nonce := 43690,
    user_agent := "/metaverse:0.8.2/", start_height := 100, relay := true }

/-- The outcome of the handshake as the specification states it, for a sequence of
callback invocations: the first error reported by any callback if it comes before
completion, success once both an inbound version and an inbound verack were received
without error, nothing otherwise; `version` and `verack` tell what was received so far. -/
def spec_outcome (version verack : Bool) : List event → Option code
  | [] => none
  | e :: es =>
    if code.bool e.code then some e.code
    else
      match e with
      | event.receive_version _ _ =>
        if verack then some error.success else spec_outcome true verack es
      | event.receive_verack _ =>
        if version then some error.success else spec_outcome version true es
      | _ => spec_outcome version verack es

end protocol_version
end network
end libbitcoin

namespace libbitcoin
namespace network
namespace protocol_seed

open message

/-- The fields of `network::settings` that the seed protocol reads. -/
structure settings where
  host_pool_capacity : Nat
  self : authority
deriving DecidableEq, Repr

/-- The callbacks the seed protocol binds and hands to the channel or the host pool. -/
inductive callback where
  /-- Given to `subscribe<address>` in `start`. -/
  | handle_receive_address
  /-- Given to `send` in `send_own_address`. -/
  | handle_send_address
  /-- Given to `send` of `get_address` in `start`. -/
  | handle_send_get_address
  /-- Given to `network_.store` in `handle_receive_address`. -/
  | handle_store_addresses
deriving DecidableEq, Repr

/-- The entries of the trace of a seed protocol. -/
inductive action where
  /-- The call `handler(ec)` of `handle_seeding_complete`. -/
  | invoked (handler : event_handler) (ec : code)
  /-- The call `stop(ec)`: the channel is stopped with the code. -/
  | stop (ec : code)
  /-- The call `protocol_timer::start(settings.channel_germination(), ...)`. -/
  | timer_start
  /-- The call `subscribe<address>(...)`. -/
  | subscribe_address
  /-- The call `send(self, ...)` of an address message with the given entries. -/
  | send_address (addresses : List network_address)
  /-- The call `send(get_address(), ...)`. -/
  | send_get_address
  /-- The call `network_.store(message->addresses, ...)`. -/
  | store (addresses : List network_address)
  /-- The call `set_event(ec)`: an event is recorded. -/
  | event (ec : code)
deriving DecidableEq, Repr

/-- The state of a seed protocol with its channel. -/
structure state where
  /-- The value of `stopped()`. -/
  stopped : Bool
  /-- The synchronizer given to `protocol_timer::start`, with the handler that the closure
  `complete` it wraps has captured, once the protocol has started. -/
  events : Option (synchronizer × event_handler)
  pending : List callback
  trace : List action
deriving DecidableEq, Repr

/-- A protocol as constructed on a channel that is not stopped. -/
def state.fresh : state :=
  { stopped := false, events := none, pending := [], trace := [] }

/-- Append an entry to the trace. -/
def state.emit (s : state) (a : action) : state :=
  { s with trace := s.trace ++ [a] }

/-- Record a callback as handed to a collaborator. -/
def state.pend (s : state) (cb : callback) : state :=
  { s with pending := s.pending ++ [cb] }

/-- The method `protocol_seed::handle_seeding_complete`; `stop(ec)` stops the channel and
the protocol. -/
def handle_seeding_complete (ec : code) (handler : event_handler) (s : state) : state :=
  { (s.emit (action.invoked handler ec)).emit (action.stop ec) with stopped := true }

/-- Modelled from the spec: `set_event` (protocol_events.hpp is not among the sources)
signals one step of the completion: it calls the synchronized handler given to
`protocol_timer::start`, which wraps `complete`, that is `handle_seeding_complete` with
the captured handler. -/
def set_event (ec : code) (s : state) : state :=
  let s1 := s.emit (action.event ec)
  match s1.events with
  | none => s1
  | some (y, handler) =>
    let s2 := { s1 with events := some ((y.call ec).1, handler) }
    match (y.call ec).2 with
    | some r => handle_seeding_complete r handler s2
    | none => s2

/-- The method `protocol_seed::send_own_address`; the conversion `to_network_address` of
`config::authority` is a parameter. -/
def send_own_address (to_network_address : authority → network_address)
    (settings : settings) (s : state) : state :=
  if settings.self.port = 0 then set_event error.success s
  else
    (s.emit (action.send_address [to_network_address settings.self])).pend
      callback.handle_send_address

/-- The method `protocol_seed::start`. -/
def start (to_network_address : authority → network_address) (settings : settings)
    (handler : event_handler) (s : state) : state :=
  if settings.host_pool_capacity = 0 then handle_seeding_complete error.not_found handler s
  else
    let s1 := { s.emit action.timer_start with events := some (⟨3, false, 0⟩, handler) }
    let s2 := (s1.emit action.subscribe_address).pend callback.handle_receive_address
    let s3 := send_own_address to_network_address settings s2
    (s3.emit action.send_get_address).pend callback.handle_send_get_address

/-- The method `protocol_seed::handle_receive_address`, with its return value;
`addresses` are the addresses of the message. -/
def handle_receive_address (ec : code) (addresses : List network_address) (s : state) :
    Bool × state :=
  if s.stopped then (false, s)
  else if code.bool ec then (false, set_event ec s)
  else (false, (s.emit (action.store addresses)).pend callback.handle_store_addresses)

/-- The method `protocol_seed::handle_send_address`. -/
def handle_send_address (ec : code) (s : state) : state :=
  if s.stopped then s
  else if code.bool ec then set_event ec s
  else set_event error.success s

/-- The method `protocol_seed::handle_send_get_address`. -/
def handle_send_get_address (ec : code) (s : state) : state :=
  if s.stopped then s
  else if code.bool ec then set_event ec s
  else set_event error.success s

/-- The method `protocol_seed::handle_store_addresses`. -/
def handle_store_addresses (ec : code) (s : state) : state :=
  if s.stopped then s
  else if code.bool ec then set_event ec s
  else set_event error.channel_stopped s

/-- One callback invocation by the channel or the host pool. -/
inductive event where
  /-- An inbound address message, or the failure to receive one. -/
  | address_received (ec : code) (addresses : List network_address)
  /-- The send of the own address completes. -/
  | address_sent (ec : code)
  /-- The send of `get_address` completes. -/
  | get_address_sent (ec : code)
  /-- The store of the received addresses completes. -/
  | addresses_stored (ec : code)
deriving DecidableEq, Repr

/-- The callback an event invokes. -/
def event.callback : event → callback
  | event.address_received _ _ => callback.handle_receive_address
  | event.address_sent _ => callback.handle_send_address
  | event.get_address_sent _ => callback.handle_send_get_address
  | event.addresses_stored _ => callback.handle_store_addresses

/-- The code an event carries. -/
def event.code : event → code
  | event.address_received ec _ => ec
  | event.address_sent ec => ec
  | event.get_address_sent ec => ec
  | event.addresses_stored ec => ec

/-- Take a pending callback for its invocation. -/
def state.take (s : state) (cb : callback) : state :=
  { s with pending := s.pending.erase cb }

/-- Modelled from the spec: a subscription handler stays subscribed when it returns true and
is detached when it returns false (channel.hpp is not among the sources). -/
def resubscribe (cb : callback) (r : Bool × state) : state :=
  if r.1 then r.2.pend cb else r.2

/-- The protocol reacts to one event.  A callback runs only while it is pending; a
completion is called once. -/
def deliver (e : event) (s : state) : state :=
  if e.callback ∈ s.pending then
    match e with
    | event.address_received ec addresses =>
      resubscribe callback.handle_receive_address
        (handle_receive_address ec addresses (s.take callback.handle_receive_address))
    | event.address_sent ec => handle_send_address ec (s.take callback.handle_send_address)
    | event.get_address_sent ec =>
      handle_send_get_address ec (s.take callback.handle_send_get_address)
    | event.addresses_stored ec =>
      handle_store_addresses ec (s.take callback.handle_store_addresses)
  else s

/-- A run: the events are delivered in order. -/
def run (s : state) (events : List event) : state :=
  events.foldl (fun st e => deliver e st) s

/-- Every event of the sequence invokes a callback that is pending when it occurs. -/
def valid (s : state) : List event → Bool
  | [] => true
  | e :: es => decide (e.callback ∈ s.pending) && valid (deliver e s) es

/-- The codes the seed handler received, oldest first. -/
def handler_codes : List action → List code
  | [] => []
  | action.invoked _ ec :: t => ec :: handler_codes t
  | _ :: t => handler_codes t

/-- The codes of the recorded events, oldest first. -/
def recorded : List action → List code
  | [] => []
  | action.event ec :: t => ec :: recorded t
  | _ :: t => recorded t

/-- The address messages sent in a trace, oldest first, each with its entries. -/
def sent_addresses : List action → List (List network_address)
  | [] => []
  | action.send_address a :: t => a :: sent_addresses t
  | _ :: t => sent_addresses t

/-- The seeding is under way for the handler `h`: the channel is not stopped, and the
synchronizer over three events has counted at most the sends that have completed, so that
with the sends still pending the count stays below three. -/
def seeding (h : event_handler) (s : state) : Prop :=
  s.stopped = false
  ∧ ∃ c : Nat, s.events = some (⟨3, false, c⟩, h)
    ∧ c + s.pending.count callback.handle_send_address
        + s.pending.count callback.handle_send_get_address ≤ 2

/-- A state in which the seeding is under way and the received addresses are being stored:
the own address has been sent and acknowledged, `get_address` is still on its way. -/
def storing : state :=
  { stopped := false, events := some (⟨3, false, 1⟩, 1),
    pending := [callback.handle_send_get_address, callback.handle_store_addresses],
    trace := [] }

/-- A list of three addresses as a seed returns them. -/
def three_addresses : List network_address :=
  [⟨0, 1, [1], 5251⟩, ⟨0, 1, [2], 5251⟩, ⟨0, 1, [3], 5251⟩]

end protocol_seed
end network
end libbitcoin

namespace libbitcoin

/-- The constant `no_timestamp` of constants.hpp. -/
def no_timestamp : Nat := 0

/-- The constant `unspecified_ip_port` of constants.hpp. -/
def unspecified_ip_port : Nat := 0

/-- The constant `unspecified_ip_address` of constants.hpp: its sixteen bytes. -/
def unspecified_ip_address : List Nat :=
  [0x00, 0x00, 0x00, 0x00, 0x00, 0x00, 0x00, 0x00,
   0x00, 0x00, 0xff, 0xff, 0x00, 0x00, 0x00, 0x00]

/-- The constant `unspecified_network_address` of constants.hpp. -/
def unspecified_network_address : message.network_address :=
  { timestamp := no_timestamp,
    services := node_network,
    ip := unspecified_ip_address,
    port := unspecified_ip_port }

namespace explorer

/-- The class `explorer_exception`: the members its constructor sets, which `code()` and
`message()` read (exception.hpp is not among the sources); `code_` is a `uint32_t`. -/
structure explorer_exception where
  code_ : Nat
  message_ : String
deriving DecidableEq, Repr

/-- The cast `(int32_t)` of a `uint32_t` value: the value of the same 32 bits read as a
signed integer. -/
def to_int32 (n : Nat) : Int :=
  if n % 2 ^ 32 < 2 ^ 31 then ((n % 2 ^ 32 : Nat) : Int) else ((n % 2 ^ 32 : Nat) : Int) - 2 ^ 32

/-- The text of the format `fmt` of `operator<<` with `%d` fed a signed integer and `%s` fed a
string: the integer is written in decimal, the string as it is. -/
def fmt (code : Int) (message : String) : String :=
  "\x7b\"code\":" ++ toString code ++ ", \"error\":\"" ++ message ++ "\", \"result\":null\x7d"

/-- The function `operator<<(std::ostream&, const explorer_exception&)`: `out` is the text
written to the stream so far, the result the text after the call. -/
def write (out : String) (ex : explorer_exception) : String :=
  out ++ fmt (to_int32 ex.code_) ex.message_

end explorer

namespace network
namespace session_seed

/-- The number of calls `connect->connect(seed, ...)` to the endpoint in a trace. -/
def connects_to (e : endpoint) : List action → Nat
  | [] => 0
  | action.connect _ seed :: t => (if seed = e then 1 else 0) + connects_to e t
  | _ :: t => connects_to e t

/-- The number of registered channels in a trace. -/
def registrations : List action → Nat
  | [] => 0
  | action.register_channel _ :: t => registrations t + 1
  | _ :: t => registrations t

/-- The number of times `handler` is invoked in a trace. -/
def invocations (handler : result_handler) : List action → Nat
  | [] => 0
  | action.invoked h _ :: t => (if h = handler then 1 else 0) + invocations handler t
  | _ :: t => invocations handler t

/-- The callback is a `handle_connect` bound to the endpoint. -/
def callback.connecting (e : endpoint) : callback → Bool
  | callback.handle_connect seed _ => decide (seed = e)
  | _ => false

/-- The number of connects to the endpoint that are in flight: issued and not reported
back to `handle_connect` yet. -/
def in_flight (e : endpoint) (s : state) : Nat :=
  s.pending.countP (callback.connecting e)

end session_seed
end network

namespace node
namespace session_block_sync

open network

/-- One call of `handle_complete` for a slot: its code, channel, connector and row. -/
structure completion where
  ec : code
  ch : channel
  connect : SharedConnector
  row : reservation
deriving DecidableEq, Repr

/-- A sequence of calls of `handle_complete` with the slots' handler, in order. -/
def complete_all (w : Nat) (handler : result_handler) (calls : List completion)
    (s : state) : state :=
  calls.foldl (fun st c => handle_complete w c.ec c.ch c.connect c.row handler st) s

end session_block_sync
end node
end libbitcoin

/-! ## Seed session: single calls -/

namespace libbitcoin
namespace network
namespace session_seed

theorem caller_codes_append (a b : List action) :
    caller_codes (a ++ b) = caller_codes a ++ caller_codes b := by
  induction a with
  | nil => rfl
  | cons x t ih =>
    cases x with
    | invoked h ec => cases h <;> simp [caller_codes, ih]
    | _ => simp [caller_codes, ih]

theorem counts_append (a b : List action) : counts (a ++ b) = counts a ++ counts b := by
  induction a with
  | nil => rfl
  | cons x t ih => cases x <;> simp [counts, ih]

/-- Invoking the caller's handler appends one entry and changes nothing else. -/
theorem invoke_caller (ec : code) (s : state) :
    invoke result_handler.caller ec s = s.emit (action.invoked result_handler.caller ec) := rfl

/-- Invoking a synchronized handler `each` never invokes the caller's handler. -/
theorem invoke_each_caller_codes (id start_size : Nat) (h : result_handler) (ec : code)
    (s : state) :
    caller_codes (invoke (result_handler.each id start_size h) ec s).trace
      = caller_codes s.trace := by
  unfold invoke
  simp only [state.emit]
  split
  · simp [caller_codes_append, caller_codes]
  · split <;>
      simp [handle_complete, address_count, state.emit, state.pend, caller_codes_append,
        caller_codes]

theorem start_seed_each_caller_codes (seed : endpoint) (connect : SharedConnector)
    (id start_size : Nat) (h : result_handler) (s : state) :
    caller_codes (start_seed seed connect (result_handler.each id start_size h) s).trace
      = caller_codes s.trace := by
  unfold start_seed
  split
  · exact invoke_each_caller_codes _ _ _ _ _
  · simp [state.emit, state.pend, caller_codes_append, caller_codes]

theorem foldl_start_seed_caller_codes (seeds : List endpoint) (connect : SharedConnector)
    (id start_size : Nat) (h : result_handler) (s : state) :
    caller_codes (seeds.foldl
        (fun st seed => start_seed seed connect (result_handler.each id start_size h) st)
        s).trace
      = caller_codes s.trace := by
  induction seeds generalizing s with
  | nil => rfl
  | cons x t ih =>
    simp only [List.foldl_cons]
    rw [ih, start_seed_each_caller_codes]

/-- A call of `start_seeding` does not invoke the handler it is given by itself. -/
theorem start_seeding_caller_codes (settings_ : settings) (start_size : Nat)
    (connect : SharedConnector) (h : result_handler) (s : state) :
    caller_codes (start_seeding settings_ start_size connect h s).trace
      = caller_codes s.trace := by
  unfold start_seeding
  simp only
  rw [foldl_start_seed_caller_codes]

/-- C1: `session_seed::start` with `host_pool_capacity == 0` invokes the caller's handler
exactly once, with success, before it returns, and does nothing else: the state after the
call is the state before it with the single trace entry "handler invoked with success"
appended.  So the base session is not started, the host count is not sampled, no
connector is created, no connect is issued and no callback is left pending, whatever the
seeds list is. -/
theorem start_capacity_zero (settings_ : settings) (s : state)
    (h : settings_.host_pool_capacity = 0) :
    start settings_ result_handler.caller s
      = { s with trace := s.trace ++ [action.invoked result_handler.caller error.success] } := by
  simp [start, h, invoke_caller, state.emit]

theorem start_capacity_zero_witness :
    (settings.mk 0 [endpoint.mk "seed.example" 5251]).host_pool_capacity = 0
    ∧ start (settings.mk 0 [endpoint.mk "seed.example" 5251]) result_handler.caller
        (state.fresh false [])
      = { state.fresh false [] with
          trace := (state.fresh false []).trace
            ++ [action.invoked result_handler.caller error.success] } :=
  ⟨rfl, start_capacity_zero _ _ rfl⟩

/-- C2: for every pair of host counts, `session_seed::handle_final_count` invokes the
handler exactly once and does nothing else; the code is success if and only if
`current_size > start_size` and it is operation_failed if and only if not. -/
theorem handle_final_count_code (current_size start_size : Nat) (s : state) :
    ∃ ec : code,
      handle_final_count current_size start_size result_handler.caller s
        = { s with trace := s.trace ++ [action.invoked result_handler.caller ec] }
      ∧ (ec = error.success ↔ current_size > start_size)
      ∧ (ec = error.operation_failed ↔ ¬ current_size > start_size) := by
  by_cases h : current_size > start_size
  · exact ⟨error.success, by simp [handle_final_count, h, invoke_caller, state.emit],
      by simp [h], by simp [h]⟩
  · exact ⟨error.operation_failed, by simp [handle_final_count, h, invoke_caller, state.emit],
      by simp [h], by simp [h]⟩

/-- C3: `session_seed::handle_count`, for every sampled count and seeds list.  A non-zero
count: the handler receives success and nothing else happens.  A zero count and no seeds:
the handler receives operation_failed and nothing else happens.  A zero count and some
seeds: a connector is created, seeding starts with `start_size = 0` and the handler is
not invoked by the call.  In every case the call invokes the handler at most once. -/
theorem handle_count_cases (settings_ : settings) (start_size : Nat) (s : state) :
    (start_size ≠ 0 →
      handle_count settings_ start_size result_handler.caller s
        = { s with trace := s.trace ++ [action.invoked result_handler.caller error.success] })
    ∧ (start_size = 0 → settings_.seeds = [] →
      handle_count settings_ start_size result_handler.caller s
        = { s with
            trace := s.trace ++ [action.invoked result_handler.caller error.operation_failed] })
    ∧ (start_size = 0 → settings_.seeds ≠ [] →
      handle_count settings_ start_size result_handler.caller s
          = start_seeding settings_ 0 s.connectors result_handler.caller
              { s with trace := s.trace ++ [action.create_connector s.connectors],
                       connectors := s.connectors + 1 }
        ∧ caller_codes (handle_count settings_ start_size result_handler.caller s).trace
          = caller_codes s.trace)
    ∧ (caller_codes (handle_count settings_ start_size result_handler.caller s).trace).length
        ≤ (caller_codes s.trace).length + 1 := by
  refine ⟨?_, ?_, ?_, ?_⟩
  · intro h
    simp [handle_count, h, invoke_caller, state.emit]
  · intro h0 hs
    simp [handle_count, h0, hs, invoke_caller, state.emit]
  · intro h0 hs
    have he : settings_.seeds.isEmpty = false := by
      cases hl : settings_.seeds with
      | nil => exact absurd hl hs
      | cons _ _ => rfl
    have heq : handle_count settings_ start_size result_handler.caller s
          = start_seeding settings_ 0 s.connectors result_handler.caller
              { s with trace := s.trace ++ [action.create_connector s.connectors],
                       connectors := s.connectors + 1 } := by
      simp [handle_count, h0, he, create_connector, state.emit]
    refine ⟨heq, ?_⟩
    rw [heq, start_seeding_caller_codes]
    simp [caller_codes_append, caller_codes]
  · by_cases h : start_size = 0
    · by_cases hs : settings_.seeds.isEmpty = true
      · simp [handle_count, h, hs, invoke_caller, state.emit, caller_codes_append,
          caller_codes]
      · simp only [handle_count, h, hs]
        simp [start_seeding_caller_codes, create_connector, state.emit, caller_codes_append,
          caller_codes]
    · simp [handle_count, h, invoke_caller, state.emit, caller_codes_append, caller_codes]

end session_seed
end network
end libbitcoin

/-! ## Seed session: runs -/

namespace libbitcoin
namespace network
namespace session_seed

theorem extends_quietly_refl (s : state) : extends_quietly s s :=
  ⟨[], by simp, by simp⟩

theorem extends_quietly_trans {s t u : state} (h1 : extends_quietly s t)
    (h2 : extends_quietly t u) : extends_quietly s u := by
  obtain ⟨a, ha, hqa⟩ := h1
  obtain ⟨b, hb, hqb⟩ := h2
  refine ⟨a ++ b, by rw [hb, ha, List.append_assoc], ?_⟩
  intro x hx
  rcases List.mem_append.mp hx with hx | hx
  · exact hqa x hx
  · exact hqb x hx

theorem good_pending_take {start_size : Nat} {s : state} (cb : callback)
    (h : good_pending start_size s) : good_pending start_size (s.take cb) :=
  fun c hc => h c (List.mem_of_mem_erase hc)

/-- Invoking `each` keeps the pending callbacks good and extends the trace quietly. -/
theorem invoke_each_step (id start_size : Nat) (ec : code) (s : state)
    (h : good_pending start_size s) :
    good_pending start_size
        (invoke (result_handler.each id start_size result_handler.caller) ec s)
      ∧ extends_quietly s
        (invoke (result_handler.each id start_size result_handler.caller) ec s) := by
  unfold invoke
  simp only [state.emit]
  split
  · exact ⟨h, ⟨[action.invoked (result_handler.each id start_size result_handler.caller) ec],
      rfl, by simp [action.quiet]⟩⟩
  · split
    · refine ⟨?_, ⟨[action.invoked (result_handler.each id start_size result_handler.caller)
          ec, action.address_count], ?_, by simp [action.quiet]⟩⟩
      · intro cb hcb
        simp only [handle_complete, address_count, state.emit, state.pend,
          List.mem_append, List.mem_singleton] at hcb
        rcases hcb with hcb | hcb
        · exact h cb hcb
        · subst hcb
          exact ⟨rfl, rfl⟩
      · simp [handle_complete, address_count, state.emit, state.pend]
    · exact ⟨h, ⟨[action.invoked (result_handler.each id start_size result_handler.caller) ec],
      rfl, by simp [action.quiet]⟩⟩

theorem start_seed_step (seed : endpoint) (connect : SharedConnector) (id start_size : Nat)
    (s : state) (h : good_pending start_size s) :
    good_pending start_size
        (start_seed seed connect (result_handler.each id start_size result_handler.caller) s)
      ∧ extends_quietly s
        (start_seed seed connect (result_handler.each id start_size result_handler.caller)
          s) := by
  unfold start_seed
  split
  · exact invoke_each_step id start_size _ s h
  · refine ⟨?_, ⟨[action.connect connect seed], rfl, by simp [action.quiet]⟩⟩
    intro cb hcb
    simp only [state.emit, state.pend, List.mem_append, List.mem_singleton] at hcb
    rcases hcb with hcb | hcb
    · exact h cb hcb
    · subst hcb
      exact ⟨id, rfl⟩

theorem foldl_start_seed_step (seeds : List endpoint) (connect : SharedConnector)
    (id start_size : Nat) (s : state) (h : good_pending start_size s) :
    good_pending start_size
        (seeds.foldl (fun st seed => start_seed seed connect
          (result_handler.each id start_size result_handler.caller) st) s)
      ∧ extends_quietly s
        (seeds.foldl (fun st seed => start_seed seed connect
          (result_handler.each id start_size result_handler.caller) st) s) := by
  induction seeds generalizing s with
  | nil => exact ⟨h, extends_quietly_refl s⟩
  | cons x t ih =>
    simp only [List.foldl_cons]
    obtain ⟨h1, e1⟩ := start_seed_step x connect id start_size s h
    obtain ⟨h2, e2⟩ := ih _ h1
    exact ⟨h2, extends_quietly_trans e1 e2⟩

/-- A call of `start_seeding` for the caller's handler keeps the pending callbacks good
and extends the trace quietly. -/
theorem start_seeding_step (settings_ : settings) (start_size : Nat)
    (connect : SharedConnector) (s : state) (h : good_pending start_size s) :
    good_pending start_size
        (start_seeding settings_ start_size connect result_handler.caller s)
      ∧ extends_quietly s
        (start_seeding settings_ start_size connect result_handler.caller s) := by
  unfold start_seeding
  simp only
  obtain ⟨h1, ⟨added, ha, hq⟩⟩ := foldl_start_seed_step settings_.seeds connect
    s.synchronizers.length start_size
    { s with synchronizers := s.synchronizers ++ [⟨settings_.seeds.length, true, 0⟩] } h
  exact ⟨h1, ⟨added, ha, hq⟩⟩

/-- One event on a state whose pending callbacks are good: they stay good, and either the
trace is extended quietly, or the final count `n` is reported and the caller's handler
receives the code that `n` and `start_size` determine. -/
theorem deliver_step (settings_ : settings) (start_size : Nat) (e : event) (s : state)
    (h : good_pending start_size s) :
    good_pending start_size (deliver settings_ e s)
      ∧ (extends_quietly s (deliver settings_ e s)
        ∨ ∃ n : Nat, (deliver settings_ e s).trace
            = s.trace ++ [action.counted n,
                action.invoked result_handler.caller
                  (if n > start_size then error.success else error.operation_failed)]) := by
  cases e with
  | stop => exact ⟨h, Or.inl ⟨[], by simp [deliver], by simp⟩⟩
  | started handler ec =>
    simp only [deliver]
    split
    · rename_i hp
      exact absurd (h _ hp) (by simp [good])
    · exact ⟨h, Or.inl (extends_quietly_refl s)⟩
  | count handler n =>
    simp only [deliver]
    split
    · rename_i hp
      exact absurd (h _ hp) (by simp [good])
    · exact ⟨h, Or.inl (extends_quietly_refl s)⟩
  | final_count st handler n =>
    simp only [deliver]
    split
    · rename_i hp
      obtain ⟨hst, hh⟩ := h _ hp
      subst hst
      subst hh
      refine ⟨?_, Or.inr ⟨n, ?_⟩⟩
      · intro cb hcb
        simp only [handle_final_count, invoke_caller, state.emit, state.take] at hcb
        exact h cb (List.mem_of_mem_erase hcb)
      · simp [handle_final_count, invoke_caller, state.emit, state.take]
    · exact ⟨h, Or.inl (extends_quietly_refl s)⟩
  | connected seed handler ec ch =>
    simp only [deliver]
    split
    · rename_i hp
      obtain ⟨id, hid⟩ := h _ hp
      subst hid
      have ht := good_pending_take
        (callback.handle_connect seed
          (result_handler.each id start_size result_handler.caller)) h
      unfold handle_connect
      split
      · obtain ⟨h1, e1⟩ := invoke_each_step id start_size ec _ ht
        exact ⟨h1, Or.inl e1⟩
      · split
        · obtain ⟨h1, e1⟩ := invoke_each_step id start_size error.address_blocked _ ht
          exact ⟨h1, Or.inl e1⟩
        · refine ⟨?_, Or.inl ⟨[action.register_channel ch], rfl, by simp [action.quiet]⟩⟩
          intro cb hcb
          simp only [state.emit, state.pend, List.mem_append, List.mem_singleton] at hcb
          rcases hcb with (hcb | hcb) | hcb
          · exact ht cb hcb
          · subst hcb
            exact ⟨id, rfl⟩
          · subst hcb
            trivial
    · exact ⟨h, Or.inl (extends_quietly_refl s)⟩
  | resolved r =>
    simp only [deliver]
    split
    · exact ⟨h, Or.inl ⟨[action.store r], rfl, by simp [action.quiet]⟩⟩
    · exact ⟨h, Or.inl (extends_quietly_refl s)⟩
  | channel_started ch handler ec =>
    simp only [deliver]
    split
    · rename_i hp
      obtain ⟨id, hid⟩ := h _ hp
      subst hid
      have ht := good_pending_take
        (callback.handle_channel_start ch
          (result_handler.each id start_size result_handler.caller)) h
      unfold handle_channel_start
      split
      · obtain ⟨h1, e1⟩ := invoke_each_step id start_size ec _ ht
        exact ⟨h1, Or.inl e1⟩
      · refine ⟨?_, Or.inl ⟨[action.attach_ping ch, action.attach_seed ch], ?_,
          by simp [action.quiet]⟩⟩
        · intro cb hcb
          simp only [attach_protocols, state.emit, state.pend, List.mem_append,
            List.mem_singleton] at hcb
          rcases hcb with hcb | hcb
          · exact ht cb hcb
          · subst hcb
            exact ⟨id, rfl⟩
        · simp [attach_protocols, state.emit, state.pend, state.take]
    · exact ⟨h, Or.inl (extends_quietly_refl s)⟩
  | channel_stopped ec =>
    simp only [deliver]
    split
    · exact ⟨good_pending_take _ h, Or.inl ⟨[], by simp [handle_channel_stop, state.take],
        by simp⟩⟩
    · exact ⟨h, Or.inl (extends_quietly_refl s)⟩
  | seeded ch handler ec =>
    simp only [deliver]
    split
    · rename_i hp
      obtain ⟨id, hid⟩ := h _ hp
      subst hid
      have ht := good_pending_take
        (callback.seeding ch (result_handler.each id start_size result_handler.caller)) h
      obtain ⟨h1, e1⟩ := invoke_each_step id start_size ec _ ht
      exact ⟨h1, Or.inl e1⟩
    · exact ⟨h, Or.inl (extends_quietly_refl s)⟩

theorem quiet_caller_codes (added : List action) (h : ∀ a ∈ added, a.quiet = true) :
    caller_codes added = [] := by
  induction added with
  | nil => rfl
  | cons x t ih =>
    have hx := h x (List.mem_cons_self _ _)
    have ht := ih (fun a ha => h a (List.mem_cons_of_mem _ ha))
    cases x with
    | invoked hd ec => cases hd <;> simp_all [caller_codes, action.quiet]
    | _ => simp_all [caller_codes]

theorem quiet_counts (added : List action) (h : ∀ a ∈ added, a.quiet = true) :
    counts added = [] := by
  induction added with
  | nil => rfl
  | cons x t ih =>
    have hx := h x (List.mem_cons_self _ _)
    have ht := ih (fun a ha => h a (List.mem_cons_of_mem _ ha))
    cases x <;> simp_all [counts, action.quiet]

theorem extends_quietly_caller_codes {s t : state} (h : extends_quietly s t) :
    caller_codes t.trace = caller_codes s.trace := by
  obtain ⟨added, ha, hq⟩ := h
  rw [ha, caller_codes_append, quiet_caller_codes added hq, List.append_nil]

theorem extends_quietly_counts {s t : state} (h : extends_quietly s t) :
    counts t.trace = counts s.trace := by
  obtain ⟨added, ha, hq⟩ := h
  rw [ha, counts_append, quiet_counts added hq, List.append_nil]

theorem run_append (settings_ : settings) (s : state) (a b : List event) :
    run settings_ s (a ++ b) = run settings_ (run settings_ s a) b := by
  simp [run, List.foldl_append]

/-- Along a run whose pending callbacks are good, the codes the caller's handler received
are determined, one by one, by the reported final counts. -/
theorem run_caller_codes (settings_ : settings) (start_size : Nat) (events : List event)
    (s : state) (h : good_pending start_size s)
    (hc : caller_codes s.trace
      = (counts s.trace).map
          (fun n => if n > start_size then error.success else error.operation_failed)) :
    caller_codes (run settings_ s events).trace
      = (counts (run settings_ s events).trace).map
          (fun n => if n > start_size then error.success else error.operation_failed) := by
  induction events generalizing s with
  | nil => exact hc
  | cons e t ih =>
    simp only [run, List.foldl_cons]
    obtain ⟨hg, hstep⟩ := deliver_step settings_ start_size e s h
    apply ih _ hg
    rcases hstep with hq | ⟨n, hn⟩
    · rw [extends_quietly_caller_codes hq, extends_quietly_counts hq, hc]
    · rw [hn, caller_codes_append, counts_append, hc]
      simp [caller_codes, counts]

/-- On a running session, the connect to the first pending seed fails: the synchronizer
counts the failure and, on the last seed, the final count is requested. -/
theorem deliver_connect_error (settings_ : settings) (start_size : Nat) (seed : endpoint)
    (ec : code) (ch : channel) (s : state) (rest : List callback) (n k : Nat)
    (hp : s.pending
      = callback.handle_connect seed (result_handler.each 0 start_size result_handler.caller)
        :: rest)
    (hec : ec ≠ error.success) (hy : s.synchronizers = [⟨n, true, k⟩]) (hk : k ≠ n) :
    deliver settings_
        (event.connected seed (result_handler.each 0 start_size result_handler.caller) ec ch) s
      = if k + 1 = n then
          { s with
            pending := rest ++ [callback.handle_final_count start_size result_handler.caller],
            trace := s.trace ++ [action.invoked
              (result_handler.each 0 start_size result_handler.caller) ec,
              action.address_count],
            synchronizers := [⟨n, true, k + 1⟩] }
        else
          { s with
            pending := rest,
            trace := s.trace ++ [action.invoked
              (result_handler.each 0 start_size result_handler.caller) ec],
            synchronizers := [⟨n, true, k + 1⟩] } := by
  have hb : code.bool ec = true := by simp [code.bool, hec]
  by_cases hl : k + 1 = n
  · simp [deliver, hp, handle_connect, hb, invoke, state.take, state.emit, hy,
      synchronizer.call, hk, hl, handle_complete, address_count, state.pend]
  · simp [deliver, hp, handle_connect, hb, invoke, state.take, state.emit, hy,
      synchronizer.call, hk, hl]

/-- When the connect to every seed fails, the final count is requested and the caller's
handler has not been invoked. -/
theorem run_connect_errors (settings_ : settings) (start_size : Nat) (ch : channel) (n : Nat)
    (seeds : List endpoint) (codes : List code) (s : state) (k : Nat)
    (hne : seeds ≠ []) (hlen : codes.length = seeds.length)
    (herr : ∀ ec ∈ codes, ec ≠ error.success)
    (hy : s.synchronizers = [⟨n, true, k⟩]) (hk : k + seeds.length = n)
    (hp : s.pending = seeds.map (fun seed => callback.handle_connect seed
      (result_handler.each 0 start_size result_handler.caller))) :
    (run settings_ s (connect_results
        (result_handler.each 0 start_size result_handler.caller) ch seeds codes)).pending
      = [callback.handle_final_count start_size result_handler.caller]
    ∧ caller_codes (run settings_ s (connect_results
        (result_handler.each 0 start_size result_handler.caller) ch seeds codes)).trace
      = caller_codes s.trace := by
  induction seeds generalizing codes s k with
  | nil => exact absurd rfl hne
  | cons x t ih =>
    cases codes with
    | nil => simp at hlen
    | cons ec codes =>
      have hec : ec ≠ error.success := herr ec (List.mem_cons_self _ _)
      have hkn : k ≠ n := by simp at hk; omega
      have hd := deliver_connect_error settings_ start_size x ec ch s
        (t.map (fun seed => callback.handle_connect seed
          (result_handler.each 0 start_size result_handler.caller))) n k
        (by simp [hp]) hec hy hkn
      simp only [connect_results, run, List.foldl_cons]
      rw [hd]
      cases t with
      | nil =>
        have hl : k + 1 = n := by simpa using hk
        cases codes with
        | nil =>
          simp [hl, connect_results, caller_codes_append, caller_codes]
        | cons _ _ => simp at hlen
      | cons y t2 =>
        have hl : ¬ k + 1 = n := by simp at hk; omega
        simp only [hl, if_false]
        have := ih codes
          { s with
            pending := (y :: t2).map (fun seed => callback.handle_connect seed
              (result_handler.each 0 start_size result_handler.caller)),
            trace := s.trace ++ [action.invoked
              (result_handler.each 0 start_size result_handler.caller) ec],
            synchronizers := [⟨n, true, k + 1⟩] } (k + 1)
          (by simp) (by simpa using hlen)
          (fun e he => herr e (List.mem_cons_of_mem _ he)) rfl
          (by simp at hk ⊢; omega) rfl
        simp only [run] at this
        rw [this.1, this.2]
        simp [caller_codes_append, caller_codes]

theorem foldl_start_seed_running (seeds : List endpoint) (connect : SharedConnector)
    (handler : result_handler) (s : state) (hs : s.stopped = false) :
    (seeds.foldl (fun st seed => start_seed seed connect handler st) s).pending
        = s.pending ++ seeds.map (fun seed => callback.handle_connect seed handler)
      ∧ (seeds.foldl (fun st seed => start_seed seed connect handler st) s).synchronizers
        = s.synchronizers := by
  induction seeds generalizing s with
  | nil => simp
  | cons x t ih =>
    simp only [List.foldl_cons]
    have h1 : start_seed x connect handler s
        = { (s.emit (action.connect connect x)).pend (callback.handle_connect x handler) with
            store_handlers := s.store_handlers + 1 } := by
      simp [start_seed, hs]
    rw [h1]
    obtain ⟨hp, hy⟩ := ih
      { (s.emit (action.connect connect x)).pend (callback.handle_connect x handler) with
        store_handlers := s.store_handlers + 1 } (by simp [state.emit, state.pend, hs])
    rw [hp, hy]
    simp [state.emit, state.pend]

/-- The final count reaches a pending `handle_final_count`: the count and the code it
determines are appended to the trace. -/
theorem deliver_final_count (settings_ : settings) (start_size n : Nat) (s : state)
    (hp : callback.handle_final_count start_size result_handler.caller ∈ s.pending) :
    (deliver settings_ (event.final_count start_size result_handler.caller n) s).trace
      = s.trace ++ [action.counted n,
          action.invoked result_handler.caller
            (if n > start_size then error.success else error.operation_failed)] := by
  simp [deliver, hp, handle_final_count, invoke_caller, state.emit, state.take]

/-- C4: individual seed errors are suppressed.  Take any run of `start_seeding` for the
caller's handler on a fresh session: the call followed by any events, whatever codes the
connects, the channel registrations and the seed protocols report.  The counts reported
in such a run are the final counts, and the code the handler receives for each is
determined by that count and the start count alone: success when the count exceeds the
start count, operation_failed otherwise.  Hence two runs with the same start count and
the same final counts deliver the same codes.  In particular, on a running session with a
non-empty seeds list, when the connect to every seed fails and the final count exceeds the
start count, the handler receives success, once. -/
theorem seed_errors_suppressed (settings_ : settings) (start_size : Nat)
    (connect : SharedConnector) (blacklist : List authority) :
    (∀ (stopped : Bool) (events : List event),
      caller_codes (run settings_ (start_seeding settings_ start_size connect
          result_handler.caller (state.fresh stopped blacklist)) events).trace
        = (counts (run settings_ (start_seeding settings_ start_size connect
            result_handler.caller (state.fresh stopped blacklist)) events).trace).map
          (fun n => if n > start_size then error.success else error.operation_failed))
    ∧ (∀ (stopped1 stopped2 : Bool) (events1 events2 : List event),
      counts (run settings_ (start_seeding settings_ start_size connect
          result_handler.caller (state.fresh stopped1 blacklist)) events1).trace
        = counts (run settings_ (start_seeding settings_ start_size connect
          result_handler.caller (state.fresh stopped2 blacklist)) events2).trace →
      caller_codes (run settings_ (start_seeding settings_ start_size connect
          result_handler.caller (state.fresh stopped1 blacklist)) events1).trace
        = caller_codes (run settings_ (start_seeding settings_ start_size connect
          result_handler.caller (state.fresh stopped2 blacklist)) events2).trace)
    ∧ (∀ (codes : List code) (ch : channel) (n : Nat),
      settings_.seeds ≠ [] → codes.length = settings_.seeds.length →
      (∀ ec ∈ codes, ec ≠ error.success) → n > start_size →
      caller_codes (run settings_ (start_seeding settings_ start_size connect
          result_handler.caller (state.fresh false blacklist))
          (connect_results (result_handler.each 0 start_size result_handler.caller) ch
            settings_.seeds codes
            ++ [event.final_count start_size result_handler.caller n])).trace
        = [error.success]) := by
  have hgood : ∀ stopped : Bool, good_pending start_size (state.fresh stopped blacklist) := by
    intro stopped cb hcb
    simp [state.fresh] at hcb
  have hrun : ∀ (stopped : Bool) (events : List event),
      caller_codes (run settings_ (start_seeding settings_ start_size connect
          result_handler.caller (state.fresh stopped blacklist)) events).trace
        = (counts (run settings_ (start_seeding settings_ start_size connect
            result_handler.caller (state.fresh stopped blacklist)) events).trace).map
          (fun n => if n > start_size then error.success else error.operation_failed) := by
    intro stopped events
    obtain ⟨hg, hq⟩ := start_seeding_step settings_ start_size connect _ (hgood stopped)
    apply run_caller_codes settings_ start_size events _ hg
    rw [extends_quietly_caller_codes hq, extends_quietly_counts hq]
    simp [state.fresh, caller_codes, counts]
  refine ⟨hrun, ?_, ?_⟩
  · intro stopped1 stopped2 events1 events2 hcounts
    rw [hrun stopped1 events1, hrun stopped2 events2, hcounts]
  · intro codes ch n hne hlen herr hn
    have hfold := foldl_start_seed_running settings_.seeds connect
      (result_handler.each 0 start_size result_handler.caller)
      { state.fresh false blacklist with
        synchronizers := [⟨settings_.seeds.length, true, 0⟩] } rfl
    have hstart : start_seeding settings_ start_size connect result_handler.caller
          (state.fresh false blacklist)
        = settings_.seeds.foldl (fun st seed => start_seed seed connect
            (result_handler.each 0 start_size result_handler.caller) st)
          { state.fresh false blacklist with
            synchronizers := [⟨settings_.seeds.length, true, 0⟩] } := by
      simp [start_seeding, state.fresh]
    obtain ⟨hp, hc⟩ := run_connect_errors settings_ start_size ch settings_.seeds.length
      settings_.seeds codes
      (start_seeding settings_ start_size connect result_handler.caller
        (state.fresh false blacklist)) 0 hne hlen herr
      (by rw [hstart, hfold.2]) (by simp) (by rw [hstart, hfold.1]; simp [state.fresh])
    rw [start_seeding_caller_codes] at hc
    rw [run_append]
    generalize run settings_ (start_seeding settings_ start_size connect
      result_handler.caller (state.fresh false blacklist))
      (connect_results (result_handler.each 0 start_size result_handler.caller) ch
        settings_.seeds codes) = s2 at hp hc
    simp only [run, List.foldl_cons, List.foldl_nil]
    rw [deliver_final_count settings_ start_size n s2 (by simp [hp]), caller_codes_append, hc]
    simp [state.fresh, caller_codes, hn]

theorem last_count_append (a b : List action) :
    last_count (a ++ b) = (last_count b).orElse (fun _ => last_count a) := by
  induction a with
  | nil => cases h : last_count b <;> simp [last_count, h]
  | cons x t ih =>
    rw [List.cons_append]
    cases x with
    | counted n =>
      simp only [last_count, ih]
      cases last_count b <;> simp
    | _ => simp only [last_count, ih]

theorem failures_follow_nil (n0 : Nat) : failures_follow n0 [] := by
  intro pre post h
  simp at h

/-- Entries other than an operation_failed for the caller add no failure to account for. -/
theorem failures_follow_append (n0 : Nat) (t added : List action)
    (h : failures_follow n0 t)
    (ha : ∀ a ∈ added, a ≠ action.invoked result_handler.caller error.operation_failed) :
    failures_follow n0 (t ++ added) := by
  intro pre post heq
  rcases List.append_eq_append_iff.mp heq with ⟨a1, hpre, hadd⟩ | ⟨c1, ht, hpost⟩
  · exact absurd rfl (ha _ (by rw [hadd]; simp))
  · cases c1 with
    | nil =>
      simp only [List.nil_append] at hpost
      exact absurd rfl (ha _ (by rw [← hpost]; simp))
    | cons x c2 =>
      simp only [List.cons_append, List.cons.injEq] at hpost
      obtain ⟨hx, _⟩ := hpost
      subst hx
      exact h pre c2 ht

/-- An operation_failed appended after a trace whose last count is `n0` is accounted for. -/
theorem failures_follow_failed (n0 : Nat) (t : List action) (h : failures_follow n0 t)
    (hl : last_count t = some n0) :
    failures_follow n0
      (t ++ [action.invoked result_handler.caller error.operation_failed]) := by
  intro pre post heq
  rcases List.append_eq_append_iff.mp heq with ⟨a1, hpre, hadd⟩ | ⟨c1, ht, hpost⟩
  · cases a1 with
    | nil =>
      simp only [List.append_nil] at hpre
      rw [hpre]
      exact hl
    | cons x a2 =>
      simp only [List.cons_append, List.cons.injEq] at hadd
      exact absurd hadd.2.symm (by simp)
  · cases c1 with
    | nil =>
      simp only [List.append_nil] at ht
      rw [← ht]
      exact hl
    | cons x c2 =>
      simp only [List.cons_append, List.cons.injEq] at hpost
      obtain ⟨hx, _⟩ := hpost
      subst hx
      exact h pre c2 ht

theorem failures_follow_quietly (n0 : Nat) {s t : state} (h : failures_follow n0 s.trace)
    (hq : extends_quietly s t) : failures_follow n0 t.trace := by
  obtain ⟨added, ha, hqa⟩ := hq
  rw [ha]
  apply failures_follow_append n0 _ _ h
  intro a hmem heq
  have := hqa a hmem
  rw [heq] at this
  simp [action.quiet] at this

/-- With no callback pending, an event leaves none pending and extends the trace quietly. -/
theorem deliver_idle (settings_ : settings) (e : event) (s : state) (h : s.pending = []) :
    (deliver settings_ e s).pending = [] ∧ extends_quietly s (deliver settings_ e s) := by
  cases e with
  | resolved r =>
    simp only [deliver]
    split
    · exact ⟨h, ⟨[action.store r], rfl, by simp [action.quiet]⟩⟩
    · exact ⟨h, extends_quietly_refl s⟩
  | stop => exact ⟨h, ⟨[], by simp [deliver], by simp⟩⟩
  | _ => simp [deliver, h, extends_quietly_refl]

theorem run_idle (settings_ : settings) (n0 : Nat) (events : List event) (s : state)
    (h : s.pending = []) (hf : failures_follow n0 s.trace) :
    failures_follow n0 (run settings_ s events).trace := by
  induction events generalizing s with
  | nil => exact hf
  | cons e t ih =>
    simp only [run, List.foldl_cons]
    obtain ⟨hp, hq⟩ := deliver_idle settings_ e s h
    exact ih _ hp (failures_follow_quietly n0 hf hq)

/-- Along a run of a seeding started with `start_size = 0`, every operation_failed the
caller's handler receives follows a reported count of 0. -/
theorem run_seeding (settings_ : settings) (events : List event) (s : state)
    (h : good_pending 0 s) (hf : failures_follow 0 s.trace) :
    failures_follow 0 (run settings_ s events).trace := by
  induction events generalizing s with
  | nil => exact hf
  | cons e t ih =>
    simp only [run, List.foldl_cons]
    obtain ⟨hg, hstep⟩ := deliver_step settings_ 0 e s h
    apply ih _ hg
    rcases hstep with hq | ⟨n, hn⟩
    · exact failures_follow_quietly 0 hf hq
    · rw [hn]
      have h1 : failures_follow 0 (s.trace ++ [action.counted n]) :=
        failures_follow_append 0 _ _ hf (by simp)
      have hl : last_count (s.trace ++ [action.counted n]) = some n := by
        simp [last_count_append, last_count]
      have hsplit : s.trace ++ [action.counted n, action.invoked result_handler.caller
            (if n > 0 then error.success else error.operation_failed)]
          = (s.trace ++ [action.counted n]) ++ [action.invoked result_handler.caller
            (if n > 0 then error.success else error.operation_failed)] := by simp
      rw [hsplit]
      by_cases hn0 : n > 0
      · simp only [hn0, if_true]
        exact failures_follow_append 0 _ _ h1 (by simp)
      · have hz : n = 0 := by omega
        subst hz
        simp only [Nat.lt_irrefl, gt_iff_lt, if_false]
        exact failures_follow_failed 0 _ h1 hl

/-- C5: only a net-zero change of the host count surfaces as operation_failed.  Take any
run that begins at `handle_count`: on a fresh session `handle_started` has requested the
host count, the count `start_size` is reported to `handle_count`, and any events follow.
Whenever the caller's handler receives operation_failed in that run, the host count
reported last before it equals `start_size`. -/
theorem operation_failed_without_growth (settings_ : settings) (start_size : Nat)
    (stopped : Bool) (blacklist : List authority) (events : List event)
    (pre post : List action)
    (h : (run settings_
        (handle_started error.success result_handler.caller (state.fresh stopped blacklist))
        (event.count result_handler.caller start_size :: events)).trace
      = pre ++ action.invoked result_handler.caller error.operation_failed :: post) :
    last_count pre = some start_size := by
  revert pre post
  show failures_follow start_size _
  have h0 : deliver settings_ (event.count result_handler.caller start_size)
        (handle_started error.success result_handler.caller (state.fresh stopped blacklist))
      = handle_count settings_ start_size result_handler.caller
          { state.fresh stopped blacklist with
            trace := [action.address_count, action.counted start_size] } := by
    simp [deliver, handle_started, code.bool, address_count, state.emit, state.pend,
      state.take, state.fresh]
  simp only [run, List.foldl_cons]
  rw [h0]
  have hbase : failures_follow start_size [action.address_count, action.counted start_size] :=
    failures_follow_append start_size [] _ (failures_follow_nil _) (by simp)
  by_cases hz : start_size = 0
  · subst hz
    by_cases hs : settings_.seeds.isEmpty = true
    · apply run_idle
      · simp [handle_count, hs, invoke_caller, state.emit, state.fresh]
      · simp only [handle_count, hs, invoke_caller, state.emit]
        exact failures_follow_failed 0 _ hbase (by simp [last_count])
    · apply run_seeding
      · simp only [handle_count, hs]
        refine (start_seeding_step settings_ 0 _ _ ?_).1
        intro cb hcb
        simp [create_connector, state.emit, state.fresh] at hcb
      · simp only [handle_count, hs]
        refine failures_follow_quietly 0 ?_ (start_seeding_step settings_ 0 _ _ ?_).2
        · simp only [create_connector, state.emit, state.fresh]
          exact failures_follow_append 0 _ _ hbase (by simp)
        · intro cb hcb
          simp [create_connector, state.emit, state.fresh] at hcb
  · apply run_idle
    · simp [handle_count, hz, invoke_caller, state.emit, state.fresh]
    · simp only [handle_count, ne_eq, hz, not_false_eq_true, if_true, invoke_caller,
        state.emit]
      exact failures_follow_append start_size _
        [action.invoked result_handler.caller error.success] hbase (by simp)

theorem operation_failed_without_growth_witness :
    (run (settings.mk 1000 [endpoint.mk "seed.example" 5251])
        (handle_started error.success result_handler.caller (state.fresh false []))
        (event.count result_handler.caller 0
          :: [event.connected (endpoint.mk "seed.example" 5251)
                (result_handler.each 0 0 result_handler.caller) error.channel_timeout
                ⟨7, ⟨1, 5251⟩⟩,
              event.final_count 0 result_handler.caller 0])).trace
      = [action.address_count, action.counted 0, action.create_connector 0,
          action.connect 0 (endpoint.mk "seed.example" 5251),
          action.invoked (result_handler.each 0 0 result_handler.caller) error.channel_timeout,
          action.address_count, action.counted 0]
        ++ action.invoked result_handler.caller error.operation_failed :: []
    ∧ last_count [action.address_count, action.counted 0, action.create_connector 0,
          action.connect 0 (endpoint.mk "seed.example" 5251),
          action.invoked (result_handler.each 0 0 result_handler.caller) error.channel_timeout,
          action.address_count, action.counted 0]
      = some 0 :=
  ⟨by decide,
    operation_failed_without_growth (settings.mk 1000 [endpoint.mk "seed.example" 5251]) 0
      false []
      [event.connected (endpoint.mk "seed.example" 5251)
          (result_handler.each 0 0 result_handler.caller) error.channel_timeout ⟨7, ⟨1, 5251⟩⟩,
        event.final_count 0 result_handler.caller 0]
      [action.address_count, action.counted 0, action.create_connector 0,
        action.connect 0 (endpoint.mk "seed.example" 5251),
        action.invoked (result_handler.each 0 0 result_handler.caller) error.channel_timeout,
        action.address_count, action.counted 0]
      [] (by decide)⟩

/-- C6, the failing input evaluated: with `host_pool_capacity == 0`, one configured seed
and an empty host pool, `restart` followed by the report of the host count 0 creates a
connector and issues a connect to the seed, and leaves `handle_connect` pending. -/
theorem restart_ignores_capacity :
    (settings.mk 0 [endpoint.mk "seed.example" 5251]).host_pool_capacity = 0
    ∧ (run (settings.mk 0 [endpoint.mk "seed.example" 5251])
        (restart result_handler.caller (state.fresh false []))
        [event.count result_handler.caller 0]).trace
      = [action.address_count, action.counted 0, action.create_connector 0,
          action.connect 0 (endpoint.mk "seed.example" 5251)]
    ∧ (run (settings.mk 0 [endpoint.mk "seed.example" 5251])
        (restart result_handler.caller (state.fresh false []))
        [event.count result_handler.caller 0]).pending
      = [callback.handle_connect (endpoint.mk "seed.example" 5251)
          (result_handler.each 0 0 result_handler.caller)] := by
  decide

end session_seed
end network
end libbitcoin

/-! ## Block-sync session: single calls -/

namespace libbitcoin
namespace node

/-- Decrementing and then adding one gives the counter back, modulo `2 ^ w`. -/
theorem decrement_add_one (w n : Nat) : (decrement w n + 1) % 2 ^ w = n % 2 ^ w := by
  have hp : 0 < 2 ^ w := Nat.two_pow_pos w
  unfold decrement
  rw [Nat.mod_add_mod]
  have : n + (2 ^ w - 1) + 1 = n + 2 ^ w := by omega
  rw [this, Nat.add_mod_right]

/-- On a counter that is not zero and fits in `w` bits, decrementing subtracts one. -/
theorem decrement_pos (w n : Nat) (h0 : 0 < n) (hw : n < 2 ^ w) : decrement w n = n - 1 := by
  unfold decrement
  have : n + (2 ^ w - 1) = (n - 1) + 2 ^ w := by omega
  rw [this, Nat.add_mod_right, Nat.mod_eq_of_lt (by omega)]

namespace session_block_sync

theorem invocations_append (h : result_handler) (a b : List action) :
    invocations h (a ++ b) = invocations h a + invocations h b := by
  induction a with
  | nil => simp [invocations]
  | cons x t ih => cases x <;> simp [invocations, ih, Nat.add_assoc]

theorem connects_append (a b : List action) : connects (a ++ b) = connects a + connects b := by
  induction a with
  | nil => simp [connects]
  | cons x t ih =>
    cases x <;> simp [connects, ih]
    omega

theorem invocations_inner (h : result_handler) (rest : List action)
    (hr : ∀ a ∈ rest, inner h a) : invocations h rest = 0 := by
  induction rest with
  | nil => rfl
  | cons x t ih =>
    obtain ⟨h1, ec1, hx, hd⟩ := hr x (List.mem_cons_self _ _)
    subst hx
    have hne : h1 ≠ h := by
      intro he
      subst he
      exact Nat.lt_irrefl _ hd
    simp [invocations, hne, ih (fun a ha => hr a (List.mem_cons_of_mem _ ha))]

theorem connects_inner (h : result_handler) (rest : List action)
    (hr : ∀ a ∈ rest, inner h a) : connects rest = 0 := by
  induction rest with
  | nil => rfl
  | cons x t ih =>
    obtain ⟨h1, ec1, hx, _⟩ := hr x (List.mem_cons_self _ _)
    subst hx
    simp [connects, ih (fun a ha => hr a (List.mem_cons_of_mem _ ha))]

/-- Invoking a handler records the invocation, then possibly invocations of the handlers
nested inside it, and touches nothing but the trace and the synchronizers. -/
theorem invoke_effect (h : result_handler) (ec : code) (s : state) :
    ∃ rest : List action,
      invoke h ec s
        = { s with trace := s.trace ++ action.invoked h ec :: rest,
                   synchronizers := (invoke h ec s).synchronizers }
      ∧ ∀ a ∈ rest, inner h a := by
  induction h generalizing ec s with
  | caller =>
    exact ⟨[], by simp [invoke, state.emit], by simp⟩
  | func id h ih =>
    simp only [invoke, state.emit]
    split
    · exact ⟨[], by simp, by simp⟩
    · rename_i y hy
      split
      · rename_i r hr
        obtain ⟨rest, heq, hin⟩ := ih r
          { s with trace := s.trace ++ [action.invoked (result_handler.func id h) ec],
                   synchronizers := s.synchronizers.set id (y.call ec).1 }
        refine ⟨action.invoked h r :: rest, ?_, ?_⟩
        · rw [heq]
          simp
        · intro a ha
          rcases List.mem_cons.mp ha with ha | ha
          · exact ⟨h, r, ha, by simp [depth]⟩
          · obtain ⟨h1, ec1, h1eq, hd⟩ := hin a ha
            exact ⟨h1, ec1, h1eq, by simp [depth]; omega⟩
      · exact ⟨[], by simp, by simp⟩

end session_block_sync
end node
end libbitcoin

namespace libbitcoin
namespace node
namespace session_block_sync

open network

/-- C7: `session_block_sync::handle_started` with a success start code and an empty
reservation table invokes the caller's handler exactly once, with success, before it
returns, and does nothing else: the state after the call is the state before it with the
single trace entry "handler invoked with success" appended.  So no connector is created,
no connection is attempted, and `reservations_count_` keeps its value (0 in a session as
constructed). -/
theorem handle_started_empty_table (s : state) (h : s.reservations_ = []) :
    handle_started error.success result_handler.caller s
        = { s with trace := s.trace ++ [action.invoked result_handler.caller error.success] }
      ∧ (handle_started error.success result_handler.caller s).reservations_count_
        = s.reservations_count_
      ∧ connects (handle_started error.success result_handler.caller s).trace
        = connects s.trace := by
  have he : handle_started error.success result_handler.caller s
      = { s with trace := s.trace ++ [action.invoked result_handler.caller error.success] } := by
    simp [handle_started, code.bool, h, invoke, state.emit]
  rw [he]
  exact ⟨rfl, rfl, by simp [connects_append, connects]⟩

theorem handle_started_empty_table_witness :
    (state.fresh false []).reservations_ = []
    ∧ (handle_started error.success result_handler.caller (state.fresh false [])
        = { state.fresh false [] with
            trace := (state.fresh false []).trace
              ++ [action.invoked result_handler.caller error.success] }
      ∧ (handle_started error.success result_handler.caller
          (state.fresh false [])).reservations_count_
        = (state.fresh false []).reservations_count_
      ∧ connects (handle_started error.success result_handler.caller
          (state.fresh false [])).trace
        = connects (state.fresh false []).trace) :=
  ⟨rfl, handle_started_empty_table (state.fresh false []) rfl⟩

/-- C8: `session_block_sync::handle_complete` with `ec == success`, for every counter
width, slot, handler and state.  The counter is decremented by exactly one as an unsigned
counter (adding one gives the old value back modulo `2 ^ w`; the new value is the old one
minus one when the old one is not zero).  One occurrence of the slot is removed from the
table and no other slot is touched, so the slot is gone from a table without repeated
slots.  After stopping the timer the call invokes the slot's handler exactly once, with
success, and dials no peer: what follows the invocation in the trace are only invocations
of handlers nested inside the slot's handler.  No callback is left pending. -/
theorem handle_complete_success (w : Nat) (ch : channel) (connect : SharedConnector)
    (row : reservation) (handler : result_handler) (s : state) :
    ((handle_complete w error.success ch connect row handler s).reservations_count_ + 1)
        % 2 ^ w = s.reservations_count_ % 2 ^ w
    ∧ (0 < s.reservations_count_ ∧ s.reservations_count_ < 2 ^ w →
        (handle_complete w error.success ch connect row handler s).reservations_count_
          = s.reservations_count_ - 1)
    ∧ (handle_complete w error.success ch connect row handler s).reservations_
        = reservations_remove s.reservations_ row
    ∧ (∀ r : reservation,
        List.count r (handle_complete w error.success ch connect row handler s).reservations_
          = if r = row then List.count r s.reservations_ - 1 else List.count r s.reservations_)
    ∧ (s.reservations_.Nodup →
        row ∉ (handle_complete w error.success ch connect row handler s).reservations_)
    ∧ (∃ rest : List action,
        (handle_complete w error.success ch connect row handler s).trace
          = s.trace ++ action.timer_stop :: action.invoked handler error.success :: rest
        ∧ invocations handler rest = 0 ∧ connects rest = 0)
    ∧ (handle_complete w error.success ch connect row handler s).pending = s.pending
    ∧ (handle_complete w error.success ch connect row handler s).stopped = s.stopped := by
  obtain ⟨rest, heq, hin⟩ := invoke_effect handler error.success
    { s with trace := s.trace ++ [action.timer_stop],
             reservations_count_ := decrement w s.reservations_count_,
             reservations_ := reservations_remove s.reservations_ row }
  have hc : handle_complete w error.success ch connect row handler s
      = invoke handler error.success
          { s with trace := s.trace ++ [action.timer_stop],
                   reservations_count_ := decrement w s.reservations_count_,
                   reservations_ := reservations_remove s.reservations_ row } := by
    simp [handle_complete, code.bool, state.emit]
  rw [hc, heq]
  refine ⟨decrement_add_one w _, fun h => decrement_pos w _ h.1 h.2, rfl, ?_, ?_, ?_, rfl,
    rfl⟩
  · intro r
    by_cases hr : r = row
    · subst hr
      simp [reservations_remove, List.count_erase_self]
    · simp [reservations_remove, hr, List.count_erase_of_ne hr]
  · intro hnd hmem
    exact (List.Nodup.mem_erase_iff hnd).mp hmem |>.1 rfl
  · exact ⟨rest, by simp, invocations_inner handler rest hin, connects_inner handler rest hin⟩

/-- C9: `session_block_sync::handle_complete` with `ec == not_satisfied` while
`reservations_count_ != 1`.  The counter is decremented by exactly one as an unsigned
counter, the slot's handler is invoked exactly once, with success, and no peer is dialled:
nothing is left pending and the reservation table is unchanged. -/
theorem handle_complete_not_satisfied (w : Nat) (ch : channel) (connect : SharedConnector)
    (row : reservation) (handler : result_handler) (s : state)
    (h : s.reservations_count_ ≠ 1) :
    ((handle_complete w error.not_satisfied ch connect row handler s).reservations_count_ + 1)
        % 2 ^ w = s.reservations_count_ % 2 ^ w
    ∧ (0 < s.reservations_count_ ∧ s.reservations_count_ < 2 ^ w →
        (handle_complete w error.not_satisfied ch connect row handler s).reservations_count_
          = s.reservations_count_ - 1)
    ∧ (∃ rest : List action,
        (handle_complete w error.not_satisfied ch connect row handler s).trace
          = s.trace ++ action.invoked handler error.success :: rest
        ∧ invocations handler rest = 0 ∧ connects rest = 0)
    ∧ (handle_complete w error.not_satisfied ch connect row handler s).pending = s.pending
    ∧ (handle_complete w error.not_satisfied ch connect row handler s).reservations_
        = s.reservations_ := by
  obtain ⟨rest, heq, hin⟩ := invoke_effect handler error.success
    { s with reservations_count_ := decrement w s.reservations_count_ }
  have hc : handle_complete w error.not_satisfied ch connect row handler s
      = invoke handler error.success
          { s with reservations_count_ := decrement w s.reservations_count_ } := by
    simp [handle_complete, code.bool, h]
  rw [hc, heq]
  exact ⟨decrement_add_one w _, fun h => decrement_pos w _ h.1 h.2,
    ⟨rest, rfl, invocations_inner handler rest hin, connects_inner handler rest hin⟩,
    rfl, rfl⟩

theorem handle_complete_not_satisfied_witness :
    (state.mk false 2 [⟨0⟩, ⟨1⟩] 1 [] [] []).reservations_count_ ≠ 1
    ∧ (((handle_complete 64 error.not_satisfied ⟨7, ⟨1, 5251⟩⟩ 0 ⟨1⟩ result_handler.caller
          (state.mk false 2 [⟨0⟩, ⟨1⟩] 1 [] [] [])).reservations_count_ + 1) % 2 ^ 64
        = (state.mk false 2 [⟨0⟩, ⟨1⟩] 1 [] [] []).reservations_count_ % 2 ^ 64
      ∧ (0 < (state.mk false 2 [⟨0⟩, ⟨1⟩] 1 [] [] []).reservations_count_
          ∧ (state.mk false 2 [⟨0⟩, ⟨1⟩] 1 [] [] []).reservations_count_ < 2 ^ 64 →
        (handle_complete 64 error.not_satisfied ⟨7, ⟨1, 5251⟩⟩ 0 ⟨1⟩ result_handler.caller
          (state.mk false 2 [⟨0⟩, ⟨1⟩] 1 [] [] [])).reservations_count_
          = (state.mk false 2 [⟨0⟩, ⟨1⟩] 1 [] [] []).reservations_count_ - 1)
      ∧ (∃ rest : List action,
          (handle_complete 64 error.not_satisfied ⟨7, ⟨1, 5251⟩⟩ 0 ⟨1⟩ result_handler.caller
            (state.mk false 2 [⟨0⟩, ⟨1⟩] 1 [] [] [])).trace
            = (state.mk false 2 [⟨0⟩, ⟨1⟩] 1 [] [] []).trace
                ++ action.invoked result_handler.caller error.success :: rest
          ∧ invocations result_handler.caller rest = 0 ∧ connects rest = 0)
      ∧ (handle_complete 64 error.not_satisfied ⟨7, ⟨1, 5251⟩⟩ 0 ⟨1⟩ result_handler.caller
          (state.mk false 2 [⟨0⟩, ⟨1⟩] 1 [] [] [])).pending
          = (state.mk false 2 [⟨0⟩, ⟨1⟩] 1 [] [] []).pending
      ∧ (handle_complete 64 error.not_satisfied ⟨7, ⟨1, 5251⟩⟩ 0 ⟨1⟩ result_handler.caller
          (state.mk false 2 [⟨0⟩, ⟨1⟩] 1 [] [] [])).reservations_
          = (state.mk false 2 [⟨0⟩, ⟨1⟩] 1 [] [] []).reservations_) :=
  ⟨by decide, handle_complete_not_satisfied 64 ⟨7, ⟨1, 5251⟩⟩ 0 ⟨1⟩ result_handler.caller
    (state.mk false 2 [⟨0⟩, ⟨1⟩] 1 [] [] []) (by decide)⟩

/-- C10, counterexample: with one slot outstanding, `handle_complete` with `not_satisfied`
does not act as with `success`.  The counter stays 1, the slot stays in the table, the
handler is not invoked and a peer is dialled for the slot, whereas the call with `success`
brings the counter to 0, removes the slot and invokes the handler. -/
theorem last_slot_not_satisfied_differs :
    handle_complete 64 error.not_satisfied ⟨7, ⟨1, 5251⟩⟩ 0 ⟨0⟩ result_handler.caller
        last_slot_state
      ≠ handle_complete 64 error.success ⟨7, ⟨1, 5251⟩⟩ 0 ⟨0⟩ result_handler.caller
        last_slot_state
    ∧ (handle_complete 64 error.not_satisfied ⟨7, ⟨1, 5251⟩⟩ 0 ⟨0⟩ result_handler.caller
        last_slot_state).reservations_count_ = 1
    ∧ (⟨0⟩ : reservation) ∈
      (handle_complete 64 error.not_satisfied ⟨7, ⟨1, 5251⟩⟩ 0 ⟨0⟩ result_handler.caller
        last_slot_state).reservations_
    ∧ invocations result_handler.caller
      (handle_complete 64 error.not_satisfied ⟨7, ⟨1, 5251⟩⟩ 0 ⟨0⟩ result_handler.caller
        last_slot_state).trace = 0
    ∧ connects
      (handle_complete 64 error.not_satisfied ⟨7, ⟨1, 5251⟩⟩ 0 ⟨0⟩ result_handler.caller
        last_slot_state).trace = 1
    ∧ (handle_complete 64 error.success ⟨7, ⟨1, 5251⟩⟩ 0 ⟨0⟩ result_handler.caller
        last_slot_state).reservations_count_ = 0
    ∧ (handle_complete 64 error.success ⟨7, ⟨1, 5251⟩⟩ 0 ⟨0⟩ result_handler.caller
        last_slot_state).reservations_ = []
    ∧ invocations result_handler.caller
      (handle_complete 64 error.success ⟨7, ⟨1, 5251⟩⟩ 0 ⟨0⟩ result_handler.caller
        last_slot_state).trace = 1 := by
  decide

/-- C10, amended: `session_block_sync::handle_complete` with `ec == not_satisfied` while
`reservations_count_ == 1` retries the slot.  It is the call
`new_connection(connect, row, handler)`: the counter stays 1, the table and the
synchronizers are unchanged and the handler is not invoked; a session that is not stopped
dials one peer for the same slot, connector and handler, a stopped session does nothing. -/
theorem last_slot_not_satisfied_retries (w : Nat) (ch : channel)
    (connect : SharedConnector) (row : reservation) (handler : result_handler) (s : state)
    (h : s.reservations_count_ = 1) :
    handle_complete w error.not_satisfied ch connect row handler s
      = new_connection connect row handler s
    ∧ handle_complete w error.not_satisfied ch connect row handler s
      = (if s.stopped then s
        else { s with
          trace := s.trace
            ++ [action.connect connect (callback.handle_connect connect row handler)],
          pending := s.pending ++ [callback.handle_connect connect row handler] })
    ∧ (handle_complete w error.not_satisfied ch connect row handler s).reservations_count_ = 1
    ∧ (handle_complete w error.not_satisfied ch connect row handler s).reservations_
      = s.reservations_
    ∧ invocations handler
        (handle_complete w error.not_satisfied ch connect row handler s).trace
      = invocations handler s.trace := by
  have hc : handle_complete w error.not_satisfied ch connect row handler s
      = new_connection connect row handler s := by
    simp [handle_complete, code.bool, h]
  rw [hc]
  unfold new_connection
  by_cases hs : s.stopped = true
  · simp [hs, h]
  · simp [hs, h, state.emit, state.pend, invocations_append, invocations]

theorem last_slot_not_satisfied_retries_witness :
    last_slot_state.reservations_count_ = 1
    ∧ (handle_complete 64 error.not_satisfied ⟨7, ⟨1, 5251⟩⟩ 0 ⟨0⟩ result_handler.caller
          last_slot_state
        = new_connection 0 ⟨0⟩ result_handler.caller last_slot_state
      ∧ handle_complete 64 error.not_satisfied ⟨7, ⟨1, 5251⟩⟩ 0 ⟨0⟩ result_handler.caller
          last_slot_state
        = (if last_slot_state.stopped then last_slot_state
          else { last_slot_state with
            trace := last_slot_state.trace
              ++ [action.connect 0 (callback.handle_connect 0 ⟨0⟩ result_handler.caller)],
            pending := last_slot_state.pending
              ++ [callback.handle_connect 0 ⟨0⟩ result_handler.caller] })
      ∧ (handle_complete 64 error.not_satisfied ⟨7, ⟨1, 5251⟩⟩ 0 ⟨0⟩ result_handler.caller
          last_slot_state).reservations_count_ = 1
      ∧ (handle_complete 64 error.not_satisfied ⟨7, ⟨1, 5251⟩⟩ 0 ⟨0⟩ result_handler.caller
          last_slot_state).reservations_ = last_slot_state.reservations_
      ∧ invocations result_handler.caller
          (handle_complete 64 error.not_satisfied ⟨7, ⟨1, 5251⟩⟩ 0 ⟨0⟩ result_handler.caller
            last_slot_state).trace
        = invocations result_handler.caller last_slot_state.trace) :=
  ⟨rfl, last_slot_not_satisfied_retries 64 ⟨7, ⟨1, 5251⟩⟩ 0 ⟨0⟩ result_handler.caller
    last_slot_state rfl⟩

end session_block_sync
end node
end libbitcoin

/-! ## Block-sync session: retries and start -/

namespace libbitcoin
namespace node
namespace session_block_sync

open network

theorem failures_append (a b : List action) : failures (a ++ b) = failures a + failures b := by
  induction a with
  | nil => simp [failures]
  | cons x t ih => cases x <;> simp [failures, ih, Nat.add_assoc]

/-- A synchronizer that clears on a call clears with the code of that call. -/
theorem synchronizer_call_code (y : synchronizer) (ec r : code)
    (h : (y.call ec).2 = some r) : r = ec := by
  by_cases hc : y.counter = y.clearance_count
  · simp [synchronizer.call, hc] at h
  · simp only [synchronizer.call, hc, if_false] at h
    split at h
    · simpa using h.symm
    · simp at h
      exact h.2.symm

/-- Invoking a handler with success adds no invocation with another code. -/
theorem invoke_success_failures (h : result_handler) (s : state) :
    failures (invoke h error.success s).trace = failures s.trace := by
  induction h generalizing s with
  | caller => simp [invoke, state.emit, failures_append, failures]
  | func id h ih =>
    simp only [invoke, state.emit]
    split
    · simp [failures_append, failures]
    · rename_i y hy
      split
      · rename_i r hr
        have := synchronizer_call_code y error.success r hr
        subst this
        rw [ih]
        simp [failures_append, failures]
      · simp [failures_append, failures]

/-- A call of `new_connection` invokes no handler. -/
theorem new_connection_quiet (connect : SharedConnector) (row : reservation)
    (handler h1 : result_handler) (s : state) :
    invocations h1 (new_connection connect row handler s).trace = invocations h1 s.trace
      ∧ failures (new_connection connect row handler s).trace = failures s.trace := by
  unfold new_connection
  split
  · exact ⟨rfl, rfl⟩
  · simp [state.emit, state.pend, invocations_append, invocations, failures_append, failures]

/-- C11: `session_block_sync::handle_complete` with a code other than success and
not_satisfied keeps the slot.  The call is the single call
`new_connection(connect, row, handler)` for the same slot, connector and handler: the
reservation table and `reservations_count_` are unchanged and no handler is invoked; a
session that is not stopped dials exactly one peer with `handle_connect` bound to that
slot, connector and handler, and a stopped session does nothing.  Hence no error code
reaches a completion handler through `handle_complete`: for every code, the invocations
the call adds to the trace all carry success. -/
theorem handle_complete_error_retries (w : Nat) (ec : code) (ch : channel)
    (connect : SharedConnector) (row : reservation) (handler : result_handler) (s : state)
    (h1 : ec ≠ error.success) (h2 : ec ≠ error.not_satisfied) :
    handle_complete w ec ch connect row handler s = new_connection connect row handler s
    ∧ handle_complete w ec ch connect row handler s
      = (if s.stopped then s
        else { s with
          trace := s.trace
            ++ [action.connect connect (callback.handle_connect connect row handler)],
          pending := s.pending ++ [callback.handle_connect connect row handler] })
    ∧ (handle_complete w ec ch connect row handler s).reservations_ = s.reservations_
    ∧ (handle_complete w ec ch connect row handler s).reservations_count_
      = s.reservations_count_
    ∧ (∀ h : result_handler,
        invocations h (handle_complete w ec ch connect row handler s).trace
          = invocations h s.trace)
    ∧ connects (handle_complete w ec ch connect row handler s).trace
      = connects s.trace + (if s.stopped then 0 else 1)
    ∧ (∀ (ec1 : code) (s1 : state),
        failures (handle_complete w ec1 ch connect row handler s1).trace
          = failures s1.trace) := by
  have hb : code.bool ec = true := by simp [code.bool, h1]
  have hc : handle_complete w ec ch connect row handler s
      = new_connection connect row handler s := by
    simp [handle_complete, hb, h2]
  refine ⟨hc, ?_, ?_, ?_, ?_, ?_, ?_⟩
  · rw [hc]
    unfold new_connection
    by_cases hs : s.stopped = true <;> simp [hs, state.emit, state.pend]
  · rw [hc]
    unfold new_connection
    by_cases hs : s.stopped = true <;> simp [hs, state.emit, state.pend]
  · rw [hc]
    unfold new_connection
    by_cases hs : s.stopped = true <;> simp [hs, state.emit, state.pend]
  · intro h
    rw [hc]
    exact (new_connection_quiet connect row handler h s).1
  · rw [hc]
    unfold new_connection
    by_cases hs : s.stopped = true <;>
      simp [hs, state.emit, state.pend, connects_append, connects]
  · intro ec1 s1
    unfold handle_complete
    split
    · rename_i hb1
      have he : ec1 = error.success := by
        cases ec1 <;> simp [code.bool] at hb1 ⊢
      subst he
      rw [invoke_success_failures]
      simp [state.emit, failures_append, failures]
    · split
      · split
        · rw [invoke_success_failures]
        · exact (new_connection_quiet connect row handler handler s1).2
      · exact (new_connection_quiet connect row handler handler s1).2

theorem handle_complete_error_retries_witness :
    error.channel_timeout ≠ error.success ∧ error.channel_timeout ≠ error.not_satisfied
    ∧ handle_complete 64 error.channel_timeout ⟨7, ⟨1, 5251⟩⟩ 0 ⟨0⟩ result_handler.caller
        last_slot_state
      = new_connection 0 ⟨0⟩ result_handler.caller last_slot_state
    ∧ connects (handle_complete 64 error.channel_timeout ⟨7, ⟨1, 5251⟩⟩ 0 ⟨0⟩
        result_handler.caller last_slot_state).trace = 1 :=
  ⟨by decide, by decide,
    (handle_complete_error_retries 64 error.channel_timeout ⟨7, ⟨1, 5251⟩⟩ 0 ⟨0⟩
      result_handler.caller last_slot_state (by decide) (by decide)).1,
    by decide⟩

/-- On a session that is not stopped, the calls of `new_connection` for the rows of a
table, in order, dial one peer per row, in table order, and invoke no handler. -/
theorem foldl_new_connection (table : List reservation) (connect : SharedConnector)
    (handler : result_handler) (s : state) (hs : s.stopped = false) :
    table.foldl (fun st row => new_connection connect row handler st) s
      = { s with
          trace := s.trace ++ table.map (fun row =>
            action.connect connect (callback.handle_connect connect row handler)),
          pending := s.pending ++ table.map (fun row =>
            callback.handle_connect connect row handler) } := by
  induction table generalizing s with
  | nil => simp
  | cons x t ih =>
    simp only [List.foldl_cons]
    have h1 : new_connection connect x handler s
        = { s with
            trace := s.trace
              ++ [action.connect connect (callback.handle_connect connect x handler)],
            pending := s.pending ++ [callback.handle_connect connect x handler] } := by
      simp [new_connection, hs, state.emit, state.pend]
    rw [h1, ih _ (by simpa using hs)]
    simp

/-- On a stopped session the calls of `new_connection` do nothing. -/
theorem foldl_new_connection_stopped (table : List reservation) (connect : SharedConnector)
    (handler : result_handler) (s : state) (hs : s.stopped = true) :
    table.foldl (fun st row => new_connection connect row handler st) s = s := by
  induction table generalizing s with
  | nil => rfl
  | cons x t ih =>
    simp only [List.foldl_cons]
    have h1 : new_connection connect x handler s = s := by simp [new_connection, hs]
    rw [h1, ih s hs]

theorem invocations_connects (h : result_handler) (connect : SharedConnector)
    (handler : result_handler) (table : List reservation) :
    invocations h (table.map (fun row =>
      action.connect connect (callback.handle_connect connect row handler))) = 0 := by
  induction table with
  | nil => rfl
  | cons x t ih => simpa [invocations] using ih

/-- C12: `session_block_sync::handle_started` with a success start code and a non-empty
reservation table of N slots.  A connector is created, `reservations_count_` becomes N,
a synchronizer over N events that reports errors is created around the caller's handler,
and `new_connection` is called once for each slot of the table, in table order, every
call with that connector and with the handler wired through the synchronizer.  No handler
is invoked by the call.  On a session that is not stopped the calls dial one peer per slot,
in table order; on a stopped session they dial none. -/
theorem handle_started_table (handler : result_handler) (s : state)
    (hne : s.reservations_ ≠ []) :
    handle_started error.success handler s
      = s.reservations_.foldl
          (fun st row => new_connection s.connectors row
            (result_handler.func s.synchronizers.length handler) st)
          { s with
            trace := s.trace ++ [action.create_connector s.connectors],
            connectors := s.connectors + 1,
            reservations_count_ := s.reservations_.length,
            synchronizers := s.synchronizers ++ [⟨s.reservations_.length, false, 0⟩] }
    ∧ (handle_started error.success handler s).reservations_count_ = s.reservations_.length
    ∧ (handle_started error.success handler s).synchronizers
      = s.synchronizers ++ [⟨s.reservations_.length, false, 0⟩]
    ∧ (∀ h : result_handler,
        invocations h (handle_started error.success handler s).trace = invocations h s.trace)
    ∧ (s.stopped = false →
        (handle_started error.success handler s).trace
          = s.trace ++ action.create_connector s.connectors
            :: s.reservations_.map (fun row => action.connect s.connectors
                (callback.handle_connect s.connectors row
                  (result_handler.func s.synchronizers.length handler)))
        ∧ (handle_started error.success handler s).pending
          = s.pending ++ s.reservations_.map (fun row =>
              callback.handle_connect s.connectors row
                (result_handler.func s.synchronizers.length handler)))
    ∧ (s.stopped = true →
        (handle_started error.success handler s).trace
          = s.trace ++ [action.create_connector s.connectors]
        ∧ (handle_started error.success handler s).pending = s.pending) := by
  have he : s.reservations_.isEmpty = false := by
    cases hl : s.reservations_ with
    | nil => exact absurd hl hne
    | cons _ _ => rfl
  have hc : handle_started error.success handler s
      = s.reservations_.foldl
          (fun st row => new_connection s.connectors row
            (result_handler.func s.synchronizers.length handler) st)
          { s with
            trace := s.trace ++ [action.create_connector s.connectors],
            connectors := s.connectors + 1,
            reservations_count_ := s.reservations_.length,
            synchronizers := s.synchronizers ++ [⟨s.reservations_.length, false, 0⟩] } := by
    simp [handle_started, code.bool, he, create_connector, state.emit]
  refine ⟨hc, ?_⟩
  rw [hc]
  by_cases hs : s.stopped = true
  · rw [foldl_new_connection_stopped _ _ _ _ (by simpa using hs)]
    refine ⟨rfl, rfl, ?_, ?_, ?_⟩
    · intro h
      simp [invocations_append, invocations]
    · intro hf
      rw [hs] at hf
      exact absurd hf (by simp)
    · intro _
      exact ⟨rfl, rfl⟩
  · have hf : s.stopped = false := by simpa using hs
    rw [foldl_new_connection _ _ _ _ (by simpa using hf)]
    refine ⟨rfl, rfl, ?_, ?_, ?_⟩
    · intro h
      simp [invocations_append, invocations, invocations_connects]
    · intro _
      exact ⟨by simp, rfl⟩
    · intro ht
      exact absurd ht hs

theorem handle_started_table_witness :
    (state.fresh false [⟨0⟩, ⟨1⟩]).reservations_ ≠ []
    ∧ (handle_started error.success result_handler.caller
        (state.fresh false [⟨0⟩, ⟨1⟩])).reservations_count_ = 2
    ∧ (handle_started error.success result_handler.caller
        (state.fresh false [⟨0⟩, ⟨1⟩])).trace
      = [action.create_connector 0,
          action.connect 0 (callback.handle_connect 0 ⟨0⟩
            (result_handler.func 0 result_handler.caller)),
          action.connect 0 (callback.handle_connect 0 ⟨1⟩
            (result_handler.func 0 result_handler.caller))] :=
  ⟨by decide,
    (handle_started_table result_handler.caller (state.fresh false [⟨0⟩, ⟨1⟩])
      (by decide)).2.1,
    by decide⟩

end session_block_sync
end node
end libbitcoin

/-! ## Version protocol -/

namespace libbitcoin
namespace network
namespace protocol_version

open message

/-- C13: for every remote authority, settings, nonce and chain height below `2 ^ 32 - 1`
(the asserted precondition), with the wall-clock reading as an input,
`version_factory` returns the version message whose fields are, in order: the configured
protocol number; the services `node_network`, which is 1; the clock reading; the network
address of the remote authority with its services set to `node_network`; `settings.self`
as a network address; the nonce; the user agent `"/metaverse:" ++ MVS_VERSION ++ "/"`;
the height itself as start height; the `relay_transactions` flag. -/
theorem version_factory_fields (to_network_address : authority → network_address)
    (time_stamp : Nat) (MVS_VERSION : String) (authority : authority) (settings : settings)
    (nonce height : Nat) (h : height < 2 ^ 32 - 1) :
    version_factory to_network_address time_stamp MVS_VERSION authority settings nonce height
      = some
        { value := settings.protocol,
          services := 1,
          timestamp := time_stamp,
          addr_recv :=
            { timestamp := (to_network_address authority).timestamp,
              services := 1,
              ip := (to_network_address authority).ip,
              port := (to_network_address authority).port },
          addr_from := to_network_address settings.self,
          nonce := nonce,
          user_agent := "/metaverse:" ++ MVS_VERSION ++ "/",
          start_height := height,
          relay := settings.relay_transactions } := by
  have h1 : height < max_uint32 := by
    unfold max_uint32
    omega
  have h2 : height % 2 ^ 32 = height := Nat.mod_eq_of_lt (by omega)
  simp only [version_factory, h1, if_true, h2, node_network, BC_USER_AGENT]

theorem version_factory_fields_witness :
    100 < 2 ^ 32 - 1
    ∧ version_factory (fun a => ⟨0, 0, [a.ip], a.port⟩) 1500000000 "0.8.2" ⟨5, 5251⟩
        ⟨70012, ⟨9, 5252⟩, true⟩ 43690 100
      = some
        { value := 70012,
          services := 1,
          timestamp := 1500000000,
          addr_recv := { timestamp := 0, services := 1, ip := [5], port := 5251 },
          addr_from := ⟨0, 0, [9], 5252⟩,
          nonce := 43690,
          user_agent := "/metaverse:" ++ "0.8.2" ++ "/",
          start_height := 100,
          relay := true } :=
  ⟨by decide,
    version_factory_fields (fun a => ⟨0, 0, [a.ip], a.port⟩) 1500000000 "0.8.2" ⟨5, 5251⟩
      ⟨70012, ⟨9, 5252⟩, true⟩ 43690 100 (by decide)⟩

/-- C14, counterexample: at the chain height `2 ^ 31` the assertion of `version_factory`
holds and a version is produced that carries the start height `2 ^ 31`. -/
theorem version_factory_accepts_two_pow_31 :
    (2 : Nat) ^ 31 ≥ 2 ^ 31
    ∧ (version_factory (fun a => ⟨0, 0, [a.ip], a.port⟩) 1500000000 "0.8.2" ⟨5, 5251⟩
        ⟨70012, ⟨9, 5252⟩, true⟩ 43690 (2 ^ 31)).map (fun v => v.start_height)
      = some (2 ^ 31) := by
  decide

/-- C14, amended: a chain height of `2 ^ 32 - 1` or more is rejected.  For every chain
height, `version_factory` produces no version message exactly when the height is at least
`2 ^ 32 - 1` (its assertion `height < max_uint32` fails); every version it produces
carries the height itself as start height, which is below `2 ^ 32 - 1`. -/
theorem version_factory_rejects (to_network_address : authority → network_address)
    (time_stamp : Nat) (MVS_VERSION : String) (authority : authority) (settings : settings)
    (nonce height : Nat) :
    (version_factory to_network_address time_stamp MVS_VERSION authority settings nonce height
        = none ↔ 2 ^ 32 - 1 ≤ height)
    ∧ (∀ v : version,
        version_factory to_network_address time_stamp MVS_VERSION authority settings nonce
            height = some v →
        v.start_height = height ∧ v.start_height < 2 ^ 32 - 1) := by
  by_cases h : height < max_uint32
  · have h1 : height < 2 ^ 32 - 1 := by
      unfold max_uint32 at h
      omega
    have h2 : height % 2 ^ 32 = height := Nat.mod_eq_of_lt (by omega)
    constructor
    · simp only [version_factory, h, if_true]
      constructor
      · intro hn
        exact absurd hn (by simp)
      · intro hn
        omega
    · intro v hv
      simp only [version_factory, h, if_true, Option.some.injEq] at hv
      subst hv
      show height % 2 ^ 32 = height ∧ height % 2 ^ 32 < 2 ^ 32 - 1
      rw [h2]
      exact ⟨rfl, h1⟩
  · have h1 : 2 ^ 32 - 1 ≤ height := by
      unfold max_uint32 at h
      omega
    constructor
    · simp only [version_factory, h, if_false, true_iff]
      exact h1
    · intro v hv
      simp [version_factory, h] at hv

theorem handler_codes_append (a b : List action) :
    handler_codes (a ++ b) = handler_codes a ++ handler_codes b := by
  induction a with
  | nil => rfl
  | cons x t ih => cases x <;> simp [handler_codes, ih]

theorem recorded_append (a b : List action) : recorded (a ++ b) = recorded a ++ recorded b := by
  induction a with
  | nil => rfl
  | cons x t ih => cases x <;> simp [recorded, ih]

theorem veracks_append (a b : List action) : veracks (a ++ b) = veracks a + veracks b := by
  induction a with
  | nil => simp [veracks]
  | cons x t ih =>
    cases x <;> simp [veracks, ih]
    omega

/-- A synchronizer that clears on a call clears with the code of that call. -/
theorem call_code (y : synchronizer) (ec r : code) (h : (y.call ec).2 = some r) : r = ec := by
  by_cases hc : y.counter = y.clearance_count
  · simp [synchronizer.call, hc] at h
  · simp only [synchronizer.call, hc, if_false] at h
    split at h
    · simpa using h.symm
    · simp at h
      exact h.2.symm

/-- Recording an event appends the event and at most one invocation of the start handler,
with the code of the event; it touches only the trace, the synchronizer and the stored
handler. -/
theorem set_event_effect (ec : code) (s : state) :
    ∃ rest : List action,
      set_event ec s
        = { s with trace := s.trace ++ action.event ec :: rest,
                   events := (set_event ec s).events,
                   complete_handler_ := (set_event ec s).complete_handler_ }
      ∧ (rest = [] ∨ ∃ h : event_handler, rest = [action.invoked h ec]) := by
  unfold set_event
  simp only [state.emit]
  split
  · exact ⟨[], by simp, Or.inl rfl⟩
  · rename_i y hy
    split
    · rename_i r hr
      have hre := call_code y ec r hr
      subst hre
      unfold handle_complete
      simp only [state.emit]
      split
      · exact ⟨[], by simp, Or.inl rfl⟩
      · rename_i h hh
        exact ⟨[action.invoked h r], by simp, Or.inr ⟨h, rfl⟩⟩
    · exact ⟨[], by simp, Or.inl rfl⟩

theorem set_event_recorded (ec : code) (s : state) :
    recorded (set_event ec s).trace = recorded s.trace ++ [ec]
      ∧ veracks (set_event ec s).trace = veracks s.trace
      ∧ (set_event ec s).peer_version = s.peer_version
      ∧ (set_event ec s).pending = s.pending
      ∧ (set_event ec s).stopped = s.stopped := by
  obtain ⟨rest, heq, hrest⟩ := set_event_effect ec s
  rw [heq]
  rcases hrest with hr | ⟨h, hr⟩ <;> subst hr <;>
    simp [recorded_append, recorded, veracks_append, veracks]

/-- C16: on a channel that is not stopped.  `handle_receive_version` with a success code
and a message `m` sets the peer version of the channel to `m`, sends exactly one verack,
records exactly one event, with success, and returns false.  `handle_receive_verack`
with a success code records exactly one event, with success, sends nothing, leaves the
peer version and the pending callbacks as they are, and returns false.  Recording the
event is the call `set_event(success)`, which adds the event and at most the completion
of the start handler to the trace. -/
theorem receive_success (m : version) (s : state) (hs : s.stopped = false) :
    (handle_receive_version error.success m s).1 = false
    ∧ (handle_receive_version error.success m s).2
      = set_event error.success
          { s with
            peer_version := some m,
            trace := s.trace ++ [action.set_peer_version m, action.send_verack],
            pending := s.pending ++ [callback.handle_verack_sent] }
    ∧ (handle_receive_version error.success m s).2.peer_version = some m
    ∧ veracks (handle_receive_version error.success m s).2.trace = veracks s.trace + 1
    ∧ recorded (handle_receive_version error.success m s).2.trace
      = recorded s.trace ++ [error.success]
    ∧ (handle_receive_verack error.success s).1 = false
    ∧ (handle_receive_verack error.success s).2 = set_event error.success s
    ∧ recorded (handle_receive_verack error.success s).2.trace
      = recorded s.trace ++ [error.success]
    ∧ veracks (handle_receive_verack error.success s).2.trace = veracks s.trace
    ∧ (handle_receive_verack error.success s).2.peer_version = s.peer_version
    ∧ (handle_receive_verack error.success s).2.pending = s.pending := by
  have h1 : handle_receive_version error.success m s
      = (false, set_event error.success
          { s with
            peer_version := some m,
            trace := s.trace ++ [action.set_peer_version m, action.send_verack],
            pending := s.pending ++ [callback.handle_verack_sent] }) := by
    simp [handle_receive_version, hs, code.bool, state.emit, state.pend]
  have h2 : handle_receive_verack error.success s = (false, set_event error.success s) := by
    simp [handle_receive_verack, hs, code.bool]
  rw [h1, h2]
  obtain ⟨r1, v1, p1, _, _⟩ := set_event_recorded error.success
    { s with
      peer_version := some m,
      trace := s.trace ++ [action.set_peer_version m, action.send_verack],
      pending := s.pending ++ [callback.handle_verack_sent] }
  obtain ⟨r2, v2, p2, q2, _⟩ := set_event_recorded error.success s
  refine ⟨rfl, rfl, ?_, ?_, ?_, rfl, rfl, r2, v2, p2, q2⟩
  · rw [p1]
  · rw [v1]
    simp [veracks_append, veracks]
  · rw [r1]
    simp [recorded_append, recorded]

/-- Once the stored handler is cleared, recording an event invokes no handler. -/
theorem set_event_done (ec : code) (s : state) (h : s.complete_handler_ = none) :
    (set_event ec s).complete_handler_ = none
      ∧ handler_codes (set_event ec s).trace = handler_codes s.trace := by
  unfold set_event
  simp only [state.emit]
  split
  · exact ⟨h, by simp [handler_codes_append, handler_codes]⟩
  · split
    · simp [handle_complete, h, handler_codes_append, handler_codes]
    · exact ⟨h, by simp [handler_codes_append, handler_codes]⟩

/-- Once the stored handler is cleared, no event invokes a handler. -/
theorem deliver_done (e : event) (s : state) (h : s.complete_handler_ = none) :
    (deliver e s).complete_handler_ = none
      ∧ handler_codes (deliver e s).trace = handler_codes s.trace := by
  unfold deliver
  split
  · cases e with
    | receive_version ec m =>
      simp only [resubscribe, handle_receive_version, state.take]
      split
      · exact ⟨h, rfl⟩
      · split
        · exact set_event_done ec _ h
        · obtain ⟨h1, h2⟩ := set_event_done error.success
            { s with
              pending := s.pending.erase callback.handle_receive_version
                ++ [callback.handle_verack_sent],
              peer_version := some m,
              trace := s.trace ++ [action.set_peer_version m, action.send_verack] } h
          simp only [state.emit, state.pend, Bool.false_eq_true, if_false,
            List.append_assoc, List.singleton_append] at h1 h2 ⊢
          exact ⟨h1, by rw [h2]; simp [handler_codes_append, handler_codes]⟩
    | receive_verack ec =>
      simp only [resubscribe, handle_receive_verack, state.take]
      split
      · exact ⟨h, rfl⟩
      · split
        · exact set_event_done ec _ h
        · exact set_event_done error.success _ h
    | version_sent ec =>
      simp only [handle_version_sent, state.take]
      split
      · exact ⟨h, rfl⟩
      · split
        · exact set_event_done ec _ h
        · exact ⟨h, rfl⟩
    | verack_sent ec =>
      simp only [handle_verack_sent, state.take]
      split
      · exact ⟨h, rfl⟩
      · split
        · exact set_event_done ec _ h
        · exact ⟨h, rfl⟩
  · exact ⟨h, rfl⟩

theorem run_done (events : List event) (s : state) (h : s.complete_handler_ = none) :
    handler_codes (run s events).trace = handler_codes s.trace := by
  induction events generalizing s with
  | nil => rfl
  | cons e t ih =>
    simp only [run, List.foldl_cons]
    obtain ⟨h1, h2⟩ := deliver_done e s h
    have := ih _ h1
    simp only [run] at this
    rw [this, h2]

theorem code_bool_false (ec : code) (h : ¬ code.bool ec = true) : ec = error.success := by
  cases ec <;> simp [code.bool] at h ⊢

/-- While fewer than two events are counted, an error, or the second success, completes
the handshake: the stored handler is invoked with the code of the event and cleared. -/
theorem set_event_fires (ec : code) (s : state) (h : event_handler) (c : Nat)
    (hh : s.complete_handler_ = some h) (he : s.events = some ⟨2, false, c⟩) (hc : c < 2)
    (hfire : code.bool ec = true ∨ c = 1) :
    set_event ec s
      = { s with
          trace := s.trace ++ [action.event ec, action.invoked h ec],
          events := some ⟨2, false, 2⟩,
          complete_handler_ := none } := by
  have hne : c ≠ 2 := by omega
  rcases hfire with hb | h1
  · simp [set_event, state.emit, he, synchronizer.call, hne, hb, handle_complete, hh]
  · subst h1
    by_cases hb : code.bool ec = true
    · simp [set_event, state.emit, he, synchronizer.call, hb, handle_complete, hh]
    · simp [set_event, state.emit, he, synchronizer.call, hb, handle_complete, hh]

/-- The first success is counted and completes nothing. -/
theorem set_event_counts (s : state) (he : s.events = some ⟨2, false, 0⟩) :
    set_event error.success s
      = { s with
          trace := s.trace ++ [action.event error.success],
          events := some ⟨2, false, 1⟩ } := by
  simp [set_event, state.emit, he, synchronizer.call, code.bool]

theorem deliver_error (e : event) (s : state) (hp : e.callback ∈ s.pending)
    (hs : s.stopped = false) (hec : code.bool e.code = true) :
    deliver e s = set_event e.code { s with pending := s.pending.erase e.callback } := by
  cases e <;>
    simp_all [deliver, event.callback, event.code, resubscribe, handle_receive_version,
      handle_receive_verack, handle_version_sent, handle_verack_sent, state.take]

theorem deliver_receive_version (m : version) (s : state)
    (hp : callback.handle_receive_version ∈ s.pending) (hs : s.stopped = false) :
    deliver (event.receive_version error.success m) s
      = set_event error.success
          { s with
            pending := s.pending.erase callback.handle_receive_version
              ++ [callback.handle_verack_sent],
            peer_version := some m,
            trace := s.trace ++ [action.set_peer_version m, action.send_verack] } := by
  simp [deliver, event.callback, hp, resubscribe, handle_receive_version, state.take, hs,
    code.bool, state.emit, state.pend]

theorem deliver_receive_verack (s : state)
    (hp : callback.handle_receive_verack ∈ s.pending) (hs : s.stopped = false) :
    deliver (event.receive_verack error.success) s
      = set_event error.success
          { s with pending := s.pending.erase callback.handle_receive_verack } := by
  simp [deliver, event.callback, hp, resubscribe, handle_receive_verack, state.take, hs,
    code.bool]

theorem deliver_version_sent (s : state)
    (hp : callback.handle_version_sent ∈ s.pending) (hs : s.stopped = false) :
    deliver (event.version_sent error.success) s
      = { s with pending := s.pending.erase callback.handle_version_sent } := by
  simp [deliver, event.callback, hp, handle_version_sent, state.take, hs, code.bool]

theorem deliver_verack_sent (s : state)
    (hp : callback.handle_verack_sent ∈ s.pending) (hs : s.stopped = false) :
    deliver (event.verack_sent error.success) s
      = { s with pending := s.pending.erase callback.handle_verack_sent } := by
  simp [deliver, event.callback, hp, handle_verack_sent, state.take, hs, code.bool]

theorem waiting_count (h : event_handler) (gv ga : Bool) (s : state)
    (hw : waiting h gv ga s) :
    (if gv then 1 else 0) + (if ga then 1 else 0) < 2 := by
  obtain ⟨_, _, _, hnot, _, _⟩ := hw
  cases gv <;> cases ga <;> simp at hnot ⊢

/-- An error reported by a pending callback completes the handshake with that error. -/
theorem step_error (e : event) (s : state) (h : event_handler) (gv ga : Bool)
    (hw : waiting h gv ga s) (hp : e.callback ∈ s.pending)
    (hec : code.bool e.code = true) :
    (deliver e s).complete_handler_ = none
      ∧ handler_codes (deliver e s).trace = handler_codes s.trace ++ [e.code] := by
  have hc := waiting_count h gv ga s hw
  obtain ⟨hs, hh, he, _, _, _⟩ := hw
  rw [deliver_error e s hp hs hec,
    set_event_fires e.code { s with pending := s.pending.erase e.callback } h _ hh he hc
      (Or.inl hec)]
  exact ⟨rfl, by simp [handler_codes_append, handler_codes]⟩

/-- The inbound version received first is counted. -/
theorem step_version_first (m : version) (s : state) (h : event_handler)
    (hw : waiting h false false s) (hp : callback.handle_receive_version ∈ s.pending) :
    waiting h true false (deliver (event.receive_version error.success m) s)
      ∧ handler_codes (deliver (event.receive_version error.success m) s).trace
        = handler_codes s.trace := by
  obtain ⟨hs, hh, he, _, hcv, hca⟩ := hw
  rw [deliver_receive_version m s hp hs, set_event_counts _ (by simpa using he)]
  refine ⟨⟨hs, hh, rfl, Or.inr rfl, ?_, ?_⟩, by simp [handler_codes_append, handler_codes]⟩
  · simp only [List.count_append, List.count_erase_self]
    simp at hcv
    simp [List.count_cons]
    omega
  · simp only [List.count_append]
    rw [List.count_erase_of_ne (by decide)]
    simp at hca
    simp [List.count_cons]
    omega

/-- The inbound version received after the verack completes the handshake with success. -/
theorem step_version_second (m : version) (s : state) (h : event_handler)
    (hw : waiting h false true s) (hp : callback.handle_receive_version ∈ s.pending) :
    (deliver (event.receive_version error.success m) s).complete_handler_ = none
      ∧ handler_codes (deliver (event.receive_version error.success m) s).trace
        = handler_codes s.trace ++ [error.success] := by
  obtain ⟨hs, hh, he, _, _, _⟩ := hw
  rw [deliver_receive_version m s hp hs,
    set_event_fires error.success
      { s with
        pending := s.pending.erase callback.handle_receive_version
          ++ [callback.handle_verack_sent],
        peer_version := some m,
        trace := s.trace ++ [action.set_peer_version m, action.send_verack] }
      h 1 hh (by simpa using he) (by omega) (Or.inr rfl)]
  exact ⟨rfl, by simp [handler_codes_append, handler_codes]⟩

/-- The inbound verack received first is counted. -/
theorem step_verack_first (s : state) (h : event_handler)
    (hw : waiting h false false s) (hp : callback.handle_receive_verack ∈ s.pending) :
    waiting h false true (deliver (event.receive_verack error.success) s)
      ∧ handler_codes (deliver (event.receive_verack error.success) s).trace
        = handler_codes s.trace := by
  obtain ⟨hs, hh, he, _, hcv, hca⟩ := hw
  rw [deliver_receive_verack s hp hs, set_event_counts _ (by simpa using he)]
  refine ⟨⟨hs, hh, rfl, Or.inl rfl, ?_, ?_⟩, by simp [handler_codes_append, handler_codes]⟩
  · show List.count callback.handle_receive_version
        (s.pending.erase callback.handle_receive_verack) + _ ≤ 1
    rw [List.count_erase_of_ne (by decide)]
    exact hcv
  · show List.count callback.handle_receive_verack
        (s.pending.erase callback.handle_receive_verack) + _ ≤ 1
    simp only [List.count_erase_self]
    simp at hca
    simp
    omega

/-- The inbound verack received after the version completes the handshake with success. -/
theorem step_verack_second (s : state) (h : event_handler)
    (hw : waiting h true false s) (hp : callback.handle_receive_verack ∈ s.pending) :
    (deliver (event.receive_verack error.success) s).complete_handler_ = none
      ∧ handler_codes (deliver (event.receive_verack error.success) s).trace
        = handler_codes s.trace ++ [error.success] := by
  obtain ⟨hs, hh, he, _, _, _⟩ := hw
  rw [deliver_receive_verack s hp hs,
    set_event_fires error.success
      { s with pending := s.pending.erase callback.handle_receive_verack }
      h 1 hh (by simpa using he) (by omega) (Or.inr rfl)]
  exact ⟨rfl, by simp [handler_codes_append, handler_codes]⟩

/-- A send that completes with success records nothing. -/
theorem step_sent (e : event) (s : state) (h : event_handler) (gv ga : Bool)
    (hw : waiting h gv ga s) (hp : e.callback ∈ s.pending)
    (he : e = event.version_sent error.success ∨ e = event.verack_sent error.success) :
    waiting h gv ga (deliver e s) ∧ (deliver e s).trace = s.trace := by
  obtain ⟨hs, hh, hev, hnot, hcv, hca⟩ := hw
  rcases he with he | he <;> subst he
  · rw [deliver_version_sent s hp hs]
    refine ⟨⟨hs, hh, hev, hnot, ?_, ?_⟩, rfl⟩
    · show List.count callback.handle_receive_version
          (s.pending.erase callback.handle_version_sent) + _ ≤ 1
      rw [List.count_erase_of_ne (by decide)]
      exact hcv
    · show List.count callback.handle_receive_verack
          (s.pending.erase callback.handle_version_sent) + _ ≤ 1
      rw [List.count_erase_of_ne (by decide)]
      exact hca
  · rw [deliver_verack_sent s hp hs]
    refine ⟨⟨hs, hh, hev, hnot, ?_, ?_⟩, rfl⟩
    · show List.count callback.handle_receive_version
          (s.pending.erase callback.handle_verack_sent) + _ ≤ 1
      rw [List.count_erase_of_ne (by decide)]
      exact hcv
    · show List.count callback.handle_receive_verack
          (s.pending.erase callback.handle_verack_sent) + _ ≤ 1
      rw [List.count_erase_of_ne (by decide)]
      exact hca

/-- A subscription that has delivered its message is not pending any more. -/
theorem waiting_received (h : event_handler) (gv ga : Bool) (s : state)
    (hw : waiting h gv ga s) :
    (callback.handle_receive_version ∈ s.pending → gv = false)
      ∧ (callback.handle_receive_verack ∈ s.pending → ga = false) := by
  obtain ⟨_, _, _, _, hcv, hca⟩ := hw
  constructor
  · intro hp
    have := List.count_pos_iff.mpr hp
    cases gv
    · rfl
    · simp at hcv
      omega
  · intro hp
    have := List.count_pos_iff.mpr hp
    cases ga
    · rfl
    · simp at hca
      omega

/-- Along a valid sequence of callback invocations on a handshake under way, the start
handler receives what the specification's outcome says, and nothing else. -/
theorem run_waiting (events : List event) (s : state) (h : event_handler)
    (gv ga : Bool) (hw : waiting h gv ga s) (hv : valid s events = true) :
    handler_codes (run s events).trace
      = handler_codes s.trace ++ (spec_outcome gv ga events).toList := by
  induction events generalizing s gv ga with
  | nil => simp [run, spec_outcome]
  | cons e t ih =>
    simp only [valid, Bool.and_eq_true, decide_eq_true_eq] at hv
    obtain ⟨hp, hvt⟩ := hv
    have hrun : run s (e :: t) = run (deliver e s) t := rfl
    rw [hrun]
    by_cases hec : code.bool e.code = true
    · obtain ⟨hd, hcodes⟩ := step_error e s h gv ga hw hp hec
      rw [run_done t _ hd, hcodes]
      simp [spec_outcome, hec]
    · obtain ⟨hrv, hra⟩ := waiting_received h gv ga s hw
      cases e with
      | receive_version ec m =>
        have hsucc : ec = error.success := code_bool_false ec hec
        subst hsucc
        have hgv := hrv hp
        subst hgv
        cases ga with
        | true =>
          obtain ⟨hd, hcodes⟩ := step_version_second m s h hw hp
          rw [run_done t _ hd, hcodes]
          simp [spec_outcome, code.bool, event.code]
        | false =>
          obtain ⟨hw2, hcodes⟩ := step_version_first m s h hw hp
          rw [ih _ true false hw2 hvt, hcodes]
          simp [spec_outcome, code.bool, event.code]
      | receive_verack ec =>
        have hsucc : ec = error.success := code_bool_false ec hec
        subst hsucc
        have hga := hra hp
        subst hga
        cases gv with
        | true =>
          obtain ⟨hd, hcodes⟩ := step_verack_second s h hw hp
          rw [run_done t _ hd, hcodes]
          simp [spec_outcome, code.bool, event.code]
        | false =>
          obtain ⟨hw2, hcodes⟩ := step_verack_first s h hw hp
          rw [ih _ false true hw2 hvt, hcodes]
          simp [spec_outcome, code.bool, event.code]
      | version_sent ec =>
        have hsucc : ec = error.success := code_bool_false ec hec
        subst hsucc
        obtain ⟨hw2, htr⟩ := step_sent _ s h gv ga hw hp (Or.inl rfl)
        rw [ih _ gv ga hw2 hvt, htr]
        simp [spec_outcome, code.bool, event.code]
      | verack_sent ec =>
        have hsucc : ec = error.success := code_bool_false ec hec
        subst hsucc
        obtain ⟨hw2, htr⟩ := step_sent _ s h gv ga hw hp (Or.inr rfl)
        rw [ih _ gv ga hw2 hvt, htr]
        simp [spec_outcome, code.bool, event.code]

/-- The started protocol is a handshake under way with nothing received yet. -/
theorem start_waiting (to_network_address : authority → network_address) (time_stamp : Nat)
    (MVS_VERSION : String) (height : Nat) (settings : settings) (handler : event_handler)
    (nonce : Nat) (authority : authority) (hh : height < 2 ^ 32 - 1) :
    ∃ s0 : state,
      start to_network_address time_stamp MVS_VERSION height settings handler
          (state.fresh nonce authority) = some s0
      ∧ waiting handler false false s0 := by
  have h1 : height < max_uint32 := by
    unfold max_uint32
    omega
  simp only [start, version_factory, h1, if_true]
  refine ⟨_, rfl, ?_⟩
  simp [waiting, send_version, state.emit, state.pend, state.fresh, List.count_cons]

/-- C15: the outcome of the version handshake, with the two-event synchronizer and the
subscriptions modelled as the specification describes them.  The protocol starts on a
channel that is not stopped: `start` returns, the channel is still not stopped, and the
callbacks for an inbound version, an inbound verack and the completion of the version send
are pending.  Any sequence of callback invocations follows in which every callback is
pending when it is invoked (version received, verack received, version sent, verack sent,
each with a code).  The start handler then receives exactly the outcome the specification
states: success exactly when an inbound version and an inbound verack were both received
without error, in either order, before any error; the first error when an error is
reported before that; nothing otherwise; and never more than one code.  Such sequences
exist: a version and a verack received without error, in either order and with the sends
completing in between, can follow `start` and give success; one of them alone gives
nothing; and an error of any of the four callbacks can follow and gives that error.  A
send that completes with success records no event: it leaves the state as it is. -/
theorem handshake_outcome (to_network_address : authority → network_address)
    (time_stamp : Nat) (MVS_VERSION : String) (height : Nat) (settings : settings)
    (handler : event_handler) (nonce : Nat) (authority : authority)
    (hh : height < 2 ^ 32 - 1) :
    ∃ s0 : state,
      start to_network_address time_stamp MVS_VERSION height settings handler
          (state.fresh nonce authority) = some s0
      ∧ s0.stopped = false
      ∧ s0.pending = [callback.handle_receive_version, callback.handle_receive_verack,
          callback.handle_version_sent]
      ∧ handler_codes s0.trace = []
      ∧ (∀ events : List event, valid s0 events = true →
          handler_codes (run s0 events).trace = (spec_outcome false false events).toList)
      ∧ (∀ m : version,
          valid s0 [event.receive_version error.success m,
              event.receive_verack error.success] = true
          ∧ handler_codes (run s0 [event.receive_version error.success m,
              event.receive_verack error.success]).trace = [error.success]
          ∧ valid s0 [event.receive_verack error.success,
              event.receive_version error.success m] = true
          ∧ handler_codes (run s0 [event.receive_verack error.success,
              event.receive_version error.success m]).trace = [error.success]
          ∧ valid s0 [event.version_sent error.success,
              event.receive_version error.success m, event.verack_sent error.success,
              event.receive_verack error.success] = true
          ∧ handler_codes (run s0 [event.version_sent error.success,
              event.receive_version error.success m, event.verack_sent error.success,
              event.receive_verack error.success]).trace = [error.success]
          ∧ valid s0 [event.receive_version error.success m] = true
          ∧ handler_codes (run s0 [event.receive_version error.success m]).trace = []
          ∧ valid s0 [event.receive_verack error.success] = true
          ∧ handler_codes (run s0 [event.receive_verack error.success]).trace = [])
      ∧ (∀ e : event, e.callback ≠ callback.handle_verack_sent → e.code ≠ error.success →
          valid s0 [e] = true ∧ handler_codes (run s0 [e]).trace = [e.code])
      ∧ (∀ (m : version) (ec : code), ec ≠ error.success →
          valid s0 [event.receive_version error.success m, event.verack_sent ec] = true
          ∧ handler_codes (run s0 [event.receive_version error.success m,
              event.verack_sent ec]).trace = [ec])
      ∧ (∀ s : state,
          handle_version_sent error.success s = s
            ∧ handle_verack_sent error.success s = s) := by
  obtain ⟨s0, hs0, hw⟩ := start_waiting to_network_address time_stamp MVS_VERSION height
    settings handler nonce authority hh
  have h1 : height < max_uint32 := by
    unfold max_uint32
    omega
  have htr : handler_codes s0.trace = [] := by
    simp only [start, version_factory, h1, if_true, Option.some.injEq] at hs0
    subst hs0
    simp [send_version, state.emit, state.pend, state.fresh, handler_codes]
  have hst : s0.stopped = false := hw.1
  have hpend : s0.pending = [callback.handle_receive_version,
      callback.handle_receive_verack, callback.handle_version_sent] := by
    simp only [start, version_factory, h1, if_true, Option.some.injEq] at hs0
    subst hs0
    simp [send_version, state.emit, state.pend, state.fresh]
  have hgen : ∀ events : List event, valid s0 events = true →
      handler_codes (run s0 events).trace = (spec_outcome false false events).toList := by
    intro events hv
    rw [run_waiting events s0 handler false false hw hv, htr]
    simp
  have hev : s0.events = some ⟨2, false, 0⟩ := by
    have := hw.2.2.1
    simpa using this
  have hch : s0.complete_handler_ = some handler := hw.2.1
  have hval : ∀ m : version,
      valid s0 [event.receive_version error.success m,
          event.receive_verack error.success] = true
      ∧ valid s0 [event.receive_verack error.success,
          event.receive_version error.success m] = true
      ∧ valid s0 [event.version_sent error.success,
          event.receive_version error.success m, event.verack_sent error.success,
          event.receive_verack error.success] = true
      ∧ valid s0 [event.receive_version error.success m] = true
      ∧ valid s0 [event.receive_verack error.success] = true
      ∧ (∀ ec : code,
          valid s0 [event.receive_version error.success m, event.verack_sent ec] = true) := by
    intro m
    obtain ⟨st, n, a, ch, ev, pv, pend, tr⟩ := s0
    simp only at hst hpend hev hch
    subst hst hpend hev hch
    simp [valid, deliver, event.callback, state.take, resubscribe, handle_receive_version,
      handle_receive_verack, handle_version_sent, handle_verack_sent, set_event, state.emit,
      state.pend,
      synchronizer.call, code.bool, handle_complete]
  have hfirst : ∀ e : event, e.callback ≠ callback.handle_verack_sent →
      valid s0 [e] = true := by
    intro e he
    cases e <;> simp [valid, event.callback, hpend] at he ⊢
  refine ⟨s0, hs0, hst, hpend, htr, hgen, ?_, ?_, ?_, ?_⟩
  · intro m
    obtain ⟨v1, v2, v3, v4, v5, -⟩ := hval m
    refine ⟨v1, ?_, v2, ?_, v3, ?_, v4, ?_, v5, ?_⟩
    · rw [hgen _ v1]
      simp [spec_outcome, code.bool, event.code]
    · rw [hgen _ v2]
      simp [spec_outcome, code.bool, event.code]
    · rw [hgen _ v3]
      simp [spec_outcome, code.bool, event.code]
    · rw [hgen _ v4]
      simp [spec_outcome, code.bool, event.code]
    · rw [hgen _ v5]
      simp [spec_outcome, code.bool, event.code]
  · intro e he hec
    have hv := hfirst e he
    refine ⟨hv, ?_⟩
    rw [hgen _ hv]
    simp [spec_outcome, code.bool, hec]
  · intro m ec hec
    have hv := (hval m).2.2.2.2.2 ec
    refine ⟨hv, ?_⟩
    rw [hgen _ hv]
    simp [spec_outcome, code.bool, event.code, hec]
  · intro s
    constructor
    · simp [handle_version_sent, code.bool]
    · simp [handle_verack_sent, code.bool]

theorem handshake_outcome_witness :
    100 < 2 ^ 32 - 1
    ∧ ∃ s0 : state,
      start (fun a => ⟨0, 0, [a.ip], a.port⟩) 1500000000 "0.8.2" 100
          ⟨70012, ⟨9, 5252⟩, true⟩ 1 (state.fresh 43690 ⟨5, 5251⟩) = some s0
      ∧ valid s0 [event.version_sent error.success,
          event.receive_version error.success echoed_version,
          event.verack_sent error.success, event.receive_verack error.success] = true
      ∧ handler_codes (run s0 [event.version_sent error.success,
          event.receive_version error.success echoed_version,
          event.verack_sent error.success, event.receive_verack error.success]).trace
        = [error.success]
      ∧ valid s0 [event.receive_version error.success echoed_version,
          event.verack_sent error.channel_timeout] = true
      ∧ handler_codes (run s0 [event.receive_version error.success echoed_version,
          event.verack_sent error.channel_timeout]).trace = [error.channel_timeout] :=
  ⟨by decide,
    (handshake_outcome (fun a => ⟨0, 0, [a.ip], a.port⟩) 1500000000 "0.8.2" 100
      ⟨70012, ⟨9, 5252⟩, true⟩ 1 43690 ⟨5, 5251⟩ (by decide)).elim
      (fun s0 h => ⟨s0, h.1,
        (h.2.2.2.2.2.1 echoed_version).2.2.2.2.1,
        (h.2.2.2.2.2.1 echoed_version).2.2.2.2.2.1,
        (h.2.2.2.2.2.2.2.1 echoed_version error.channel_timeout (by decide)).1,
        (h.2.2.2.2.2.2.2.1 echoed_version error.channel_timeout (by decide)).2⟩)⟩

/-- The state `handshaking` is the state `start` leaves, without the trace of `start`. -/
theorem handshaking_started :
    (start (fun a => ⟨0, 0, [a.ip], a.port⟩) 1500000000 "0.8.2" 100
        ⟨70012, ⟨9, 5252⟩, true⟩ 1 (state.fresh 43690 ⟨5, 5251⟩)).map
      (fun s => { s with trace := [] }) = some handshaking := by
  decide

theorem receive_success_witness :
    handshaking.stopped = false
    ∧ (handle_receive_version error.success echoed_version handshaking).1 = false
    ∧ (handle_receive_version error.success echoed_version handshaking).2.peer_version
      = some echoed_version
    ∧ recorded (handle_receive_version error.success echoed_version handshaking).2.trace
      = recorded handshaking.trace ++ [error.success]
    ∧ (handle_receive_verack error.success handshaking).2
      = set_event error.success handshaking :=
  ⟨rfl,
    (receive_success echoed_version handshaking rfl).1,
    (receive_success echoed_version handshaking rfl).2.2.1,
    (receive_success echoed_version handshaking rfl).2.2.2.2.1,
    (receive_success echoed_version handshaking rfl).2.2.2.2.2.2.1⟩

/-- C17, counterexample: the inbound version carries the nonce of the channel, 43690.
Handling it records a success event and no accept_failed, and once the verack arrives the
start handler completes with success. -/
theorem self_connect_completes :
    echoed_version.nonce = handshaking.nonce
    ∧ recorded (handle_receive_version error.success echoed_version handshaking).2.trace
      = [error.success]
    ∧ valid handshaking
        [event.receive_version error.success echoed_version,
          event.receive_verack error.success] = true
    ∧ handler_codes (run handshaking
        [event.receive_version error.success echoed_version,
          event.receive_verack error.success]).trace
      = [error.success] := by
  decide

/-- C17, amended: the version protocol does no self-connect detection.  On a channel that
is not stopped, `handle_receive_version` with a success code handles an inbound version
whose nonce equals the nonce of the channel like any other version: it stores the message
as peer version, sends one verack and records exactly one event, with success; the start
handler receives nothing or, when this event completes the handshake, success. -/
theorem receive_version_ignores_nonce (m : version) (s : state) (hs : s.stopped = false) :
    (handle_receive_version error.success { m with nonce := s.nonce } s).2
      = set_event error.success
          { s with
            peer_version := some { m with nonce := s.nonce },
            trace := s.trace
              ++ [action.set_peer_version { m with nonce := s.nonce }, action.send_verack],
            pending := s.pending ++ [callback.handle_verack_sent] }
    ∧ (handle_receive_version error.success { m with nonce := s.nonce } s).2.peer_version
      = some { m with nonce := s.nonce }
    ∧ veracks (handle_receive_version error.success { m with nonce := s.nonce } s).2.trace
      = veracks s.trace + 1
    ∧ recorded (handle_receive_version error.success { m with nonce := s.nonce } s).2.trace
      = recorded s.trace ++ [error.success]
    ∧ (handler_codes
          (handle_receive_version error.success { m with nonce := s.nonce } s).2.trace
        = handler_codes s.trace
      ∨ handler_codes
          (handle_receive_version error.success { m with nonce := s.nonce } s).2.trace
        = handler_codes s.trace ++ [error.success]) := by
  have h1 : handle_receive_version error.success { m with nonce := s.nonce } s
      = (false, set_event error.success
          { s with
            peer_version := some { m with nonce := s.nonce },
            trace := s.trace
              ++ [action.set_peer_version { m with nonce := s.nonce }, action.send_verack],
            pending := s.pending ++ [callback.handle_verack_sent] }) := by
    simp [handle_receive_version, hs, code.bool, state.emit, state.pend]
  rw [h1]
  obtain ⟨r1, v1, p1, _, _⟩ := set_event_recorded error.success
    { s with
      peer_version := some { m with nonce := s.nonce },
      trace := s.trace
        ++ [action.set_peer_version { m with nonce := s.nonce }, action.send_verack],
      pending := s.pending ++ [callback.handle_verack_sent] }
  obtain ⟨rest, heq, hrest⟩ := set_event_effect error.success
    { s with
      peer_version := some { m with nonce := s.nonce },
      trace := s.trace
        ++ [action.set_peer_version { m with nonce := s.nonce }, action.send_verack],
      pending := s.pending ++ [callback.handle_verack_sent] }
  refine ⟨rfl, ?_, ?_, ?_, ?_⟩
  · rw [p1]
  · rw [v1]
    simp [veracks_append, veracks]
  · rw [r1]
    simp [recorded_append, recorded]
  · show handler_codes (set_event error.success _).trace = _ ∨ _
    rw [heq]
    rcases hrest with hr | ⟨h, hr⟩ <;> subst hr <;>
      simp [handler_codes_append, handler_codes]

theorem receive_version_ignores_nonce_witness :
    handshaking.stopped = false
    ∧ recorded (handle_receive_version error.success
        { echoed_version with nonce := handshaking.nonce } handshaking).2.trace
      = recorded handshaking.trace ++ [error.success] :=
  ⟨rfl, (receive_version_ignores_nonce echoed_version handshaking rfl).2.2.2.1⟩

end protocol_version
end network
end libbitcoin

/-! ## Seed protocol -/

namespace libbitcoin
namespace network
namespace protocol_seed

open message

theorem seed_handler_codes_append (a b : List action) :
    handler_codes (a ++ b) = handler_codes a ++ handler_codes b := by
  induction a with
  | nil => rfl
  | cons x t ih => cases x <;> simp [handler_codes, ih]

theorem seed_recorded_append (a b : List action) : recorded (a ++ b) = recorded a ++ recorded b := by
  induction a with
  | nil => rfl
  | cons x t ih => cases x <;> simp [recorded, ih]

theorem sent_addresses_append (a b : List action) :
    sent_addresses (a ++ b) = sent_addresses a ++ sent_addresses b := by
  induction a with
  | nil => rfl
  | cons x t ih => cases x <;> simp [sent_addresses, ih]

/-- A synchronizer that clears on a call clears with the code of that call. -/
theorem cleared_code (y : synchronizer) (ec r : code) (h : (y.call ec).2 = some r) :
    r = ec := by
  by_cases hc : y.counter = y.clearance_count
  · simp [synchronizer.call, hc] at h
  · simp only [synchronizer.call, hc, if_false] at h
    split at h
    · simpa using h.symm
    · simp at h
      exact h.2.symm

/-- Recording an event appends the event and, when the synchronizer clears, the
completion with the code of the event: the handler is invoked and the channel stopped. -/
theorem seed_event_effect (ec : code) (s : state) :
    ∃ rest : List action,
      (set_event ec s).trace = s.trace ++ action.event ec :: rest
      ∧ (set_event ec s).pending = s.pending
      ∧ (rest = []
        ∨ ∃ h : event_handler, rest = [action.invoked h ec, action.stop ec]) := by
  unfold set_event
  simp only [state.emit]
  split
  · exact ⟨[], by simp, rfl, Or.inl rfl⟩
  · rename_i y h hy
    split
    · rename_i r hr
      have hre := cleared_code y ec r hr
      subst hre
      exact ⟨[action.invoked h r, action.stop r],
        by simp [handle_seeding_complete, state.emit], rfl, Or.inr ⟨h, rfl⟩⟩
    · exact ⟨[], by simp, rfl, Or.inl rfl⟩

theorem seed_event_recorded (ec : code) (s : state) :
    recorded (set_event ec s).trace = recorded s.trace ++ [ec]
      ∧ sent_addresses (set_event ec s).trace = sent_addresses s.trace
      ∧ (set_event ec s).pending = s.pending := by
  obtain ⟨rest, heq, hp, hrest⟩ := seed_event_effect ec s
  rw [heq]
  rcases hrest with hr | ⟨h, hr⟩ <;> subst hr <;>
    simp [seed_recorded_append, recorded, sent_addresses_append, sent_addresses, hp]

/-- While the synchronizer has not cleared, an error completes the seeding with that
error: the handler is invoked with it and the channel is stopped with it. -/
theorem set_event_error (ec : code) (s : state) (h : event_handler) (y : synchronizer)
    (hec : code.bool ec = true) (he : s.events = some (y, h))
    (hy : y.suppress_errors = false) (hn : y.counter ≠ y.clearance_count) :
    set_event ec s
      = { s with
          trace := s.trace ++ [action.event ec, action.invoked h ec, action.stop ec],
          events := some ({ y with counter := y.clearance_count }, h),
          stopped := true } := by
  simp [set_event, state.emit, he, synchronizer.call, hn, hec, hy, handle_seeding_complete]

/-- A success on a synchronizer over three events that has counted less than two is
counted and completes nothing. -/
theorem set_event_success (s : state) (h : event_handler) (c : Nat)
    (he : s.events = some (⟨3, false, c⟩, h)) (hc : c < 2) :
    set_event error.success s
      = { s with
          trace := s.trace ++ [action.event error.success],
          events := some (⟨3, false, c + 1⟩, h) } := by
  have h1 : c ≠ 3 := by omega
  have h2 : c + 1 ≠ 3 := by omega
  simp [set_event, state.emit, he, synchronizer.call, h1, h2, code.bool]

/-- On a stopped channel no callback does anything. -/
theorem deliver_stopped (e : event) (s : state) (hs : s.stopped = true) :
    (deliver e s).stopped = true ∧ (deliver e s).trace = s.trace := by
  unfold deliver
  split
  · cases e <;>
      simp [resubscribe, handle_receive_address, handle_send_address,
        handle_send_get_address, handle_store_addresses, state.take, hs]
  · exact ⟨hs, rfl⟩

theorem run_stopped (events : List event) (s : state) (hs : s.stopped = true) :
    (run s events).trace = s.trace := by
  induction events generalizing s with
  | nil => rfl
  | cons e t ih =>
    obtain ⟨h1, h2⟩ := deliver_stopped e s hs
    have hrun : run s (e :: t) = run (deliver e s) t := rfl
    rw [hrun, ih _ h1, h2]

/-- The started protocol is a seeding under way that has invoked no handler. -/
theorem start_is_seeding (to_network_address : authority → network_address)
    (settings : settings) (handler : event_handler)
    (hcap : settings.host_pool_capacity ≠ 0) :
    seeding handler (start to_network_address settings handler state.fresh)
      ∧ handler_codes (start to_network_address settings handler state.fresh).trace = [] := by
  by_cases hport : settings.self.port = 0
  · have h1 := set_event_success
      { stopped := false, events := some (⟨3, false, 0⟩, handler),
        pending := [callback.handle_receive_address],
        trace := [action.timer_start, action.subscribe_address] } handler 0 rfl (by omega)
    simp only [start, hcap, if_false, send_own_address, hport, if_true, state.emit,
      state.pend, state.fresh, List.nil_append, List.cons_append]
    rw [h1]
    exact ⟨⟨rfl, 1, rfl, by simp [List.count_cons]⟩, by simp [handler_codes]⟩
  · simp only [start, hcap, if_false, send_own_address, hport, state.emit,
      state.pend, state.fresh, List.nil_append, List.cons_append]
    exact ⟨⟨rfl, 0, rfl, by simp [List.count_cons]⟩, by simp [handler_codes]⟩

theorem seed_code_success (ec : code) (h : ec = error.success) : code.bool ec = false := by
  subst h
  rfl

/-- One successful callback other than the store completion keeps the seeding under way
and invokes no handler. -/
theorem seeding_step (e : event) (s : state) (h : event_handler) (hw : seeding h s)
    (hp : e.callback ∈ s.pending) (hok : e.code = error.success)
    (hne : e ≠ event.addresses_stored error.success) :
    seeding h (deliver e s)
      ∧ handler_codes (deliver e s).trace = handler_codes s.trace := by
  obtain ⟨hs, c, he, hc⟩ := hw
  cases e with
  | address_received ec addresses =>
    simp only [event.code] at hok
    subst hok
    have hd : deliver (event.address_received error.success addresses) s
        = { s with
            pending := s.pending.erase callback.handle_receive_address
              ++ [callback.handle_store_addresses],
            trace := s.trace ++ [action.store addresses] } := by
      simp only [event.callback] at hp
      simp [deliver, event.callback, hp, resubscribe, handle_receive_address, state.take, hs,
        code.bool, state.emit, state.pend]
    rw [hd]
    refine ⟨⟨hs, c, he, ?_⟩, by simp [seed_handler_codes_append, handler_codes]⟩
    show c + List.count callback.handle_send_address
          (s.pending.erase callback.handle_receive_address
            ++ [callback.handle_store_addresses])
        + List.count callback.handle_send_get_address
          (s.pending.erase callback.handle_receive_address
            ++ [callback.handle_store_addresses]) ≤ 2
    simp only [List.count_append]
    rw [List.count_erase_of_ne (by decide), List.count_erase_of_ne (by decide)]
    simp [List.count_cons]
    omega
  | address_sent ec =>
    simp only [event.code] at hok
    subst hok
    simp only [event.callback] at hp
    have hcnt : 0 < s.pending.count callback.handle_send_address := List.count_pos_iff.mpr hp
    have hd : deliver (event.address_sent error.success) s
        = set_event error.success
            { s with pending := s.pending.erase callback.handle_send_address } := by
      simp [deliver, event.callback, hp, handle_send_address, state.take, hs, code.bool]
    rw [hd, set_event_success
      { s with pending := s.pending.erase callback.handle_send_address } h c he (by omega)]
    refine ⟨⟨hs, c + 1, rfl, ?_⟩, by simp [seed_handler_codes_append, handler_codes]⟩
    show c + 1 + List.count callback.handle_send_address
          (s.pending.erase callback.handle_send_address)
        + List.count callback.handle_send_get_address
          (s.pending.erase callback.handle_send_address) ≤ 2
    rw [List.count_erase_self, List.count_erase_of_ne (by decide)]
    omega
  | get_address_sent ec =>
    simp only [event.code] at hok
    subst hok
    simp only [event.callback] at hp
    have hcnt : 0 < s.pending.count callback.handle_send_get_address :=
      List.count_pos_iff.mpr hp
    have hd : deliver (event.get_address_sent error.success) s
        = set_event error.success
            { s with pending := s.pending.erase callback.handle_send_get_address } := by
      simp [deliver, event.callback, hp, handle_send_get_address, state.take, hs, code.bool]
    rw [hd, set_event_success
      { s with pending := s.pending.erase callback.handle_send_get_address } h c he
      (by omega)]
    refine ⟨⟨hs, c + 1, rfl, ?_⟩, by simp [seed_handler_codes_append, handler_codes]⟩
    show c + 1 + List.count callback.handle_send_address
          (s.pending.erase callback.handle_send_get_address)
        + List.count callback.handle_send_get_address
          (s.pending.erase callback.handle_send_get_address) ≤ 2
    rw [List.count_erase_self, List.count_erase_of_ne (by decide)]
    omega
  | addresses_stored ec =>
    simp only [event.code] at hok
    subst hok
    exact absurd rfl hne

/-- The store completion on a seeding under way completes it: the handler receives
channel_stopped and the channel is stopped. -/
theorem seeding_stored (s : state) (h : event_handler) (hw : seeding h s)
    (hp : callback.handle_store_addresses ∈ s.pending) :
    (deliver (event.addresses_stored error.success) s).stopped = true
      ∧ handler_codes (deliver (event.addresses_stored error.success) s).trace
        = handler_codes s.trace ++ [error.channel_stopped] := by
  obtain ⟨hs, c, he, hc⟩ := hw
  have hd : deliver (event.addresses_stored error.success) s
      = set_event error.channel_stopped
          { s with pending := s.pending.erase callback.handle_store_addresses } := by
    simp [deliver, event.callback, hp, handle_store_addresses, state.take, hs, code.bool]
  rw [hd, set_event_error error.channel_stopped
    { s with pending := s.pending.erase callback.handle_store_addresses } h ⟨3, false, c⟩
    rfl he rfl (by simp; omega)]
  exact ⟨rfl, by simp [seed_handler_codes_append, handler_codes]⟩

/-- Along a valid sequence of successful callbacks on a seeding under way, the handler
receives channel_stopped when the store completes, and nothing else. -/
theorem run_seeding_success (events : List event) (s : state) (h : event_handler)
    (hw : seeding h s) (hv : valid s events = true)
    (hok : ∀ e ∈ events, e.code = error.success) :
    handler_codes (run s events).trace
      = handler_codes s.trace
        ++ (if event.addresses_stored error.success ∈ events then [error.channel_stopped]
          else []) := by
  induction events generalizing s with
  | nil => simp [run]
  | cons e t ih =>
    simp only [valid, Bool.and_eq_true, decide_eq_true_eq] at hv
    obtain ⟨hp, hvt⟩ := hv
    have hrun : run s (e :: t) = run (deliver e s) t := rfl
    rw [hrun]
    by_cases hst : e = event.addresses_stored error.success
    · subst hst
      obtain ⟨hstop, hcodes⟩ := seeding_stored s h hw hp
      rw [run_stopped t _ hstop, hcodes]
      simp
    · obtain ⟨hw2, hcodes⟩ := seeding_step e s h hw hp (hok e (List.mem_cons_self _ _)) hst
      rw [ih _ hw2 hvt (fun x hx => hok x (List.mem_cons_of_mem _ hx)), hcodes]
      have : (event.addresses_stored error.success ∈ e :: t)
          ↔ (event.addresses_stored error.success ∈ t) := by
        simp only [List.mem_cons]
        constructor
        · rintro (h1 | h1)
          · exact absurd h1.symm hst
          · exact h1
        · exact Or.inr
      simp only [this]

/-- C18, counterexample: on a channel that is not stopped, with a host pool capacity of
1000 and an advertised port, the own address and `get_address` are sent, three addresses
are received and their store completes, all without error.  The seed handler is invoked
once, with channel_stopped and not with success. -/
theorem seeding_reports_channel_stopped :
    valid (start (fun a => ⟨0, 0, [a.ip], a.port⟩) ⟨1000, ⟨9, 5252⟩⟩ 1 state.fresh)
        [event.address_sent error.success, event.get_address_sent error.success,
          event.address_received error.success three_addresses,
          event.addresses_stored error.success] = true
    ∧ handler_codes
        (run (start (fun a => ⟨0, 0, [a.ip], a.port⟩) ⟨1000, ⟨9, 5252⟩⟩ 1 state.fresh)
          [event.address_sent error.success, event.get_address_sent error.success,
            event.address_received error.success three_addresses,
            event.addresses_stored error.success]).trace
      = [error.channel_stopped] := by
  decide

/-- C18, amended: the seed protocol completes with channel_stopped.  The protocol starts on
a channel that is not stopped with a host pool capacity other than 0, and any sequence of
callback invocations follows in which every callback is pending when it is invoked and
every code is success (no error, no timer expiry).  When the store of the received
addresses completes in that run, the seed handler is invoked exactly once, with
channel_stopped; when it does not, the handler is not invoked.  The handler never
receives success. -/
theorem seeding_completes (to_network_address : authority → network_address)
    (settings : settings) (handler : event_handler) (events : List event)
    (hcap : settings.host_pool_capacity ≠ 0)
    (hv : valid (start to_network_address settings handler state.fresh) events = true)
    (hok : ∀ e ∈ events, e.code = error.success) :
    handler_codes (run (start to_network_address settings handler state.fresh) events).trace
      = (if event.addresses_stored error.success ∈ events then [error.channel_stopped]
        else []) := by
  obtain ⟨hw, htr⟩ := start_is_seeding to_network_address settings handler hcap
  rw [run_seeding_success events _ handler hw hv hok, htr]
  simp

theorem seeding_completes_witness :
    (settings.mk 1000 ⟨9, 0⟩).host_pool_capacity ≠ 0
    ∧ valid (start (fun a => ⟨0, 0, [a.ip], a.port⟩) ⟨1000, ⟨9, 0⟩⟩ 1 state.fresh)
        [event.address_received error.success three_addresses,
          event.get_address_sent error.success,
          event.addresses_stored error.success] = true
    ∧ (∀ e ∈ [event.address_received error.success three_addresses,
          event.get_address_sent error.success,
          event.addresses_stored error.success], e.code = error.success)
    ∧ handler_codes
        (run (start (fun a => ⟨0, 0, [a.ip], a.port⟩) ⟨1000, ⟨9, 0⟩⟩ 1 state.fresh)
          [event.address_received error.success three_addresses,
            event.get_address_sent error.success,
            event.addresses_stored error.success]).trace
      = (if event.addresses_stored error.success ∈
            [event.address_received error.success three_addresses,
              event.get_address_sent error.success,
              event.addresses_stored error.success]
          then [error.channel_stopped] else []) :=
  ⟨by decide, by decide, by decide,
    seeding_completes (fun a => ⟨0, 0, [a.ip], a.port⟩) ⟨1000, ⟨9, 0⟩⟩ 1
      [event.address_received error.success three_addresses,
        event.get_address_sent error.success,
        event.addresses_stored error.success]
      (by decide) (by decide) (by decide)⟩

/-- C19: the store completion of the seed protocol.  On a channel that is not stopped,
when the store of the received addresses completes without error,
`handle_store_addresses` records the event channel_stopped.  If the synchronized handler
has not fired yet, whatever it has counted so far, it then fires with channel_stopped:
`handle_seeding_complete` passes that code first to the seed handler and then to `stop`,
so the channel is stopped with channel_stopped.  If it has fired already, only the event
is recorded. -/
theorem store_completion (s : state) (h : event_handler) (y : synchronizer)
    (hs : s.stopped = false) (he : s.events = some (y, h))
    (hy : y.suppress_errors = false) :
    recorded (handle_store_addresses error.success s).trace
      = recorded s.trace ++ [error.channel_stopped]
    ∧ (y.counter ≠ y.clearance_count →
        handle_store_addresses error.success s
          = { s with
              trace := s.trace ++ [action.event error.channel_stopped,
                action.invoked h error.channel_stopped, action.stop error.channel_stopped],
              events := some ({ y with counter := y.clearance_count }, h),
              stopped := true })
    ∧ (y.counter = y.clearance_count →
        handle_store_addresses error.success s
          = { s with trace := s.trace ++ [action.event error.channel_stopped] })
    ∧ (∀ (ec : code) (handler : event_handler) (s1 : state),
        handle_seeding_complete ec handler s1
          = { s1 with
              trace := s1.trace ++ [action.invoked handler ec, action.stop ec],
              stopped := true }) := by
  have hd : handle_store_addresses error.success s = set_event error.channel_stopped s := by
    simp [handle_store_addresses, hs, code.bool]
  rw [hd]
  refine ⟨(seed_event_recorded _ s).1, ?_, ?_, ?_⟩
  · intro hn
    exact set_event_error error.channel_stopped s h y rfl he hy hn
  · intro hc
    simp [set_event, state.emit, he, synchronizer.call, hc]
  · intro ec handler s1
    simp [handle_seeding_complete, state.emit]

/-- The state `storing` is reached from `start` when the own address is acknowledged and
an address message is received; its trace is left out. -/
theorem storing_reached :
    { run (start (fun a => ⟨0, 0, [a.ip], a.port⟩) ⟨1000, ⟨9, 5252⟩⟩ 1 state.fresh)
        [event.address_sent error.success,
          event.address_received error.success three_addresses] with trace := [] }
      = storing := by
  decide

theorem store_completion_witness :
    storing.stopped = false
    ∧ storing.events = some (⟨3, false, 1⟩, 1)
    ∧ (synchronizer.mk 3 false 1).suppress_errors = false
    ∧ recorded (handle_store_addresses error.success storing).trace
      = recorded storing.trace ++ [error.channel_stopped]
    ∧ (handle_store_addresses error.success storing).trace
      = [action.event error.channel_stopped, action.invoked 1 error.channel_stopped,
          action.stop error.channel_stopped]
    ∧ (handle_store_addresses error.success storing).stopped = true :=
  ⟨rfl, rfl, rfl, (store_completion storing 1 ⟨3, false, 1⟩ rfl rfl rfl).1,
    by decide, by decide⟩

/-- C20, counterexample: the send of the own address completes on a stopped channel and
step 1 is not recorded.  The protocol starts with a capacity and a port other than 0; the
send of `get_address` fails with channel_timeout, which completes the seeding and stops
the channel; `handle_send_address` is still pending.  When the send of the own address
then completes, with success or with an error, `handle_send_address` returns at once: the
only event recorded in the run is the channel_timeout, and the call is not the
`set_event` of its code. -/
theorem send_completion_after_stop :
    (run (start (fun a => ⟨0, 0, [a.ip], a.port⟩) ⟨1000, ⟨9, 5252⟩⟩ 1 state.fresh)
        [event.get_address_sent error.channel_timeout]).stopped = true
    ∧ valid (start (fun a => ⟨0, 0, [a.ip], a.port⟩) ⟨1000, ⟨9, 5252⟩⟩ 1 state.fresh)
        [event.get_address_sent error.channel_timeout,
          event.address_sent error.success] = true
    ∧ recorded (run (start (fun a => ⟨0, 0, [a.ip], a.port⟩) ⟨1000, ⟨9, 5252⟩⟩ 1 state.fresh)
        [event.get_address_sent error.channel_timeout,
          event.address_sent error.success]).trace = [error.channel_timeout]
    ∧ recorded (run (start (fun a => ⟨0, 0, [a.ip], a.port⟩) ⟨1000, ⟨9, 5252⟩⟩ 1 state.fresh)
        [event.get_address_sent error.channel_timeout,
          event.address_sent error.channel_stopped]).trace = [error.channel_timeout]
    ∧ handle_send_address error.success
        (run (start (fun a => ⟨0, 0, [a.ip], a.port⟩) ⟨1000, ⟨9, 5252⟩⟩ 1 state.fresh)
          [event.get_address_sent error.channel_timeout])
      = run (start (fun a => ⟨0, 0, [a.ip], a.port⟩) ⟨1000, ⟨9, 5252⟩⟩ 1 state.fresh)
          [event.get_address_sent error.channel_timeout]
    ∧ handle_send_address error.success
        (run (start (fun a => ⟨0, 0, [a.ip], a.port⟩) ⟨1000, ⟨9, 5252⟩⟩ 1 state.fresh)
          [event.get_address_sent error.channel_timeout])
      ≠ set_event error.success
          (run (start (fun a => ⟨0, 0, [a.ip], a.port⟩) ⟨1000, ⟨9, 5252⟩⟩ 1 state.fresh)
            [event.get_address_sent error.channel_timeout]) := by
  decide

/-- C20, amended: `protocol_seed::send_own_address`, for every settings.  With
`self.port == 0` it sends nothing and is the single call `set_event(success)`, which
records exactly one event, with success.  With another port it sends exactly one address
message, whose only entry is `settings.self` as a network address, leaves
`handle_send_address` pending and records no event.  When the send completes on a channel
that is not stopped, `handle_send_address` records its code, success on success and the
error on an error, and records nothing else.  When the channel is stopped by then,
`handle_send_address` returns at once and records nothing. -/
theorem send_own_address_cases (to_network_address : authority → network_address)
    (settings : settings) (s : state) :
    (settings.self.port = 0 →
      send_own_address to_network_address settings s = set_event error.success s
      ∧ recorded (send_own_address to_network_address settings s).trace
        = recorded s.trace ++ [error.success]
      ∧ sent_addresses (send_own_address to_network_address settings s).trace
        = sent_addresses s.trace
      ∧ (send_own_address to_network_address settings s).pending = s.pending)
    ∧ (settings.self.port ≠ 0 →
      send_own_address to_network_address settings s
        = { s with
            trace := s.trace ++ [action.send_address [to_network_address settings.self]],
            pending := s.pending ++ [callback.handle_send_address] }
      ∧ recorded (send_own_address to_network_address settings s).trace = recorded s.trace
      ∧ sent_addresses (send_own_address to_network_address settings s).trace
        = sent_addresses s.trace ++ [[to_network_address settings.self]])
    ∧ (∀ (ec : code) (s1 : state), s1.stopped = false →
      handle_send_address ec s1 = set_event ec s1
      ∧ recorded (handle_send_address ec s1).trace = recorded s1.trace ++ [ec])
    ∧ (∀ (ec : code) (s1 : state), s1.stopped = true →
      handle_send_address ec s1 = s1
      ∧ recorded (handle_send_address ec s1).trace = recorded s1.trace) := by
  refine ⟨?_, ?_, ?_, ?_⟩
  · intro hport
    have hd : send_own_address to_network_address settings s = set_event error.success s := by
      simp [send_own_address, hport]
    rw [hd]
    obtain ⟨h1, h2, h3⟩ := seed_event_recorded error.success s
    exact ⟨rfl, h1, h2, h3⟩
  · intro hport
    have hd : send_own_address to_network_address settings s
        = { s with
            trace := s.trace ++ [action.send_address [to_network_address settings.self]],
            pending := s.pending ++ [callback.handle_send_address] } := by
      simp [send_own_address, hport, state.emit, state.pend]
    rw [hd]
    exact ⟨rfl, by simp [seed_recorded_append, recorded],
      by simp [sent_addresses_append, sent_addresses]⟩
  · intro ec s1 hs1
    have hd : handle_send_address ec s1 = set_event ec s1 := by
      by_cases hb : code.bool ec = true
      · simp [handle_send_address, hs1, hb]
      · have hsucc : ec = error.success := by
          cases ec <;> simp [code.bool] at hb ⊢
        subst hsucc
        simp [handle_send_address, hs1, code.bool]
    rw [hd]
    exact ⟨rfl, (seed_event_recorded ec s1).1⟩
  · intro ec s1 hs1
    have hd : handle_send_address ec s1 = s1 := by
      simp [handle_send_address, hs1]
    rw [hd]
    exact ⟨rfl, rfl⟩

end protocol_seed
end network
end libbitcoin

/-! ## Constants and failure output -/

namespace libbitcoin

/-- C21, counterexample: the byte at index 10 of `unspecified_ip_address` is 0xff, not
0x00. -/
theorem unspecified_ip_address_byte_10 :
    unspecified_ip_address[10]? = some 0xff ∧ ¬ (∀ b ∈ unspecified_ip_address, b = 0x00) := by
  decide

/-- C21, amended: the "unspecified" sentinel is the IPv4-mapped all-zero address with port
0.  `unspecified_ip_address` has sixteen bytes: ten bytes 0x00, then 0xff 0xff, then four
bytes 0x00, so its IPv4 part is all zero; `unspecified_ip_port` is 0; and
`unspecified_network_address` is built from these two values, with `no_timestamp`, which
is 0, and the services `node_network`. -/
theorem unspecified_sentinel :
    unspecified_ip_address.length = 16
    ∧ unspecified_ip_address
      = List.replicate 10 0x00 ++ [0xff, 0xff] ++ List.replicate 4 0x00
    ∧ (∀ b ∈ unspecified_ip_address.drop 12, b = 0x00)
    ∧ unspecified_ip_port = 0
    ∧ unspecified_network_address.ip = unspecified_ip_address
    ∧ unspecified_network_address.port = unspecified_ip_port
    ∧ unspecified_network_address.timestamp = 0
    ∧ unspecified_network_address.services = node_network := by
  decide

namespace explorer

/-- C22, counterexample: for the code `2 ^ 31` the text written shows the code
-2147483648, not 2147483648. -/
theorem write_code_two_pow_31 :
    write "" ⟨2 ^ 31, "boom"⟩
      = "\x7b\"code\":-2147483648, \"error\":\"boom\", \"result\":null\x7d"
    ∧ write "" ⟨2 ^ 31, "boom"⟩
      ≠ "\x7b\"code\":2147483648, \"error\":\"boom\", \"result\":null\x7d" := by
  decide

/-- The signed reading of a code below `2 ^ 31` is the code. -/
theorem to_int32_small (c : Nat) (h : c < 2 ^ 31) : to_int32 c = (c : Int) := by
  have h1 : c % 2 ^ 32 = c := Nat.mod_eq_of_lt (by omega)
  simp only [to_int32, h1, h, if_true]

/-- The signed reading of a 32-bit code from `2 ^ 31` on is the code minus `2 ^ 32`. -/
theorem to_int32_large (c : Nat) (h1 : 2 ^ 31 ≤ c) (h2 : c < 2 ^ 32) :
    to_int32 c = (c : Int) - 2 ^ 32 := by
  have h3 : c % 2 ^ 32 = c := Nat.mod_eq_of_lt h2
  have h4 : ¬ c < 2 ^ 31 := by omega
  simp only [to_int32, h3, h4, if_false]

/-- C22, amended: the shape of the failure output.  For every `explorer_exception` with
a 32-bit code `c` and message `m`, `operator<<` appends to the stream exactly the text
`{"code":D, "error":"m", "result":null}`, where `D` is the decimal rendering of `c` read
as a signed 32-bit integer: of `c` itself when `c < 2 ^ 31`, of `c - 2 ^ 32` otherwise.
The result field is always null. -/
theorem write_shape (out : String) (c : Nat) (m : String) (hc : c < 2 ^ 32) :
    write out ⟨c, m⟩
      = out ++ ("\x7b\"code\":"
          ++ toString (if c < 2 ^ 31 then (c : Int) else (c : Int) - 2 ^ 32)
          ++ ", \"error\":\"" ++ m ++ "\", \"result\":null\x7d")
    ∧ (c < 2 ^ 31 →
      write out ⟨c, m⟩
        = out ++ ("\x7b\"code\":" ++ toString c
            ++ ", \"error\":\"" ++ m ++ "\", \"result\":null\x7d")) := by
  by_cases h : c < 2 ^ 31
  · have h1 := to_int32_small c h
    have h2 : toString (c : Int) = toString c := rfl
    refine ⟨?_, fun _ => ?_⟩
    · simp only [write, fmt, h1, h, if_true]
    · simp only [write, fmt, h1, h2]
  · have h1 := to_int32_large c (by omega) hc
    refine ⟨?_, fun hlt => absurd hlt h⟩
    simp only [write, fmt, h1, h, if_false]

theorem write_shape_witness :
    1021 < 2 ^ 32
    ∧ write "" ⟨1021, "invalid argument"⟩
      = "" ++ ("\x7b\"code\":" ++ toString (1021 : Nat)
          ++ ", \"error\":\"" ++ "invalid argument" ++ "\", \"result\":null\x7d") :=
  ⟨by decide, (write_shape "" 1021 "invalid argument" (by decide)).2 (by decide)⟩

end explorer
end libbitcoin

/-! ## Seed session: connects -/

namespace libbitcoin
namespace network
namespace session_seed

theorem connects_to_append (e : endpoint) (a b : List action) :
    connects_to e (a ++ b) = connects_to e a + connects_to e b := by
  induction a with
  | nil => simp [connects_to]
  | cons x t ih => cases x <;> simp [connects_to, ih, Nat.add_assoc]

theorem registrations_append (a b : List action) :
    registrations (a ++ b) = registrations a + registrations b := by
  induction a with
  | nil => simp [registrations]
  | cons x t ih =>
    cases x <;> simp [registrations, ih]
    omega

theorem seed_invocations_append (h : result_handler) (a b : List action) :
    invocations h (a ++ b) = invocations h a + invocations h b := by
  induction a with
  | nil => simp [invocations]
  | cons x t ih => cases x <;> simp [invocations, ih, Nat.add_assoc]

/-- Invoking a handler records the invocation and at most requests the final count: it
issues no connect, registers no channel, leaves the connects in flight and the stopped
flag as they are, and invokes the handler exactly once. -/
theorem invoke_effect_seed (h : result_handler) (ec : code) (s : state) :
    (∃ rest : List action,
        (invoke h ec s).trace = s.trace ++ action.invoked h ec :: rest
        ∧ (rest = [] ∨ rest = [action.address_count]))
      ∧ (∀ e : endpoint, in_flight e (invoke h ec s) = in_flight e s)
      ∧ (invoke h ec s).stopped = s.stopped
      ∧ (∀ cb : callback, cb ∈ (invoke h ec s).pending →
          cb ∈ s.pending ∨ ∃ n h1, cb = callback.handle_final_count n h1) := by
  unfold invoke
  simp only [state.emit]
  cases h with
  | caller => exact ⟨⟨[], rfl, Or.inl rfl⟩, fun _ => rfl, rfl, fun cb hcb => Or.inl hcb⟩
  | each id start_size h1 =>
    simp only
    split
    · exact ⟨⟨[], rfl, Or.inl rfl⟩, fun _ => rfl, rfl, fun cb hcb => Or.inl hcb⟩
    · split
      · refine ⟨⟨[action.address_count], ?_, Or.inr rfl⟩, ?_, rfl, ?_⟩
        · simp [handle_complete, address_count, state.emit, state.pend]
        · intro e
          simp [handle_complete, address_count, state.emit, state.pend, in_flight,
            List.countP_append, callback.connecting]
        · intro cb hcb
          simp only [handle_complete, address_count, state.emit, state.pend,
            List.mem_append, List.mem_singleton] at hcb
          rcases hcb with hcb | hcb
          · exact Or.inl hcb
          · exact Or.inr ⟨_, _, hcb⟩
      · exact ⟨⟨[], rfl, Or.inl rfl⟩, fun _ => rfl, rfl, fun cb hcb => Or.inl hcb⟩

theorem invoke_counts (h : result_handler) (ec : code) (s : state) :
    invocations h (invoke h ec s).trace = invocations h s.trace + 1
      ∧ registrations (invoke h ec s).trace = registrations s.trace
      ∧ ∀ e : endpoint, connects_to e (invoke h ec s).trace = connects_to e s.trace := by
  obtain ⟨⟨rest, heq, hrest⟩, _, _, _⟩ := invoke_effect_seed h ec s
  rw [heq]
  rcases hrest with hr | hr <;> subst hr <;>
    simp [seed_invocations_append, invocations, registrations_append, registrations,
      connects_to_append, connects_to]

/-- One call of `start_seed`: exactly one connect to the seed on a session that is not
stopped, none on a stopped session, and none to any other endpoint. -/
theorem start_seed_connects (seed : endpoint) (connect : SharedConnector)
    (h : result_handler) (s : state) (e : endpoint) :
    connects_to e (start_seed seed connect h s).trace
        = connects_to e s.trace + (if s.stopped then 0 else if seed = e then 1 else 0)
      ∧ in_flight e (start_seed seed connect h s)
        = in_flight e s + (if s.stopped then 0 else if seed = e then 1 else 0)
      ∧ (start_seed seed connect h s).stopped = s.stopped := by
  unfold start_seed
  by_cases hs : s.stopped = true
  · simp only [hs, if_true]
    obtain ⟨_, h2, h3, _⟩ := invoke_effect_seed h error.channel_stopped s
    exact ⟨by simpa using (invoke_counts h error.channel_stopped s).2.2 e,
      by simpa using h2 e, by rw [h3, hs]⟩
  · have hf : s.stopped = false := by simpa using hs
    simp only [hf, Bool.false_eq_true, if_false]
    refine ⟨?_, ?_, hf⟩
    · simp [state.emit, state.pend, connects_to_append, connects_to]
    · simp [state.emit, state.pend, in_flight, List.countP_append, List.countP_cons,
        callback.connecting]

theorem foldl_start_seed_connects (seeds : List endpoint) (connect : SharedConnector)
    (h : result_handler) (s : state) (e : endpoint) :
    connects_to e (seeds.foldl (fun st seed => start_seed seed connect h st) s).trace
        = connects_to e s.trace + (if s.stopped then 0 else seeds.count e)
      ∧ in_flight e (seeds.foldl (fun st seed => start_seed seed connect h st) s)
        = in_flight e s + (if s.stopped then 0 else seeds.count e) := by
  induction seeds generalizing s with
  | nil => simp
  | cons x t ih =>
    simp only [List.foldl_cons]
    obtain ⟨h1, h2, h3⟩ := start_seed_connects x connect h s e
    obtain ⟨i1, i2⟩ := ih (start_seed x connect h s)
    rw [i1, i2, h1, h2, h3]
    by_cases hs : s.stopped = true
    · simp [hs]
    · have hf : s.stopped = false := by simpa using hs
      by_cases hx : x = e
      · subst hx
        simp [hf, List.count_cons]
        constructor <;> omega
      · have hne : (x == e) = false := by simpa using hx
        simp [hf, hx, List.count_cons, hne]

/-- C23, counterexample: with one configured seed and an empty host pool, `restart` runs
while the connect of an earlier `restart` is still in flight: the host count 0 is
reported to each, each reaches `start_seeding`, and two connects to the seed are in
flight at the same time. -/
theorem restart_doubles_connects :
    in_flight (endpoint.mk "seed.example" 5251)
        (run (settings.mk 1000 [endpoint.mk "seed.example" 5251])
          (restart result_handler.caller
            (run (settings.mk 1000 [endpoint.mk "seed.example" 5251])
              (restart result_handler.caller (state.fresh false []))
              [event.count result_handler.caller 0]))
          [event.count result_handler.caller 0]) = 2
    ∧ connects_to (endpoint.mk "seed.example" 5251)
        (run (settings.mk 1000 [endpoint.mk "seed.example" 5251])
          (restart result_handler.caller
            (run (settings.mk 1000 [endpoint.mk "seed.example" 5251])
              (restart result_handler.caller (state.fresh false []))
              [event.count result_handler.caller 0]))
          [event.count result_handler.caller 0]).trace = 2 := by
  decide

/-- C23, amended: one run of `start_seeding` puts at most one connect in flight per entry
of the seeds list.  The run calls `start_seed` exactly once per entry of
`settings.seeds`, in order, with one synchronized handler; each `start_seed` issues
exactly one connect, to its seed, when the session is not stopped and none when it is.
So the run adds, for every endpoint, as many connects in flight as the endpoint has
entries in the list on a session that is not stopped, none on a stopped one, and at most
one when the entries of the list are distinct.  Nothing bounds the connects across runs
of `start_seeding`. -/
theorem start_seeding_connects (settings_ : settings) (start_size : Nat)
    (connect : SharedConnector) (handler : result_handler) (s : state) :
    start_seeding settings_ start_size connect handler s
      = settings_.seeds.foldl
          (fun st seed => start_seed seed connect
            (result_handler.each s.synchronizers.length start_size handler) st)
          { s with
            synchronizers := s.synchronizers ++ [⟨settings_.seeds.length, true, 0⟩] }
    ∧ (∀ (seed e : endpoint) (h : result_handler) (st : state),
        connects_to e (start_seed seed connect h st).trace
          = connects_to e st.trace + (if st.stopped then 0 else if seed = e then 1 else 0))
    ∧ (∀ e : endpoint,
        connects_to e (start_seeding settings_ start_size connect handler s).trace
          = connects_to e s.trace + (if s.stopped then 0 else settings_.seeds.count e))
    ∧ (∀ e : endpoint,
        in_flight e (start_seeding settings_ start_size connect handler s)
          = in_flight e s + (if s.stopped then 0 else settings_.seeds.count e))
    ∧ (settings_.seeds.Nodup → ∀ e : endpoint,
        in_flight e (start_seeding settings_ start_size connect handler s)
          ≤ in_flight e s + 1) := by
  have hdef : start_seeding settings_ start_size connect handler s
      = settings_.seeds.foldl
          (fun st seed => start_seed seed connect
            (result_handler.each s.synchronizers.length start_size handler) st)
          { s with
            synchronizers := s.synchronizers ++ [⟨settings_.seeds.length, true, 0⟩] } := rfl
  have hfold := foldl_start_seed_connects settings_.seeds connect
    (result_handler.each s.synchronizers.length start_size handler)
    { s with synchronizers := s.synchronizers ++ [⟨settings_.seeds.length, true, 0⟩] }
  refine ⟨hdef, ?_, ?_, ?_, ?_⟩
  · intro seed e h st
    exact (start_seed_connects seed connect h st e).1
  · intro e
    rw [hdef]
    exact (hfold e).1
  · intro e
    rw [hdef]
    exact (hfold e).2
  · intro hnd e
    rw [hdef, (hfold e).2]
    have hle : settings_.seeds.count e ≤ 1 := List.nodup_iff_count_le_one.mp hnd e
    show in_flight e s + _ ≤ in_flight e s + 1
    split <;> omega

/-- C24: `session_seed::handle_connect`, for every connect result.  An error code: the
call is the invocation of the per-seed handler with exactly that code.  No error and a
blacklisted authority: the call is the invocation of the handler with address_blocked.
In both cases the handler is invoked exactly once, the channel is not registered and
nothing is left pending for it; beyond the invocation the call can only request the
final count, when the handler is the synchronized one and this was its last event.
Otherwise the channel is registered, `handle_channel_start` and `handle_channel_stop`
are left pending and the handler is not invoked. -/
theorem handle_connect_cases (ec : code) (ch : channel) (seed : endpoint)
    (handler : result_handler) (s : state) :
    (ec ≠ error.success → handle_connect ec ch seed handler s = invoke handler ec s)
    ∧ (ec = error.success → blacklisted ch.authority s = true →
        handle_connect ec ch seed handler s = invoke handler error.address_blocked s)
    ∧ (ec = error.success → blacklisted ch.authority s = false →
        handle_connect ec ch seed handler s
          = { s with
              trace := s.trace ++ [action.register_channel ch],
              pending := s.pending
                ++ [callback.handle_channel_start ch handler, callback.handle_channel_stop] }
        ∧ invocations handler (handle_connect ec ch seed handler s).trace
          = invocations handler s.trace
        ∧ registrations (handle_connect ec ch seed handler s).trace
          = registrations s.trace + 1)
    ∧ (∀ (ec1 : code) (s1 : state),
        invocations handler (invoke handler ec1 s1).trace
            = invocations handler s1.trace + 1
          ∧ registrations (invoke handler ec1 s1).trace = registrations s1.trace
          ∧ (∃ rest : List action,
              (invoke handler ec1 s1).trace
                = s1.trace ++ action.invoked handler ec1 :: rest
              ∧ (rest = [] ∨ rest = [action.address_count]))
          ∧ (∀ cb : callback, cb ∈ (invoke handler ec1 s1).pending →
              cb ∈ s1.pending ∨ ∃ n h1, cb = callback.handle_final_count n h1)) := by
  refine ⟨?_, ?_, ?_, ?_⟩
  · intro hec
    have hb : code.bool ec = true := by simp [code.bool, hec]
    simp [handle_connect, hb]
  · intro hec hbl
    subst hec
    simp [handle_connect, code.bool, hbl]
  · intro hec hbl
    subst hec
    have hd : handle_connect error.success ch seed handler s
        = { s with
            trace := s.trace ++ [action.register_channel ch],
            pending := s.pending
              ++ [callback.handle_channel_start ch handler, callback.handle_channel_stop] } := by
      simp [handle_connect, code.bool, hbl, state.emit, state.pend]
    rw [hd]
    exact ⟨rfl, by simp [seed_invocations_append, invocations],
      by simp [registrations_append, registrations]⟩
  · intro ec1 s1
    obtain ⟨h1, h2, _⟩ := invoke_counts handler ec1 s1
    obtain ⟨h3, _, _, h4⟩ := invoke_effect_seed handler ec1 s1
    exact ⟨h1, h2, h3, h4⟩

end session_seed
end network
end libbitcoin

/-! ## Block-sync session: stop, counter and failed connects -/

namespace libbitcoin
namespace node
namespace session_block_sync

open network

/-- C25: once `stopped()` holds for the block-sync session, `new_connection`,
`reset_timer` and `handle_timer` do nothing: the state after the call is the state before
it.  So no peer is dialled, the slot's handler is not invoked and the timer is not
re-armed; and a `handle_complete` that would retry, with a code other than success and
not_satisfied, produces nothing either. -/
theorem stopped_does_nothing (w : Nat) (ec : code) (ch : channel)
    (connect : SharedConnector) (row : reservation) (handler : result_handler) (s : state)
    (hs : s.stopped = true) :
    new_connection connect row handler s = s
    ∧ reset_timer connect s = s
    ∧ handle_timer ec connect s = s
    ∧ (ec ≠ error.success → ec ≠ error.not_satisfied →
        handle_complete w ec ch connect row handler s = s) := by
  refine ⟨by simp [new_connection, hs], by simp [reset_timer, hs],
    by simp [handle_timer, hs], ?_⟩
  intro h1 h2
  have hb : code.bool ec = true := by simp [code.bool, h1]
  simp [handle_complete, hb, h2, new_connection, hs]

theorem stopped_does_nothing_witness :
    (state.mk true 2 [⟨0⟩, ⟨1⟩] 1 [⟨2, false, 0⟩] [] []).stopped = true
    ∧ new_connection 0 ⟨1⟩ (result_handler.func 0 result_handler.caller)
        (state.mk true 2 [⟨0⟩, ⟨1⟩] 1 [⟨2, false, 0⟩] [] [])
      = state.mk true 2 [⟨0⟩, ⟨1⟩] 1 [⟨2, false, 0⟩] [] []
    ∧ handle_timer error.success 0 (state.mk true 2 [⟨0⟩, ⟨1⟩] 1 [⟨2, false, 0⟩] [] [])
      = state.mk true 2 [⟨0⟩, ⟨1⟩] 1 [⟨2, false, 0⟩] [] [] :=
  ⟨rfl,
    (stopped_does_nothing 64 error.channel_timeout ⟨7, ⟨1, 5251⟩⟩ 0 ⟨1⟩
      (result_handler.func 0 result_handler.caller)
      (state.mk true 2 [⟨0⟩, ⟨1⟩] 1 [⟨2, false, 0⟩] [] []) rfl).1,
    by decide⟩

/-- Invoking a handler invokes it exactly once and leaves the counter as it is. -/
theorem invoke_once (h : result_handler) (ec : code) (s : state) :
    invocations h (invoke h ec s).trace = invocations h s.trace + 1
      ∧ (invoke h ec s).reservations_count_ = s.reservations_count_
      ∧ (invoke h ec s).reservations_ = s.reservations_ := by
  obtain ⟨rest, heq, hin⟩ := invoke_effect h ec s
  rw [heq]
  refine ⟨?_, rfl, rfl⟩
  simp [invocations_append, invocations, invocations_inner h rest hin]

/-- One call of `handle_complete`: either the slot's handler is invoked once and the
counter is decremented by one, or the handler is not invoked and the counter is left as
it is; no invocation carries a code other than success. -/
theorem handle_complete_paired (w : Nat) (ec : code) (ch : channel)
    (connect : SharedConnector) (row : reservation) (handler : result_handler) (s : state) :
    ((invocations handler (handle_complete w ec ch connect row handler s).trace
          = invocations handler s.trace + 1
        ∧ (handle_complete w ec ch connect row handler s).reservations_count_
          = decrement w s.reservations_count_)
      ∨ (invocations handler (handle_complete w ec ch connect row handler s).trace
          = invocations handler s.trace
        ∧ (handle_complete w ec ch connect row handler s).reservations_count_
          = s.reservations_count_))
    ∧ failures (handle_complete w ec ch connect row handler s).trace = failures s.trace := by
  unfold handle_complete
  split
  · rename_i hb
    have he : ec = error.success := by
      cases ec <;> simp [code.bool] at hb ⊢
    subst he
    obtain ⟨h1, h2, _⟩ := invoke_once handler error.success
      { s.emit action.timer_stop with
        reservations_count_ := decrement w (s.emit action.timer_stop).reservations_count_,
        reservations_ := reservations_remove (s.emit action.timer_stop).reservations_ row }
    refine ⟨Or.inl ⟨?_, ?_⟩, ?_⟩
    · rw [h1]
      simp [state.emit, invocations_append, invocations]
    · rw [h2]
      rfl
    · rw [invoke_success_failures]
      simp [state.emit, failures_append, failures]
  · split
    · split
      · obtain ⟨h1, h2, _⟩ := invoke_once handler error.success
          { s with reservations_count_ := decrement w s.reservations_count_ }
        exact ⟨Or.inl ⟨h1, h2⟩, by rw [invoke_success_failures]⟩
      · refine ⟨Or.inr ⟨(new_connection_quiet connect row handler handler s).1, ?_⟩,
          (new_connection_quiet connect row handler handler s).2⟩
        unfold new_connection
        split <;> rfl
    · refine ⟨Or.inr ⟨(new_connection_quiet connect row handler handler s).1, ?_⟩,
        (new_connection_quiet connect row handler handler s).2⟩
      unfold new_connection
      split <;> rfl

/-- Along a sequence of `handle_complete` calls the counter plus the number of
invocations of the slots' handler stays the same modulo `2 ^ w`, and no invocation
carries a code other than success. -/
theorem complete_all_counter (w : Nat) (handler : result_handler) (calls : List completion)
    (s : state) :
    invocations handler s.trace ≤ invocations handler (complete_all w handler calls s).trace
      ∧ ((complete_all w handler calls s).reservations_count_
          + (invocations handler (complete_all w handler calls s).trace
            - invocations handler s.trace)) % 2 ^ w
        = s.reservations_count_ % 2 ^ w
      ∧ failures (complete_all w handler calls s).trace = failures s.trace := by
  induction calls generalizing s with
  | nil => simp [complete_all]
  | cons c t ih =>
    have hrun : complete_all w handler (c :: t) s
        = complete_all w handler t
            (handle_complete w c.ec c.ch c.connect c.row handler s) := rfl
    rw [hrun]
    obtain ⟨hle, hmod, hfail⟩ := ih (handle_complete w c.ec c.ch c.connect c.row handler s)
    obtain ⟨hpair, hf1⟩ := handle_complete_paired w c.ec c.ch c.connect c.row handler s
    refine ⟨?_, ?_, by rw [hfail, hf1]⟩
    · rcases hpair with ⟨h1, _⟩ | ⟨h1, _⟩ <;> omega
    · rcases hpair with ⟨h1, h2⟩ | ⟨h1, h2⟩
      · have hsub : invocations handler
              (complete_all w handler t
                (handle_complete w c.ec c.ch c.connect c.row handler s)).trace
            - invocations handler s.trace
            = (invocations handler
                (complete_all w handler t
                  (handle_complete w c.ec c.ch c.connect c.row handler s)).trace
              - invocations handler
                (handle_complete w c.ec c.ch c.connect c.row handler s).trace) + 1 := by
          omega
        rw [hsub, ← Nat.add_assoc]
        have hstep : Nat.ModEq (2 ^ w)
            ((complete_all w handler t
                (handle_complete w c.ec c.ch c.connect c.row handler s)).reservations_count_
              + (invocations handler
                  (complete_all w handler t
                    (handle_complete w c.ec c.ch c.connect c.row handler s)).trace
                - invocations handler
                  (handle_complete w c.ec c.ch c.connect c.row handler s).trace) + 1)
            ((handle_complete w c.ec c.ch c.connect c.row handler s).reservations_count_
              + 1) := Nat.ModEq.add_right 1 hmod
        have hdec : Nat.ModEq (2 ^ w)
            ((handle_complete w c.ec c.ch c.connect c.row handler s).reservations_count_ + 1)
            s.reservations_count_ := by
          rw [h2]
          exact decrement_add_one w s.reservations_count_
        exact hstep.trans hdec
      · rw [h1] at hmod
        rw [hmod, h2]

/-- C27: the counter invariant of the block-sync session.  `handle_started` with success
on a non-empty table of N slots sets `reservations_count_` to N and gives every slot one
handler.  In every sequence of `handle_complete` calls with that handler that follows,
each call either invokes the handler once and decrements the counter by one, or does not
invoke it and leaves the counter as it is, and every invocation carries success.  Hence
the counter plus the number of invocations of the handler equals N modulo `2 ^ w` after
every such sequence. -/
theorem counter_invariant (w : Nat) (handler : result_handler) (s : state)
    (calls : List completion) (hne : s.reservations_ ≠ []) :
    (handle_started error.success handler s).reservations_count_ = s.reservations_.length
    ∧ ((complete_all w (result_handler.func s.synchronizers.length handler) calls
            (handle_started error.success handler s)).reservations_count_
        + (invocations (result_handler.func s.synchronizers.length handler)
            (complete_all w (result_handler.func s.synchronizers.length handler) calls
              (handle_started error.success handler s)).trace
          - invocations (result_handler.func s.synchronizers.length handler)
            (handle_started error.success handler s).trace)) % 2 ^ w
      = s.reservations_.length % 2 ^ w
    ∧ failures (complete_all w (result_handler.func s.synchronizers.length handler) calls
        (handle_started error.success handler s)).trace
      = failures (handle_started error.success handler s).trace
    ∧ (∀ (c : completion) (st : state),
        (invocations (result_handler.func s.synchronizers.length handler)
              (handle_complete w c.ec c.ch c.connect c.row
                (result_handler.func s.synchronizers.length handler) st).trace
            = invocations (result_handler.func s.synchronizers.length handler) st.trace + 1
          ∧ ((handle_complete w c.ec c.ch c.connect c.row
                (result_handler.func s.synchronizers.length handler) st).reservations_count_
              + 1) % 2 ^ w = st.reservations_count_ % 2 ^ w)
        ∨ (invocations (result_handler.func s.synchronizers.length handler)
              (handle_complete w c.ec c.ch c.connect c.row
                (result_handler.func s.synchronizers.length handler) st).trace
            = invocations (result_handler.func s.synchronizers.length handler) st.trace
          ∧ (handle_complete w c.ec c.ch c.connect c.row
                (result_handler.func s.synchronizers.length handler) st).reservations_count_
            = st.reservations_count_)) := by
  have hcount : (handle_started error.success handler s).reservations_count_
      = s.reservations_.length := by
    have he : s.reservations_.isEmpty = false := by
      cases hl : s.reservations_ with
      | nil => exact absurd hl hne
      | cons _ _ => rfl
    have hc : handle_started error.success handler s
        = s.reservations_.foldl
            (fun st row => new_connection s.connectors row
              (result_handler.func s.synchronizers.length handler) st)
            { s with
              trace := s.trace ++ [action.create_connector s.connectors],
              connectors := s.connectors + 1,
              reservations_count_ := s.reservations_.length,
              synchronizers := s.synchronizers ++ [⟨s.reservations_.length, false, 0⟩] } := by
      simp [handle_started, code.bool, he, create_connector, state.emit]
    rw [hc]
    by_cases hs : s.stopped = true
    · rw [foldl_new_connection_stopped _ _ _ _ (by simpa using hs)]
    · rw [foldl_new_connection _ _ _ _ (by simpa using hs)]
  obtain ⟨_, hmod, hfail⟩ := complete_all_counter w
    (result_handler.func s.synchronizers.length handler) calls
    (handle_started error.success handler s)
  refine ⟨hcount, ?_, hfail, ?_⟩
  · rw [hmod, hcount]
  · intro c st
    rcases (handle_complete_paired w c.ec c.ch c.connect c.row
      (result_handler.func s.synchronizers.length handler) st).1 with ⟨h1, h2⟩ | ⟨h1, h2⟩
    · exact Or.inl ⟨h1, by rw [h2]; exact decrement_add_one w _⟩
    · exact Or.inr ⟨h1, h2⟩

theorem counter_invariant_witness :
    (state.fresh false [⟨0⟩, ⟨1⟩]).reservations_ ≠ []
    ∧ (handle_started error.success result_handler.caller
        (state.fresh false [⟨0⟩, ⟨1⟩])).reservations_count_ = 2
    ∧ (complete_all 64 (result_handler.func 0 result_handler.caller)
        [⟨error.channel_timeout, ⟨7, ⟨1, 5251⟩⟩, 0, ⟨1⟩⟩,
          ⟨error.success, ⟨7, ⟨1, 5251⟩⟩, 0, ⟨0⟩⟩,
          ⟨error.not_satisfied, ⟨8, ⟨2, 5251⟩⟩, 0, ⟨1⟩⟩]
        (handle_started error.success result_handler.caller
          (state.fresh false [⟨0⟩, ⟨1⟩]))).reservations_count_ = 1
    ∧ invocations (result_handler.func 0 result_handler.caller)
        (complete_all 64 (result_handler.func 0 result_handler.caller)
          [⟨error.channel_timeout, ⟨7, ⟨1, 5251⟩⟩, 0, ⟨1⟩⟩,
            ⟨error.success, ⟨7, ⟨1, 5251⟩⟩, 0, ⟨0⟩⟩,
            ⟨error.not_satisfied, ⟨8, ⟨2, 5251⟩⟩, 0, ⟨1⟩⟩]
          (handle_started error.success result_handler.caller
            (state.fresh false [⟨0⟩, ⟨1⟩]))).trace = 1 :=
  ⟨by decide,
    (counter_invariant 64 result_handler.caller (state.fresh false [⟨0⟩, ⟨1⟩]) []
      (by decide)).1,
    by decide, by decide⟩

/-- C28: `session_block_sync::handle_connect` on a failed connect.  With not_satisfied the
call is `handle_complete` with that code: while `reservations_count_ != 1` the slot's
handler is invoked once, with success, and the counter is decremented by one, although no
channel is registered, no peer is dialled and the slot stays in the reservation table.
With any other error the handler is not invoked, the counter and the table are
unchanged, and the call is the single retry `new_connection(connect, row, handler)`,
which dials one peer unless the session is stopped. -/
theorem handle_connect_failed (w : Nat) (ec : code) (ch : channel)
    (connect : SharedConnector) (row : reservation) (handler : result_handler) (s : state) :
    handle_connect w error.not_satisfied ch connect row handler s
      = handle_complete w error.not_satisfied ch connect row handler s
    ∧ (s.reservations_count_ ≠ 1 →
        (∃ rest : List action,
          (handle_connect w error.not_satisfied ch connect row handler s).trace
            = s.trace ++ action.invoked handler error.success :: rest
          ∧ invocations handler rest = 0 ∧ connects rest = 0)
        ∧ ((handle_connect w error.not_satisfied ch connect row handler s).reservations_count_
            + 1) % 2 ^ w = s.reservations_count_ % 2 ^ w
        ∧ (handle_connect w error.not_satisfied ch connect row handler s).reservations_
          = s.reservations_
        ∧ (handle_connect w error.not_satisfied ch connect row handler s).pending
          = s.pending)
    ∧ (ec ≠ error.success → ec ≠ error.not_satisfied →
        handle_connect w ec ch connect row handler s
          = new_connection connect row handler s
        ∧ (handle_connect w ec ch connect row handler s).reservations_count_
          = s.reservations_count_
        ∧ (handle_connect w ec ch connect row handler s).reservations_ = s.reservations_
        ∧ (∀ h : result_handler,
            invocations h (handle_connect w ec ch connect row handler s).trace
              = invocations h s.trace)
        ∧ connects (handle_connect w ec ch connect row handler s).trace
          = connects s.trace + (if s.stopped then 0 else 1)) := by
  have hf : handle_connect w error.not_satisfied ch connect row handler s
      = handle_complete w error.not_satisfied ch connect row handler s := by
    simp [handle_connect, code.bool]
  refine ⟨hf, ?_, ?_⟩
  · intro hne
    have hc : handle_complete w error.not_satisfied ch connect row handler s
        = invoke handler error.success
            { s with reservations_count_ := decrement w s.reservations_count_ } := by
      simp [handle_complete, code.bool, hne]
    obtain ⟨rest, heq, hin⟩ := invoke_effect handler error.success
      { s with reservations_count_ := decrement w s.reservations_count_ }
    rw [hf, hc, heq]
    exact ⟨⟨rest, rfl, invocations_inner handler rest hin, connects_inner handler rest hin⟩,
      decrement_add_one w _, rfl, rfl⟩
  · intro h1 h2
    have hb : code.bool ec = true := by simp [code.bool, h1]
    have hd : handle_connect w ec ch connect row handler s
        = new_connection connect row handler s := by
      simp [handle_connect, hb, h2]
    rw [hd]
    refine ⟨rfl, ?_, ?_, ?_, ?_⟩
    · unfold new_connection
      split <;> rfl
    · unfold new_connection
      split <;> rfl
    · intro h
      exact (new_connection_quiet connect row handler h s).1
    · unfold new_connection
      by_cases hs : s.stopped = true <;>
        simp [hs, state.emit, state.pend, connects_append, connects]

end session_block_sync
end node
end libbitcoin

/-! ## Version protocol and seed protocol: completion -/

namespace libbitcoin
namespace network
namespace protocol_version

open message

/-- With no handler stored, `handle_complete` does nothing. -/
theorem version_handler_cleared (ec : code) (s : state) (h : s.complete_handler_ = none) :
    handle_complete ec s = s := by
  simp [handle_complete, h]

/-- After the first call, a sequence of `handle_complete` calls does nothing. -/
theorem version_handler_rest (codes : List code) (s : state)
    (h : s.complete_handler_ = none) :
    codes.foldl (fun st ec => handle_complete ec st) s = s := by
  induction codes with
  | nil => rfl
  | cons ec t ih =>
    simp only [List.foldl_cons]
    rw [version_handler_cleared ec s h, ih]

/-- C26: `protocol_version::handle_complete` invokes the start handler at most once.
After `start(handler)`, for every sequence of calls `handle_complete(ec_1)`, ...,
`handle_complete(ec_n)` with `n ≥ 1`, the handler is invoked exactly once, with `ec_1`:
the first call appends that invocation and clears the stored handler, and every later
call leaves the state as it is. -/
theorem version_handler_once (to_network_address : authority → network_address)
    (time_stamp : Nat) (MVS_VERSION : String) (height : Nat) (settings : settings)
    (handler : event_handler) (nonce : Nat) (authority : authority)
    (hh : height < 2 ^ 32 - 1) :
    ∃ s0 : state,
      start to_network_address time_stamp MVS_VERSION height settings handler
          (state.fresh nonce authority) = some s0
      ∧ s0.complete_handler_ = some handler
      ∧ (∀ (ec1 : code) (rest : List code),
          (ec1 :: rest).foldl (fun st ec => handle_complete ec st) s0
            = { s0 with
                trace := s0.trace ++ [action.invoked handler ec1],
                complete_handler_ := none })
      ∧ (∀ (ec1 : code) (rest : List code),
          handler_codes ((ec1 :: rest).foldl (fun st ec => handle_complete ec st) s0).trace
            = [ec1])
      ∧ (∀ (ec : code) (s : state), s.complete_handler_ = none → handle_complete ec s = s) := by
  obtain ⟨s0, hs0, hw⟩ := start_waiting to_network_address time_stamp MVS_VERSION height
    settings handler nonce authority hh
  have hstored : s0.complete_handler_ = some handler := hw.2.1
  have hfirst : ∀ ec1 : code, handle_complete ec1 s0
      = { s0 with
          trace := s0.trace ++ [action.invoked handler ec1],
          complete_handler_ := none } := by
    intro ec1
    simp [handle_complete, hstored, state.emit]
  have htr : handler_codes s0.trace = [] := by
    have h1 : height < max_uint32 := by
      unfold max_uint32
      omega
    simp only [start, version_factory, h1, if_true, Option.some.injEq] at hs0
    subst hs0
    simp [send_version, state.emit, state.pend, state.fresh, handler_codes]
  refine ⟨s0, hs0, hstored, ?_, ?_, version_handler_cleared⟩
  · intro ec1 rest
    simp only [List.foldl_cons]
    rw [hfirst ec1, version_handler_rest rest _ rfl]
  · intro ec1 rest
    simp only [List.foldl_cons]
    rw [hfirst ec1, version_handler_rest rest _ rfl]
    simp [handler_codes_append, handler_codes, htr]

theorem version_handler_once_witness :
    100 < 2 ^ 32 - 1
    ∧ ∃ s0 : state,
      start (fun a => ⟨0, 0, [a.ip], a.port⟩) 1500000000 "0.8.2" 100
          ⟨70012, ⟨9, 5252⟩, true⟩ 1 (state.fresh 43690 ⟨5, 5251⟩) = some s0
      ∧ (∀ (ec1 : code) (rest : List code),
          handler_codes ((ec1 :: rest).foldl (fun st ec => handle_complete ec st) s0).trace
            = [ec1]) :=
  ⟨by decide,
    (version_handler_once (fun a => ⟨0, 0, [a.ip], a.port⟩) 1500000000 "0.8.2" 100
      ⟨70012, ⟨9, 5252⟩, true⟩ 1 43690 ⟨5, 5251⟩ (by decide)).elim
      (fun s0 h => ⟨s0, h.1, h.2.2.2.1⟩)⟩

end protocol_version

namespace protocol_seed

open message

/-- C29: `protocol_seed::start` with `host_pool_capacity == 0` completes at once with
not_found.  The state after the call is the state before it with two trace entries
appended, the invocation of the seed handler with not_found and then the stop of the
channel with not_found, and with the channel stopped.  So no timer is armed, no address
subscription is made, neither the own address nor `get_address` is sent, and no callback
is left pending. -/
theorem seed_protocol_empty_pool (to_network_address : authority → network_address)
    (settings : settings) (handler : event_handler) (s : state)
    (hcap : settings.host_pool_capacity = 0) :
    start to_network_address settings handler s
      = { s with
          trace := s.trace ++ [action.invoked handler error.not_found,
            action.stop error.not_found],
          stopped := true }
    ∧ handler_codes (start to_network_address settings handler s).trace
      = handler_codes s.trace ++ [error.not_found]
    ∧ sent_addresses (start to_network_address settings handler s).trace
      = sent_addresses s.trace
    ∧ recorded (start to_network_address settings handler s).trace = recorded s.trace
    ∧ (start to_network_address settings handler s).pending = s.pending
    ∧ (start to_network_address settings handler s).events = s.events := by
  have hd : start to_network_address settings handler s
      = { s with
          trace := s.trace ++ [action.invoked handler error.not_found,
            action.stop error.not_found],
          stopped := true } := by
    simp [start, hcap, handle_seeding_complete, state.emit]
  rw [hd]
  exact ⟨rfl, by simp [seed_handler_codes_append, handler_codes],
    by simp [sent_addresses_append, sent_addresses],
    by simp [seed_recorded_append, recorded], rfl, rfl⟩

theorem seed_protocol_empty_pool_witness :
    (settings.mk 0 ⟨9, 5252⟩).host_pool_capacity = 0
    ∧ start (fun a => ⟨0, 0, [a.ip], a.port⟩) ⟨0, ⟨9, 5252⟩⟩ 1 state.fresh
      = { state.fresh with
          trace := state.fresh.trace ++ [action.invoked 1 error.not_found,
            action.stop error.not_found],
          stopped := true } :=
  ⟨rfl,
    (seed_protocol_empty_pool (fun a => ⟨0, 0, [a.ip], a.port⟩) ⟨0, ⟨9, 5252⟩⟩ 1
      state.fresh rfl).1⟩

end protocol_seed
end network
end libbitcoin
